import Mathlib

/-!
# TCP-Chat: the Lobby / ChatRoom coordination layer of `server.go`

A shallow embedding of the server side of the chat program and theorems about it.

Modelling conventions

* Go pointers `*Client` and `*ChatRoom` are object identities (`ClientId`, `RoomId`) into
  two heaps carried by the state (`clientHeap`, `roomHeap`); `nil` is `none`.
* `client.outgoing` is an unbuffered channel drained by the client's write pump.  The state
  keeps `sent`, the sequence of all sends `client.outgoing <- str` made so far (oldest
  first, each with the client whose channel it went to), and for each client whether the
  channel has been closed.  `Lobby.outgoing l c` is what went to the channel of `c`.
  A send on a closed channel and closing a closed channel panic in Go: every operation
  returns `Option Lobby` and `none` is that panic.  Blocking is not modelled.
* Every `time.Now()` read made by an operation is an explicit argument of it.  `time.Time`
  and `time.Duration` are natural numbers of nanoseconds.
* `time.Format(time.Kitchen)` is a parameter `kitchen : Time → String`.
* `fmt.Sprintf` is modelled for the only verb the format constants use, `%s`, together with
  Go's `%!s(MISSING)` and `%!(EXTRA ...)` diagnostics.
* `log.Println` has no effect on the state and is left out.
* The goroutines that sleep and then send a room on `lobby.delete` are the list `timers`.
* `activity` is a history variable: the calls of `NewChatRoom` and `ChatRoom.Broadcast` made
  so far, each with the room and the clock reading of the call.  No operation reads it.
-/

namespace TCPChat

abbrev ClientId := Nat
abbrev RoomId := Nat
abbrev Time := Nat

/-! ## Go library functions used by the server -/

/-- Go `strings.HasPrefix`. -/
def HasPrefix (s pre : String) : Bool := pre.data.isPrefixOf s.data

/-- Go `strings.TrimPrefix`: `s` without the leading `pre`, or `s` itself when `s` does not
start with `pre`. -/
def TrimPrefix (s pre : String) : String :=
  if HasPrefix s pre then String.mk (s.data.drop pre.data.length) else s

/-- Go `strings.HasSuffix`. -/
def HasSuffix (s suf : String) : Bool := suf.data.isSuffixOf s.data

/-- Go `strings.TrimSuffix`: `s` without the trailing `suf`, or `s` itself when `s` does not
end with `suf`. -/
def TrimSuffix (s suf : String) : String :=
  if HasSuffix s suf then String.mk (s.data.take (s.data.length - suf.data.length)) else s

/-- The text `fmt.Sprintf` appends when operands are left over after the format is used up. -/
def sprintfExtra (args : List String) : List Char :=
  "%!(EXTRA ".data ++ (String.intercalate ", " (args.map (fun a => "string=" ++ a))).data ++ ")".data

/-- The body of `fmt.Sprintf` for string operands and the verb `%s`. -/
def sprintfAux : List Char → List String → List Char
  | [], [] => []
  | [], a :: args => sprintfExtra (a :: args)
  | c :: rest, args =>
    if c = '%' then
      match rest, args with
      | 's' :: rest', a :: args' => a.data ++ sprintfAux rest' args'
      | 's' :: rest', [] => "%!s(MISSING)".data ++ sprintfAux rest' []
      | rest', args' => c :: sprintfAux rest' args'
    else c :: sprintfAux rest args

/-- Go `fmt.Sprintf(format, args...)` with string operands. -/
def Sprintf (format : String) (args : List String) : String :=
  String.mk (sprintfAux format.data args)

/-! ## Constants of `server.go` -/

def MAX_CLIENTS : Nat := 10
def CMD_PREFIX : String := "/"
def CMD_CRIAR : String := CMD_PREFIX ++ "criar"
def CMD_LISTA : String := CMD_PREFIX ++ "lista"
def CMD_JUNTAR : String := CMD_PREFIX ++ "juntar"
def CMD_DEIXAR : String := CMD_PREFIX ++ "deixar"
def CMD_AJUDA : String := CMD_PREFIX ++ "ajuda"
def CMD_NOME : String := CMD_PREFIX ++ "nome"
def CMD_SAIR : String := CMD_PREFIX ++ "sair"

def CLIENT_NAME : String := "Cliente"
def SERVER_NAME : String := "Servidor"

def ERROR_PREFIX : String := "Erro: "
def ERROR_ENVIAR : String := ERROR_PREFIX ++ "Voce nao pode enviar mensagens neste servidor.\n"
def ERROR_CRIAR : String := ERROR_PREFIX ++ "Um chat com este nome ja existe.\n"
def ERROR_JUNTAR : String := ERROR_PREFIX ++ "Um chat com este nome nao existe.\n"
def ERROR_DEIXAR : String := ERROR_PREFIX ++ "Voce nao pode deixar este chat.\n"
def NOTICE_PREFIX : String := "Alerta: "
def NOTICE_ROOM_JUNTAR : String := NOTICE_PREFIX ++ "\"%s\" Se juntar ao chat.\n"
def NOTICE_ROOM_DEIXAR : String := NOTICE_PREFIX ++ "\"%s\" Deixar o chat.\n"
def NOTICE_ROOM_NOME : String := NOTICE_PREFIX ++ "\"%s\" Mudar o nome \"%s\".\n"
def NOTICE_ROOM_DELETAR : String := NOTICE_PREFIX ++ "O chat esta inativo e sera deletado.\n"
def NOTICE_PERSONAL_CRIAR : String := NOTICE_PREFIX ++ "Criar sala de chat \"%s\".\n"
def NOTICE_PERSONAL_NOME : String := NOTICE_PREFIX ++ "Mudar o nome para \"\".\n"
def MSG_CONECTAR : String :=
  "Bem vindo ao servidor! Digite \"/ajuda\" para acessar a lista de comandos.\n"
def MSG_CHEIO : String := "O servidor esta cheio. Por favor tente se conectar mais tarde."

/-- The constant `EXPIRY_TIME = 7 * 24 * time.Hour`, in nanoseconds. -/
def EXPIRY_TIME : Nat := 7 * 24 * (3600 * 1000000000)

/-! ## Data model -/

/-- The Go struct `Client`, without the reader and writer of its connection. -/
structure Client where
  name : String
  chatRoom : Option RoomId
  /-- Whether `close(client.outgoing)` has run. -/
  outgoingClosed : Bool
  /-- Whether `client.conn.Close()` has run. -/
  connClosed : Bool
  deriving DecidableEq, Repr

/-- The Go struct `ChatRoom`. -/
structure ChatRoom where
  name : String
  clients : List ClientId
  messages : List String
  expiry : Time
  deriving DecidableEq, Repr

/-- The Go struct `Message`. -/
structure Message where
  time : Time
  client : ClientId
  text : String
  deriving DecidableEq, Repr

/-- The Go struct `Lobby` together with the objects its pointers reach. `clients` and
`chatRooms` are the fields of the struct, the map being a list of entries with distinct
keys. `clientHeap` and `roomHeap` give the object behind each pointer, `nextRoom` is the
identity `NewChatRoom` gives its next room, `timers` lists the rooms for which a
goroutine is sleeping before it sends the room on `lobby.delete`, `sent` lists the
sends on the clients' `outgoing` channels in the order they were made, and `activity` lists
the calls of `NewChatRoom` and `ChatRoom.Broadcast` with their clock readings. -/
structure Lobby where
  clients : List ClientId
  chatRooms : List (String × RoomId)
  clientHeap : ClientId → Client
  roomHeap : RoomId → ChatRoom
  nextRoom : RoomId
  timers : List RoomId
  sent : List (ClientId × String)
  activity : List (RoomId × Time)

/-- The object `NewClient` returns. -/
def NewClient : Client :=
  { name := CLIENT_NAME, chatRoom := none, outgoingClosed := false, connClosed := false }

/-- The object `NewChatRoom(name)` returns when `time.Now()` reads `now`. -/
def NewChatRoom (name : String) (now : Time) : ChatRoom :=
  { name := name, clients := [], messages := [], expiry := now + EXPIRY_TIME }

/-- The state `NewLobby` returns: no client registered, no room, every client object as
`NewClient` made it. -/
def NewLobby : Lobby :=
  { clients := [], chatRooms := [], clientHeap := fun _ => NewClient,
    roomHeap := fun _ => NewChatRoom "" 0, nextRoom := 0, timers := [], sent := [],
    activity := [] }

/-- The strings sent on `client.outgoing` so far, oldest first. -/
def Lobby.outgoing (l : Lobby) (client : ClientId) : List String :=
  (l.sent.filter (fun e => decide (e.1 = client))).map Prod.snd

/-! ## Heap and map primitives -/

/-- Store `v` as the client object `c`. -/
def Lobby.setClient (l : Lobby) (c : ClientId) (v : Client) : Lobby :=
  { l with clientHeap := fun j => if j = c then v else l.clientHeap j }

/-- Store `v` as the room object `r`. -/
def Lobby.setRoom (l : Lobby) (r : RoomId) (v : ChatRoom) : Lobby :=
  { l with roomHeap := fun j => if j = r then v else l.roomHeap j }

/-- Go map read `m[name]`. -/
def mapGet : List (String × RoomId) → String → Option RoomId
  | [], _ => none
  | (k, v) :: m, name => if k = name then some v else mapGet m name

/-- Go `delete(m, name)`. -/
def mapDelete (m : List (String × RoomId)) (name : String) : List (String × RoomId) :=
  m.filter (fun kv => decide (kv.1 ≠ name))

/-- Go map write `m[name] = r`. -/
def mapSet (m : List (String × RoomId)) (name : String) (r : RoomId) : List (String × RoomId) :=
  mapDelete m name ++ [(name, r)]

/-- The loop
`for i, other := range xs { if client == other { xs = append(xs[:i], xs[i+1:]...); break } }`:
the first occurrence of `client` is taken out. -/
def removeFirst (client : ClientId) : List ClientId → List ClientId
  | [] => []
  | other :: xs => if client = other then xs else other :: removeFirst client xs

/-- The send `client.outgoing <- str`. -/
def send (l : Lobby) (client : ClientId) (str : String) : Option Lobby :=
  if (l.clientHeap client).outgoingClosed then none
  else some { l with sent := l.sent ++ [(client, str)] }

/-- The statement `close(client.outgoing)`. -/
def closeOutgoing (l : Lobby) (client : ClientId) : Option Lobby :=
  if (l.clientHeap client).outgoingClosed then none
  else some (l.setClient client { l.clientHeap client with outgoingClosed := true })

/-- Consecutive sends of the strings `strs` to one client. -/
def sends (l : Lobby) (client : ClientId) : List String → Option Lobby
  | [] => some l
  | str :: strs => (send l client str).bind (fun l' => sends l' client strs)

/-- The loop `for _, client := range clients { client.outgoing <- message }`. -/
def sendAll (l : Lobby) : List ClientId → String → Option Lobby
  | [], _ => some l
  | client :: clients, message =>
    (send l client message).bind (fun l' => sendAll l' clients message)

/-- The loop `for _, client := range clients { client.chatRoom = nil }`. -/
def clearRooms (l : Lobby) : List ClientId → Lobby
  | [] => l
  | client :: clients =>
    clearRooms (l.setClient client { l.clientHeap client with chatRoom := none }) clients

/-! ## `Client` and `Message` methods -/

/-- The method `Client.Quit`: closes the connection. -/
def Client.Quit (l : Lobby) (client : ClientId) : Lobby :=
  l.setClient client { l.clientHeap client with connClosed := true }

/-- The method `Message.String`. -/
def Message.String (kitchen : Time → String) (l : Lobby) (message : Message) : String :=
  Sprintf "%s - %s: %s\n" [kitchen message.time, (l.clientHeap message.client).name, message.text]

/-! ## `ChatRoom` methods -/

/-- The method `ChatRoom.Broadcast`. The call is also recorded in `activity`, with the
clock reading that sets the expiry. -/
def ChatRoom.Broadcast (l : Lobby) (chatRoom : RoomId) (now : Time) (message : String) :
    Option Lobby :=
  let l1 := { l.setRoom chatRoom { l.roomHeap chatRoom with expiry := now + EXPIRY_TIME } with
    activity := l.activity ++ [(chatRoom, now)] }
  let l2 := l1.setRoom chatRoom
    { l1.roomHeap chatRoom with messages := (l1.roomHeap chatRoom).messages ++ [message] }
  sendAll l2 (l2.roomHeap chatRoom).clients message

/-- The method `ChatRoom.Join`. -/
def ChatRoom.Join (l : Lobby) (chatRoom : RoomId) (client : ClientId) (now : Time) :
    Option Lobby :=
  let l1 := l.setClient client { l.clientHeap client with chatRoom := some chatRoom }
  (sends l1 client (l1.roomHeap chatRoom).messages).bind fun l2 =>
  let l3 := l2.setRoom chatRoom
    { l2.roomHeap chatRoom with clients := (l2.roomHeap chatRoom).clients ++ [client] }
  ChatRoom.Broadcast l3 chatRoom now (Sprintf NOTICE_ROOM_JUNTAR [(l3.clientHeap client).name])

/-- The method `ChatRoom.Leave`. -/
def ChatRoom.Leave (l : Lobby) (chatRoom : RoomId) (client : ClientId) (now : Time) :
    Option Lobby :=
  (ChatRoom.Broadcast l chatRoom now
    (Sprintf NOTICE_ROOM_DEIXAR [(l.clientHeap client).name])).bind fun l1 =>
  let l2 := l1.setRoom chatRoom
    { l1.roomHeap chatRoom with clients := removeFirst client (l1.roomHeap chatRoom).clients }
  some (l2.setClient client { l2.clientHeap client with chatRoom := none })

/-- The method `ChatRoom.Delete`. -/
def ChatRoom.Delete (l : Lobby) (chatRoom : RoomId) (now : Time) : Option Lobby :=
  (ChatRoom.Broadcast l chatRoom now NOTICE_ROOM_DELETAR).bind fun l1 =>
  some (clearRooms l1 (l1.roomHeap chatRoom).clients)

/-! ## `Lobby` methods -/

/-- The method `Lobby.Join`. The relay goroutine it starts is the source of the later
`incoming` and `leave` events of the client. -/
def Lobby.Join (l : Lobby) (client : ClientId) : Option Lobby :=
  if l.clients.length ≥ MAX_CLIENTS then some (Client.Quit l client)
  else send { l with clients := l.clients ++ [client] } client MSG_CONECTAR

/-- The method `Lobby.Leave`. -/
def Lobby.Leave (l : Lobby) (client : ClientId) (now : Time) : Option Lobby :=
  (match (l.clientHeap client).chatRoom with
    | some chatRoom => ChatRoom.Leave l chatRoom client now
    | none => some l).bind fun l1 =>
  closeOutgoing { l1 with clients := removeFirst client l1.clients } client

/-- The method `Lobby.DeleteChatRoom`; `now` is the clock read by the test and `now'` the
one read by the broadcast of the deletion notice. -/
def Lobby.DeleteChatRoom (l : Lobby) (chatRoom : RoomId) (now now' : Time) : Option Lobby :=
  if (l.roomHeap chatRoom).expiry > now then
    some { l with timers := l.timers ++ [chatRoom] }
  else
    (ChatRoom.Delete l chatRoom now').bind fun l1 =>
    some { l1 with chatRooms := mapDelete l1.chatRooms (l1.roomHeap chatRoom).name }

/-- The method `Lobby.SendMessage`. -/
def Lobby.SendMessage (kitchen : Time → String) (l : Lobby) (message : Message) (now : Time) :
    Option Lobby :=
  match (l.clientHeap message.client).chatRoom with
  | none => send l message.client ERROR_ENVIAR
  | some chatRoom => ChatRoom.Broadcast l chatRoom now (Message.String kitchen l message)

/-- The method `Lobby.CreateChatRoom`. The call of `NewChatRoom` is also recorded in
`activity`. -/
def Lobby.CreateChatRoom (l : Lobby) (client : ClientId) (name : String) (now : Time) :
    Option Lobby :=
  match mapGet l.chatRooms name with
  | some _ => send l client ERROR_CRIAR
  | none =>
    let chatRoom := l.nextRoom
    let l1 := { l.setRoom chatRoom (NewChatRoom name now) with
      nextRoom := l.nextRoom + 1, activity := l.activity ++ [(chatRoom, now)] }
    let l2 := { l1 with chatRooms := mapSet l1.chatRooms name chatRoom }
    let l3 := { l2 with timers := l2.timers ++ [chatRoom] }
    send l3 client (Sprintf NOTICE_PERSONAL_CRIAR [(l3.roomHeap chatRoom).name])

/-- The method `Lobby.LeaveChatRoom`. -/
def Lobby.LeaveChatRoom (l : Lobby) (client : ClientId) (now : Time) : Option Lobby :=
  match (l.clientHeap client).chatRoom with
  | none => send l client ERROR_DEIXAR
  | some chatRoom => ChatRoom.Leave l chatRoom client now

/-- The method `Lobby.JoinChatRoom`; `now` is the clock read while leaving the previous
room and `now'` the one read while joining. -/
def Lobby.JoinChatRoom (l : Lobby) (client : ClientId) (name : String) (now now' : Time) :
    Option Lobby :=
  match mapGet l.chatRooms name with
  | none => send l client ERROR_JUNTAR
  | some _ =>
    (if (l.clientHeap client).chatRoom ≠ none then Lobby.LeaveChatRoom l client now
      else some l).bind fun l1 =>
    match mapGet l1.chatRooms name with
    | none => none -- a method call through a nil pointer
    | some chatRoom => ChatRoom.Join l1 chatRoom client now'

/-- The method `Lobby.ChangeName`. -/
def Lobby.ChangeName (l : Lobby) (client : ClientId) (name : String) (now : Time) :
    Option Lobby :=
  (match (l.clientHeap client).chatRoom with
    | none => send l client (Sprintf NOTICE_PERSONAL_NOME [name])
    | some chatRoom =>
      ChatRoom.Broadcast l chatRoom now
        (Sprintf NOTICE_ROOM_NOME [(l.clientHeap client).name, name])).bind fun l1 =>
  some (l1.setClient client { l1.clientHeap client with name := name })

/-- The method `Lobby.ListChatRooms`. Go ranges over the map in an unspecified order; the
model uses the order of the entry list. -/
def Lobby.ListChatRooms (l : Lobby) (client : ClientId) : Option Lobby :=
  sends l client
    (["\n", "Chat Rooms:\n"] ++ l.chatRooms.map (fun kv => Sprintf "%s\n" [kv.1]) ++ ["\n"])

/-- The method `Lobby.Help`. -/
def Lobby.Help (l : Lobby) (client : ClientId) : Option Lobby :=
  sends l client
    ["\n", "Commandos:\n", "/ajuda - lista todos os comandos\n",
     "/lista - lista todas as salas\n", "/criar foo - cria uma sala com o nome foo\n",
     "/juntar a foo - se junta a um chat chamado foo\n", "/deixar - deixa a sala atual\n",
     "/nome foo - altera seu nome para foo\n", "/sair - sair do programa\n", "\n"]

/-- The method `Lobby.Parse`: the first matching case of the switch, in source order, and
`SendMessage` when none matches. -/
def Lobby.Parse (kitchen : Time → String) (l : Lobby) (message : Message) (now now' : Time) :
    Option Lobby :=
  if HasPrefix message.text CMD_CRIAR then
    Lobby.CreateChatRoom l message.client
      (TrimSuffix (TrimPrefix message.text (CMD_CRIAR ++ " ")) "\n") now
  else if HasPrefix message.text CMD_LISTA then
    Lobby.ListChatRooms l message.client
  else if HasPrefix message.text CMD_JUNTAR then
    Lobby.JoinChatRoom l message.client
      (TrimSuffix (TrimPrefix message.text (CMD_JUNTAR ++ " ")) "\n") now now'
  else if HasPrefix message.text CMD_DEIXAR then
    Lobby.LeaveChatRoom l message.client now
  else if HasPrefix message.text CMD_NOME then
    Lobby.ChangeName l message.client
      (TrimSuffix (TrimPrefix message.text (CMD_NOME ++ " ")) "\n") now
  else if HasPrefix message.text CMD_AJUDA then
    Lobby.Help l message.client
  else if HasPrefix message.text CMD_SAIR then
    some (Client.Quit l message.client)
  else
    Lobby.SendMessage kitchen l message now

/-! ## The event loop `Lobby.Listen` -/

/-- One value received by the `select` of `Lobby.Listen`, with the clock reads of its
handler. -/
inductive Event where
  | incoming (message : Message) (now now' : Time)
  | join (client : ClientId)
  | leave (client : ClientId) (now : Time)
  | delete (chatRoom : RoomId) (now now' : Time)
  deriving DecidableEq, Repr

/-- One iteration of the loop of `Lobby.Listen`. A room arrives on `lobby.delete` only from
a sleeping goroutine, which ends with that send; `none` is a panic of the handler or an
event that cannot occur. -/
def Lobby.Listen (kitchen : Time → String) (l : Lobby) : Event → Option Lobby
  | .incoming message now now' => Lobby.Parse kitchen l message now now'
  | .join client => Lobby.Join l client
  | .leave client now => Lobby.Leave l client now
  | .delete chatRoom now now' =>
    if chatRoom ∈ l.timers then
      Lobby.DeleteChatRoom { l with timers := removeFirst chatRoom l.timers } chatRoom now now'
    else none

/-- The loop of `Lobby.Listen` over a sequence of events. -/
def run (kitchen : Time → String) (l : Lobby) : List Event → Option Lobby
  | [] => some l
  | e :: es => (Lobby.Listen kitchen l e).bind (fun l' => run kitchen l' es)

/-! ## Definitions used to state the properties

The states the operations leave when they return, written without the panics. -/

/-- The state `ChatRoom.Broadcast` leaves when it returns. -/
def Lobby.afterBroadcast (l : Lobby) (r : RoomId) (now : Time) (m : String) : Lobby :=
  { l with
    roomHeap := fun j => if j = r then
        { l.roomHeap r with expiry := now + EXPIRY_TIME, messages := (l.roomHeap r).messages ++ [m] }
      else l.roomHeap j
    sent := l.sent ++ (l.roomHeap r).clients.map (fun c => (c, m))
    activity := l.activity ++ [(r, now)] }

/-- The state `ChatRoom.Join` leaves when it returns. -/
def Lobby.afterJoin (l : Lobby) (R : RoomId) (c : ClientId) (now : Time) : Lobby :=
  Lobby.afterBroadcast
    (Lobby.setRoom
      { l.setClient c { l.clientHeap c with chatRoom := some R } with
        sent := l.sent ++ (l.roomHeap R).messages.map (fun s => (c, s)) }
      R { l.roomHeap R with clients := (l.roomHeap R).clients ++ [c] })
    R now (Sprintf NOTICE_ROOM_JUNTAR [(l.clientHeap c).name])

/-- The state `CreateChatRoom` leaves when the name is free and the call returns. -/
def Lobby.afterCreate (l : Lobby) (c : ClientId) (n : String) (now : Time) : Lobby :=
  { l with
    chatRooms := l.chatRooms ++ [(n, l.nextRoom)]
    roomHeap := fun j => if j = l.nextRoom then NewChatRoom n now else l.roomHeap j
    nextRoom := l.nextRoom + 1
    timers := l.timers ++ [l.nextRoom]
    sent := l.sent ++ [(c, Sprintf NOTICE_PERSONAL_CRIAR [n])]
    activity := l.activity ++ [(l.nextRoom, now)] }

/-- The state `Lobby.DeleteChatRoom` leaves when the room has expired and the call
returns. -/
def Lobby.afterDelete (l : Lobby) (R : RoomId) (now' : Time) : Lobby :=
  let l1 := clearRooms (l.afterBroadcast R now' NOTICE_ROOM_DELETAR)
    ((l.afterBroadcast R now' NOTICE_ROOM_DELETAR).roomHeap R).clients
  { l1 with chatRooms := mapDelete l1.chatRooms (l1.roomHeap R).name }

/-- The calls `R.Broadcast(t)` for the texts of `ts` in order, each with its clock reading. -/
def broadcasts (l : Lobby) (R : RoomId) : List (Time × String) → Option Lobby
  | [] => some l
  | (now, t) :: ts => (ChatRoom.Broadcast l R now t).bind (fun l' => broadcasts l' R ts)

/-! ### Conditions on states -/

/-- Room `r` is a value of the map `lobby.chatRooms`. -/
def Lobby.Registered (l : Lobby) (r : RoomId) : Prop :=
  ∃ name, mapGet l.chatRooms name = some r

/-- The registry is a map whose entries are live rooms filed under their own names, and
every sleeping expiry goroutine holds a registered room, each room at most once. -/
structure Lobby.RegistryOk (l : Lobby) : Prop where
  keys : (l.chatRooms.map Prod.fst).Nodup
  names : ∀ kv ∈ l.chatRooms, (l.roomHeap kv.2).name = kv.1
  fresh : ∀ kv ∈ l.chatRooms, kv.2 < l.nextRoom
  timersNodup : l.timers.Nodup
  timersReg : ∀ r ∈ l.timers, ∃ name, (name, r) ∈ l.chatRooms

/-- Room references and member lists agree: a roomless client is in no registered room, and
a client with a room is once in that room, which is registered, and in no other one. -/
structure Lobby.MembersOk (l : Lobby) : Prop where
  roomless : ∀ c, (l.clientHeap c).chatRoom = none →
    ∀ kv ∈ l.chatRooms, c ∉ (l.roomHeap kv.2).clients
  member : ∀ c R, (l.clientHeap c).chatRoom = some R →
    (∃ name, (name, R) ∈ l.chatRooms) ∧ (l.roomHeap R).clients.count c = 1 ∧
      ∀ kv ∈ l.chatRooms, kv.2 ≠ R → c ∉ (l.roomHeap kv.2).clients

/-- The two states agree on everything the registry and membership conditions read. -/
structure Lobby.SameShape (l l' : Lobby) : Prop where
  chatRooms : l'.chatRooms = l.chatRooms
  timers : l'.timers = l.timers
  nextRoom : l'.nextRoom = l.nextRoom
  roomName : ∀ r, (l'.roomHeap r).name = (l.roomHeap r).name
  roomClients : ∀ r, (l'.roomHeap r).clients = (l.roomHeap r).clients
  chatRoom : ∀ c, (l'.clientHeap c).chatRoom = (l.clientHeap c).chatRoom

/-- The clock reading of the latest call of `NewChatRoom` or `ChatRoom.Broadcast` on room
`r` recorded in the log, if there is one. -/
def lastActivity (log : List (RoomId × Time)) (r : RoomId) : Option Time :=
  ((log.filter (fun e => decide (e.1 = r))).getLast?).map Prod.snd

/-- The expiry of a room with recorded activity is the reading of its latest activity plus
`EXPIRY_TIME`, and every registered room has recorded activity. -/
structure Lobby.ActivityOk (l : Lobby) : Prop where
  expiry : ∀ r T, lastActivity l.activity r = some T → (l.roomHeap r).expiry = T + EXPIRY_TIME
  active : ∀ kv ∈ l.chatRooms, ∃ T, lastActivity l.activity kv.2 = some T

/-- From `l` to `l'` every room either kept its expiry and its latest activity, or its
expiry is the reading of its latest activity plus `EXPIRY_TIME`; and every room registered
in `l'` was registered in `l` or has recorded activity. -/
structure Lobby.Act (l l' : Lobby) : Prop where
  room : ∀ r, ((l'.roomHeap r).expiry = (l.roomHeap r).expiry ∧
      lastActivity l'.activity r = lastActivity l.activity r) ∨
    ∃ T, lastActivity l'.activity r = some T ∧ (l'.roomHeap r).expiry = T + EXPIRY_TIME
  reg : ∀ kv ∈ l'.chatRooms, kv ∈ l.chatRooms ∨ ∃ T, lastActivity l'.activity kv.2 = some T

/-! ### Concrete states and runs -/

/-- Kitchen clock text used in the concrete runs. -/
def kitchen0 : Time → String := fun _ => "3:04PM"

/-- A run in which client 0 creates rooms `a` and `b` and joins `a`, client 1 joins `a`,
client 0 moves to `b`, and room `a` expires. -/
def run1 : List Event :=
  [.join 0, .join 1, .incoming ⟨1, 0, "/criar a"⟩ 1 1, .incoming ⟨2, 0, "/criar b"⟩ 2 2,
   .incoming ⟨3, 0, "/juntar a"⟩ 3 3, .incoming ⟨4, 1, "/juntar a"⟩ 4 4,
   .incoming ⟨5, 0, "/juntar b"⟩ 5 6, .delete 0 (7 + EXPIRY_TIME) (8 + EXPIRY_TIME)]

/-- Eleven clients connect one after the other. -/
def run2 : List Event :=
  [.join 0, .join 1, .join 2, .join 3, .join 4, .join 5, .join 6, .join 7, .join 8, .join 9,
   .join 10]

/-- A state with one room, number 0, whose members are clients 1, 2 and again 1. -/
def lobby3 : Lobby :=
  NewLobby.setRoom 0 { name := "a", clients := [1, 2, 1], messages := ["x"], expiry := 5 }

/-- Clients 0 and 1 connect, client 0 creates room `a`, and both join it. -/
def run4 : List Event :=
  [.join 0, .join 1, .incoming ⟨1, 0, "/criar a"⟩ 1 1, .incoming ⟨2, 0, "/juntar a"⟩ 2 2,
   .incoming ⟨3, 1, "/juntar a"⟩ 3 3]

/-- The state after `run4`. -/
def lobby4 : Lobby := (run kitchen0 NewLobby run4).getD NewLobby

/-- A state with room 0 holding client 1 and the history `m1`, `m2`. -/
def lobby5 : Lobby :=
  NewLobby.setRoom 0 { name := "a", clients := [1], messages := ["m1", "m2"], expiry := 5 }

/-- Client 0 creates rooms `a` and `b` and joins `a`, client 1 joins `a`, client 0 moves to
`b`. -/
def run9 : List Event :=
  [.join 0, .join 1, .incoming ⟨1, 0, "/criar a"⟩ 1 1, .incoming ⟨2, 0, "/criar b"⟩ 2 2,
   .incoming ⟨3, 0, "/juntar a"⟩ 3 3, .incoming ⟨4, 1, "/juntar a"⟩ 4 4,
   .incoming ⟨5, 0, "/juntar b"⟩ 5 6]

/-- The state after `run9`. -/
def lobby9 : Lobby := (run kitchen0 NewLobby run9).getD NewLobby

/-- The expiry check of room 0 arriving at the state `lobby9` at the reading
`5 + EXPIRY_TIME`. -/
def event10 : Event := .delete 0 (5 + EXPIRY_TIME) (6 + EXPIRY_TIME)

/-- The state `ChangeName` leaves for a roomless client when it returns. -/
def Lobby.afterPersonalRename (l : Lobby) (c : ClientId) (n : String) : Lobby :=
  Lobby.setClient { l with sent := l.sent ++ [(c, Sprintf NOTICE_PERSONAL_NOME [n])] } c
    { l.clientHeap c with name := n }

/-- The state `ChangeName` leaves for a client in room `R` when it returns. -/
def Lobby.afterRoomRename (l : Lobby) (R : RoomId) (c : ClientId) (n : String) (now : Time) :
    Lobby :=
  Lobby.setClient (l.afterBroadcast R now (Sprintf NOTICE_ROOM_NOME [(l.clientHeap c).name, n]))
    c { l.clientHeap c with name := n }

/-- Ten clients connect one after the other. -/
def run14 : List Event :=
  [.join 0, .join 1, .join 2, .join 3, .join 4, .join 5, .join 6, .join 7, .join 8, .join 9]

/-- The state after `run14`: the registry is full. -/
def lobby14 : Lobby := (run kitchen0 NewLobby run14).getD NewLobby

/-- The goroutines of the server that run operations of the Lobby. -/
inductive Goroutine where
  | eventLoop
  | acceptLoop
  deriving DecidableEq, Repr

/-- One call into the Lobby: a value handled by the loop of `Lobby.Listen`, or one
iteration of the accept loop of `main`, whose body is `lobby.Join(NewClient(conn))`. -/
inductive Step where
  | listen (e : Event)
  | accept (client : ClientId)
  deriving DecidableEq, Repr

/-- The goroutine that runs the step. -/
def Step.goroutine : Step → Goroutine
  | .listen _ => .eventLoop
  | .accept _ => .acceptLoop

/-- The effect of the step on the state. -/
def Step.exec (kitchen : Time → String) (l : Lobby) : Step → Option Lobby
  | .listen e => Lobby.Listen kitchen l e
  | .accept client => Lobby.Join l client

/-- The event is `Lobby.Join(c)`. -/
def Event.isJoin (c : ClientId) : Event → Bool
  | .join c' => decide (c' = c)
  | _ => false

/-- The event is `Lobby.Leave(c)`. -/
def Event.isLeave (c : ClientId) : Event → Bool
  | .leave c' _ => decide (c' = c)
  | _ => false

/-- `Lobby.Join(c)` is among the events `h`. -/
def joined (h : List Event) (c : ClientId) : Bool := h.any (Event.isJoin c)

/-- `Lobby.Leave(c)` is among the events `h`. -/
def left (h : List Event) (c : ClientId) : Bool := h.any (Event.isLeave c)

/-- The event may come after the events `h`: a client is joined at most once, its Leave is
delivered at most once and after its Join (the relay goroutine that `Lobby.Join` starts
sends it), and no line of a client is dispatched after its Leave. -/
def admits (h : List Event) : Event → Prop
  | .join c => joined h c = false
  | .leave c _ => joined h c = true ∧ left h c = false
  | .incoming m _ _ => left h m.client = false
  | .delete _ _ _ => True

/-- Every event of the sequence may come after the ones before it, `h` being those that
came before the sequence. -/
def Admissible (h : List Event) : List Event → Prop
  | [] => True
  | e :: es => admits h e ∧ Admissible (h ++ [e]) es

/-- The two states agree on which channels are closed, and on the room reference of every
client other than `c`. -/
structure Lobby.ClientFrame (l l' : Lobby) (c : ClientId) : Prop where
  closed : ∀ x, (l'.clientHeap x).outgoingClosed = (l.clientHeap x).outgoingClosed
  chatRoom : ∀ x, x ≠ c → (l'.clientHeap x).chatRoom = (l.clientHeap x).chatRoom

/-- Closed channels belong to clients that left, and a client that left is out of the
registry and has no room; the registry holds joined clients, once each. -/
structure Lobby.ClosedOk (h : List Event) (l : Lobby) : Prop where
  closedLeft : ∀ c, (l.clientHeap c).outgoingClosed = true → left h c = true
  leftGone : ∀ c, left h c = true → c ∉ l.clients ∧ (l.clientHeap c).chatRoom = none
  nodup : l.clients.Nodup
  regJoined : ∀ c ∈ l.clients, joined h c = true
  leftJoined : ∀ c, left h c = true → joined h c = true

/-- Whether an event may come after the events `h` can be computed. -/
instance admitsDecidable (h : List Event) : (e : Event) → Decidable (admits h e)
  | .join c => inferInstanceAs (Decidable (joined h c = false))
  | .leave c _ => inferInstanceAs (Decidable (joined h c = true ∧ left h c = false))
  | .incoming m _ _ => inferInstanceAs (Decidable (left h m.client = false))
  | .delete _ _ _ => inferInstanceAs (Decidable True)

/-- Whether a sequence of events is admissible can be computed. -/
instance admissibleDecidable : (h es : List Event) → Decidable (Admissible h es)
  | _, [] => inferInstanceAs (Decidable True)
  | h, e :: es =>
    have := admissibleDecidable (h ++ [e]) es
    inferInstanceAs (Decidable (admits h e ∧ Admissible (h ++ [e]) es))

/-- Clients 0 and 1 connect, client 0 creates room `a`, both join it, and client 0
disconnects. -/
def run20 : List Event :=
  [.join 0, .join 1, .incoming ⟨1, 0, "/criar a"⟩ 1 1, .incoming ⟨2, 0, "/juntar a"⟩ 2 2,
   .incoming ⟨3, 1, "/juntar a"⟩ 3 3, .leave 0 9]

/-- The state after `run20`. -/
def lobby20 : Lobby := (run kitchen0 NewLobby run20).getD NewLobby

/-- The method `time.Time.Sub`: the duration `t - u`, a signed number of nanoseconds. -/
def Time.Sub (t u : Time) : Int := (t : Int) - (u : Int)

/-- The function `time.Sleep(d)` called when the clock reads `t`: the clock reading at which
it returns. A negative or zero duration makes it return at once. -/
def Sleep (t : Time) (d : Int) : Time := t + d.toNat

/-- The branch of `Lobby.DeleteChatRoom` for a room that has not expired, followed to the
send of the goroutine it starts, server.go 115-119: under the test
`chatRoom.expiry.After(time.Now())` the statement `go func() { ... }()`, whose body is
`time.Sleep(chatRoom.expiry.Sub(time.Now()))` and then `lobby.delete <- chatRoom`.
`DeleteChatRoom` runs with the clock readings `now`, `now'` and returns to the loop of
`Listen`, which handles the events `between` before the goroutine is scheduled. The
goroutine then reads `chatRoom.expiry` from the room object as the loop has left it and the
clock, which reads `now''`. The result is the state the goroutine reads, the argument of
`time.Sleep`, and the clock reading at which `Sleep` returns and the room is sent on
`lobby.delete`. It is `none` when a handler panics and when the room has expired, in which
case `DeleteChatRoom` starts no goroutine. -/
def Lobby.DeleteChatRoomThenSleep (kitchen : Time → String) (l : Lobby) (chatRoom : RoomId)
    (now now' : Time) (between : List Event) (now'' : Time) : Option (Lobby × Int × Time) :=
  if (l.roomHeap chatRoom).expiry > now then
    (Lobby.DeleteChatRoom l chatRoom now now').bind fun l1 =>
    (run kitchen l1 between).bind fun l2 =>
    let d := Time.Sub (l2.roomHeap chatRoom).expiry now''
    some (l2, d, Sleep now'' d)
  else none

/-! ## Helper lemmas: heap primitives and sends -/

@[simp] theorem setClient_clientHeap (l : Lobby) (c j : ClientId) (v : Client) :
    (l.setClient c v).clientHeap j = if j = c then v else l.clientHeap j := rfl
@[simp] theorem setClient_roomHeap (l : Lobby) (c : ClientId) (v : Client) :
    (l.setClient c v).roomHeap = l.roomHeap := rfl
@[simp] theorem setClient_clients (l : Lobby) (c : ClientId) (v : Client) :
    (l.setClient c v).clients = l.clients := rfl
@[simp] theorem setClient_chatRooms (l : Lobby) (c : ClientId) (v : Client) :
    (l.setClient c v).chatRooms = l.chatRooms := rfl
@[simp] theorem setClient_nextRoom (l : Lobby) (c : ClientId) (v : Client) :
    (l.setClient c v).nextRoom = l.nextRoom := rfl
@[simp] theorem setClient_timers (l : Lobby) (c : ClientId) (v : Client) :
    (l.setClient c v).timers = l.timers := rfl
@[simp] theorem setClient_sent (l : Lobby) (c : ClientId) (v : Client) :
    (l.setClient c v).sent = l.sent := rfl
@[simp] theorem setClient_activity (l : Lobby) (c : ClientId) (v : Client) :
    (l.setClient c v).activity = l.activity := rfl

@[simp] theorem setRoom_roomHeap (l : Lobby) (r j : RoomId) (v : ChatRoom) :
    (l.setRoom r v).roomHeap j = if j = r then v else l.roomHeap j := rfl
@[simp] theorem setRoom_clientHeap (l : Lobby) (r : RoomId) (v : ChatRoom) :
    (l.setRoom r v).clientHeap = l.clientHeap := rfl
@[simp] theorem setRoom_clients (l : Lobby) (r : RoomId) (v : ChatRoom) :
    (l.setRoom r v).clients = l.clients := rfl
@[simp] theorem setRoom_chatRooms (l : Lobby) (r : RoomId) (v : ChatRoom) :
    (l.setRoom r v).chatRooms = l.chatRooms := rfl
@[simp] theorem setRoom_nextRoom (l : Lobby) (r : RoomId) (v : ChatRoom) :
    (l.setRoom r v).nextRoom = l.nextRoom := rfl
@[simp] theorem setRoom_timers (l : Lobby) (r : RoomId) (v : ChatRoom) :
    (l.setRoom r v).timers = l.timers := rfl
@[simp] theorem setRoom_sent (l : Lobby) (r : RoomId) (v : ChatRoom) :
    (l.setRoom r v).sent = l.sent := rfl
@[simp] theorem setRoom_activity (l : Lobby) (r : RoomId) (v : ChatRoom) :
    (l.setRoom r v).activity = l.activity := rfl

theorem removeFirst_eq_erase (c : ClientId) (xs : List ClientId) :
    removeFirst c xs = xs.erase c := by
  induction xs with
  | nil => rfl
  | cons x xs ih =>
    by_cases h : c = x
    · subst h; simp [removeFirst]
    · have h' : x ≠ c := fun e => h e.symm
      simp [removeFirst, h, ih, List.erase_cons_tail, h']

/-- A send returns exactly when the channel is open, and then only extends `sent`. -/
theorem send_eq_some {l l' : Lobby} {c : ClientId} {s : String} :
    send l c s = some l' ↔
      (l.clientHeap c).outgoingClosed = false ∧ l' = { l with sent := l.sent ++ [(c, s)] } := by
  unfold send
  cases h : (l.clientHeap c).outgoingClosed <;> simp [eq_comm]

theorem sends_eq_some {l l' : Lobby} {c : ClientId} {strs : List String} :
    sends l c strs = some l' ↔
      (strs ≠ [] → (l.clientHeap c).outgoingClosed = false) ∧
        l' = { l with sent := l.sent ++ strs.map (fun s => (c, s)) } := by
  induction strs generalizing l with
  | nil =>
    simp only [sends, List.map_nil, List.append_nil, Option.some.injEq]
    constructor
    · rintro rfl; exact ⟨fun h => absurd rfl h, rfl⟩
    · rintro ⟨-, rfl⟩; rfl
  | cons s strs ih =>
    simp only [sends, Option.bind_eq_some, send_eq_some]
    constructor
    · rintro ⟨l1, ⟨ho, rfl⟩, h2⟩
      obtain ⟨-, rfl⟩ := ih.mp h2
      refine ⟨fun _ => ho, ?_⟩
      simp only [List.map_cons, List.append_assoc, List.singleton_append]
    · rintro ⟨ho, rfl⟩
      refine ⟨_, ⟨ho (by simp), rfl⟩, ih.mpr ⟨fun _ => ho (by simp), by simp⟩⟩

theorem sendAll_eq_some {l l' : Lobby} {cs : List ClientId} {m : String} :
    sendAll l cs m = some l' ↔
      (∀ c ∈ cs, (l.clientHeap c).outgoingClosed = false) ∧
        l' = { l with sent := l.sent ++ cs.map (fun c => (c, m)) } := by
  induction cs generalizing l with
  | nil =>
    simp only [sendAll, List.map_nil, List.append_nil, Option.some.injEq]
    constructor
    · rintro rfl; exact ⟨fun _ h => absurd h (List.not_mem_nil _), rfl⟩
    · rintro ⟨-, rfl⟩; rfl
  | cons c cs ih =>
    simp only [sendAll, Option.bind_eq_some, send_eq_some]
    constructor
    · rintro ⟨l1, ⟨ho, rfl⟩, h2⟩
      obtain ⟨hall, rfl⟩ := ih.mp h2
      refine ⟨?_, by simp only [List.map_cons, List.append_assoc, List.singleton_append]⟩
      intro x hx
      rcases List.mem_cons.mp hx with rfl | hx
      · exact ho
      · exact hall x hx
    · rintro ⟨ho, rfl⟩
      refine ⟨_, ⟨ho c (by simp), rfl⟩, ih.mpr ⟨fun x hx => ho x (by simp [hx]), by simp⟩⟩

/-- What went to the channel of `c` after some more sends. -/
theorem outgoing_append (l : Lobby) (extra : List (ClientId × String)) (c : ClientId) :
    Lobby.outgoing { l with sent := l.sent ++ extra } c =
      l.outgoing c ++ (extra.filter (fun e => decide (e.1 = c))).map Prod.snd := by
  simp [Lobby.outgoing]

theorem filter_map_pair (cs : List ClientId) (m : String) (c : ClientId) :
    ((cs.map (fun x => (x, m))).filter (fun e => decide (e.1 = c))).map Prod.snd =
      List.replicate (cs.count c) m := by
  induction cs with
  | nil => rfl
  | cons x cs ih =>
    by_cases h : x = c
    · subst h; simp [List.replicate_succ, ih]
    · simp [h, ih, List.count_cons]

theorem filter_map_single (strs : List String) (c d : ClientId) :
    ((strs.map (fun s => (c, s))).filter (fun e => decide (e.1 = d))).map Prod.snd =
      if c = d then strs else [] := by
  induction strs with
  | nil => simp
  | cons s strs ih =>
    by_cases h : c = d
    · subst h; simpa using ih
    · simp [h]

theorem Broadcast_eq_some {l l' : Lobby} {r : RoomId} {now : Time} {m : String} :
    ChatRoom.Broadcast l r now m = some l' ↔
      (∀ c ∈ (l.roomHeap r).clients, (l.clientHeap c).outgoingClosed = false) ∧
        l' = l.afterBroadcast r now m := by
  unfold ChatRoom.Broadcast
  simp only [sendAll_eq_some]
  simp only [setRoom_roomHeap, setRoom_clientHeap, if_true, setRoom_sent]
  apply and_congr Iff.rfl
  apply Eq.congr_right
  simp only [Lobby.afterBroadcast, Lobby.setRoom]
  congr 1
  funext j
  by_cases h : j = r <;> simp [h]


/-! ## Helper lemmas: the room map -/

theorem mapGet_mem {m : List (String × RoomId)} {k : String} {v : RoomId}
    (h : mapGet m k = some v) : (k, v) ∈ m := by
  induction m with
  | nil => simp [mapGet] at h
  | cons kv m ih =>
    obtain ⟨k', v'⟩ := kv
    by_cases hk : k' = k
    · simp [mapGet, hk] at h
      simp [hk, h]
    · simp [mapGet, hk] at h
      exact List.mem_cons_of_mem _ (ih h)

theorem mapGet_of_mem {m : List (String × RoomId)} {k : String} {v : RoomId}
    (hn : (m.map Prod.fst).Nodup) (h : (k, v) ∈ m) : mapGet m k = some v := by
  induction m with
  | nil => simp at h
  | cons kv m ih =>
    obtain ⟨k', v'⟩ := kv
    simp only [List.map_cons, List.nodup_cons, List.mem_map, not_exists, not_and] at hn
    rcases List.mem_cons.mp h with heq | hmem
    · injection heq with h1 h2
      simp [mapGet, h1, h2]
    · have hk : k' ≠ k := fun e => hn.1 (k, v) hmem e.symm
      simp [mapGet, hk, ih hn.2 hmem]

theorem mapGet_eq_none {m : List (String × RoomId)} {k : String} :
    mapGet m k = none ↔ ∀ v, (k, v) ∉ m := by
  induction m with
  | nil => simp [mapGet]
  | cons kv m ih =>
    obtain ⟨k', v'⟩ := kv
    by_cases hk : k' = k
    · subst hk
      simp only [mapGet, if_true, List.mem_cons, Prod.mk.injEq, true_and, not_or]
      constructor
      · intro h; cases h
      · intro h; exact absurd rfl (h v').1
    · simp only [mapGet, hk, if_false, ih, List.mem_cons, Prod.mk.injEq, not_or]
      constructor
      · intro h v
        exact ⟨fun e => hk e.1.symm, h v⟩
      · intro h v
        exact (h v).2

theorem mem_mapDelete {m : List (String × RoomId)} {k : String} {kv : String × RoomId} :
    kv ∈ mapDelete m k ↔ kv ∈ m ∧ kv.1 ≠ k := by
  simp [mapDelete]

theorem mapDelete_keys_nodup {m : List (String × RoomId)} (k : String)
    (hn : (m.map Prod.fst).Nodup) : ((mapDelete m k).map Prod.fst).Nodup :=
  hn.sublist ((List.filter_sublist m).map Prod.fst)

theorem mapGet_mapDelete_self (m : List (String × RoomId)) (k : String) :
    mapGet (mapDelete m k) k = none := by
  rw [mapGet_eq_none]
  intro v hv
  exact (mem_mapDelete.mp hv).2 rfl

theorem mapDelete_of_get_none {m : List (String × RoomId)} {k : String}
    (h : mapGet m k = none) : mapDelete m k = m := by
  rw [mapGet_eq_none] at h
  unfold mapDelete
  rw [List.filter_eq_self]
  intro kv hkv
  obtain ⟨k', v'⟩ := kv
  simp only [ne_eq, decide_eq_true_eq]
  intro e
  subst e
  exact h v' hkv

theorem registered_iff {l : Lobby} (hk : (l.chatRooms.map Prod.fst).Nodup) {r : RoomId} :
    l.Registered r ↔ ∃ name, (name, r) ∈ l.chatRooms :=
  ⟨fun ⟨n, h⟩ => ⟨n, mapGet_mem h⟩, fun ⟨n, h⟩ => ⟨n, mapGet_of_mem hk h⟩⟩

/-! ## Helper lemmas: operations that keep the shape -/

theorem sameShape_refl (l : Lobby) : l.SameShape l :=
  ⟨rfl, rfl, rfl, fun _ => rfl, fun _ => rfl, fun _ => rfl⟩

theorem sameShape_trans {l l' l'' : Lobby} (h : l.SameShape l') (h' : l'.SameShape l'') :
    l.SameShape l'' :=
  ⟨h'.chatRooms.trans h.chatRooms, h'.timers.trans h.timers, h'.nextRoom.trans h.nextRoom,
    fun r => (h'.roomName r).trans (h.roomName r),
    fun r => (h'.roomClients r).trans (h.roomClients r),
    fun c => (h'.chatRoom c).trans (h.chatRoom c)⟩

theorem registryOk_of_sameShape {l l' : Lobby} (h : l.SameShape l') (w : l.RegistryOk) :
    l'.RegistryOk where
  keys := by rw [h.chatRooms]; exact w.keys
  names := by
    intro kv hkv
    rw [h.chatRooms] at hkv
    rw [h.roomName]
    exact w.names kv hkv
  fresh := by
    intro kv hkv
    rw [h.chatRooms] at hkv
    rw [h.nextRoom]
    exact w.fresh kv hkv
  timersNodup := by rw [h.timers]; exact w.timersNodup
  timersReg := by
    intro r hr
    rw [h.timers] at hr
    rw [h.chatRooms]
    exact w.timersReg r hr

theorem membersOk_of_sameShape {l l' : Lobby} (h : l.SameShape l') (w : l.MembersOk) :
    l'.MembersOk where
  roomless := by
    intro c hc kv hkv
    rw [h.chatRoom] at hc
    rw [h.chatRooms] at hkv
    rw [h.roomClients]
    exact w.roomless c hc kv hkv
  member := by
    intro c R hc
    rw [h.chatRoom] at hc
    obtain ⟨h1, h2, h3⟩ := w.member c R hc
    rw [h.chatRooms, h.roomClients]
    refine ⟨h1, h2, ?_⟩
    intro kv hkv hne
    rw [h.roomClients]
    exact h3 kv hkv hne

theorem sameShape_sent (l : Lobby) (extra : List (ClientId × String)) :
    l.SameShape { l with sent := extra } :=
  ⟨rfl, rfl, rfl, fun _ => rfl, fun _ => rfl, fun _ => rfl⟩

theorem sameShape_clients (l : Lobby) (cs : List ClientId) :
    l.SameShape { l with clients := cs } :=
  ⟨rfl, rfl, rfl, fun _ => rfl, fun _ => rfl, fun _ => rfl⟩

theorem sameShape_send {l l' : Lobby} {c : ClientId} {s : String} (h : send l c s = some l') :
    l.SameShape l' := by
  obtain ⟨-, rfl⟩ := send_eq_some.mp h
  exact sameShape_sent l _

theorem sameShape_sends {l l' : Lobby} {c : ClientId} {strs : List String}
    (h : sends l c strs = some l') : l.SameShape l' := by
  obtain ⟨-, rfl⟩ := sends_eq_some.mp h
  exact sameShape_sent l _

theorem sameShape_afterBroadcast (l : Lobby) (r : RoomId) (now : Time) (m : String) :
    l.SameShape (l.afterBroadcast r now m) := by
  refine ⟨rfl, rfl, rfl, fun j => ?_, fun j => ?_, fun _ => rfl⟩
  · by_cases h : j = r <;> simp [Lobby.afterBroadcast, h]
  · by_cases h : j = r <;> simp [Lobby.afterBroadcast, h]

theorem sameShape_Broadcast {l l' : Lobby} {r : RoomId} {now : Time} {m : String}
    (h : ChatRoom.Broadcast l r now m = some l') : l.SameShape l' := by
  obtain ⟨-, rfl⟩ := Broadcast_eq_some.mp h
  exact sameShape_afterBroadcast l r now m

theorem sameShape_closeOutgoing {l l' : Lobby} {c : ClientId}
    (h : closeOutgoing l c = some l') : l.SameShape l' := by
  unfold closeOutgoing at h
  split at h
  · simp at h
  · injection h with h
    subst h
    refine ⟨rfl, rfl, rfl, fun _ => rfl, fun _ => rfl, fun j => ?_⟩
    by_cases hj : j = c <;> simp [hj]

theorem sameShape_Quit (l : Lobby) (c : ClientId) : l.SameShape (Client.Quit l c) := by
  refine ⟨rfl, rfl, rfl, fun _ => rfl, fun _ => rfl, fun j => ?_⟩
  by_cases hj : j = c <;> simp [Client.Quit, hj]

theorem sameShape_setName (l : Lobby) (c : ClientId) (n : String) :
    l.SameShape (l.setClient c { l.clientHeap c with name := n }) := by
  refine ⟨rfl, rfl, rfl, fun _ => rfl, fun _ => rfl, fun j => ?_⟩
  by_cases hj : j = c <;> simp [hj]


/-! ## Helper lemmas: the four changes of shape -/

theorem clearRooms_clientHeap (l : Lobby) (cs : List ClientId) (x : ClientId) :
    (clearRooms l cs).clientHeap x =
      if x ∈ cs then { l.clientHeap x with chatRoom := none } else l.clientHeap x := by
  induction cs generalizing l with
  | nil => simp [clearRooms]
  | cons c cs ih =>
    simp only [clearRooms, ih, setClient_clientHeap, List.mem_cons]
    by_cases hx : x = c
    · subst hx
      by_cases hm : x ∈ cs <;> simp [hm]
    · by_cases hm : x ∈ cs <;> simp [hm, hx]

theorem clearRooms_frame (l : Lobby) (cs : List ClientId) :
    (clearRooms l cs).clients = l.clients ∧ (clearRooms l cs).chatRooms = l.chatRooms ∧
      (clearRooms l cs).roomHeap = l.roomHeap ∧ (clearRooms l cs).nextRoom = l.nextRoom ∧
      (clearRooms l cs).timers = l.timers ∧ (clearRooms l cs).sent = l.sent := by
  induction cs generalizing l with
  | nil => simp [clearRooms]
  | cons c cs ih =>
    simp only [clearRooms]
    obtain ⟨h1, h2, h3, h4, h5, h6⟩ := ih (l.setClient c { l.clientHeap c with chatRoom := none })
    exact ⟨h1, h2, h3, h4, h5, h6⟩

/-- Taking a client out of its room keeps the registry and membership conditions. -/
theorem leave_ok {l l' : Lobby} {c : ClientId} {R : RoomId}
    (hR : l.RegistryOk) (hM : l.MembersOk) (hc : (l.clientHeap c).chatRoom = some R)
    (hrooms : l'.chatRooms = l.chatRooms) (htim : l'.timers = l.timers)
    (hnext : l'.nextRoom = l.nextRoom)
    (hname : ∀ r, (l'.roomHeap r).name = (l.roomHeap r).name)
    (hcl : ∀ r, (l'.roomHeap r).clients =
      if r = R then removeFirst c (l.roomHeap r).clients else (l.roomHeap r).clients)
    (href : ∀ x, (l'.clientHeap x).chatRoom = if x = c then none else (l.clientHeap x).chatRoom) :
    l'.RegistryOk ∧ l'.MembersOk := by
  have hsub : ∀ r x, x ∈ (l'.roomHeap r).clients → x ∈ (l.roomHeap r).clients := by
    intro r x hx
    rw [hcl] at hx
    split at hx
    · rw [removeFirst_eq_erase] at hx
      exact List.mem_of_mem_erase hx
    · exact hx
  constructor
  · exact
      { keys := by rw [hrooms]; exact hR.keys
        names := by
          intro kv hkv; rw [hrooms] at hkv; rw [hname]; exact hR.names kv hkv
        fresh := by
          intro kv hkv; rw [hrooms] at hkv; rw [hnext]; exact hR.fresh kv hkv
        timersNodup := by rw [htim]; exact hR.timersNodup
        timersReg := by
          intro r hr; rw [htim] at hr; rw [hrooms]; exact hR.timersReg r hr }
  · obtain ⟨-, hcount, hother⟩ := hM.member c R hc
    constructor
    · intro x hx kv hkv hmem
      rw [hrooms] at hkv
      rw [href] at hx
      by_cases hxc : x = c
      · subst hxc
        by_cases hkR : kv.2 = R
        · rw [hcl, if_pos hkR, removeFirst_eq_erase, hkR] at hmem
          have := List.count_erase_self x (l.roomHeap R).clients
          rw [hcount] at this
          exact absurd (List.count_pos_iff.mpr hmem) (by omega)
        · exact hother kv hkv hkR (hsub _ _ hmem)
      · rw [if_neg hxc] at hx
        exact hM.roomless x hx kv hkv (hsub _ _ hmem)
    · intro x R' hx
      rw [href] at hx
      by_cases hxc : x = c
      · rw [if_pos hxc] at hx; cases hx
      · rw [if_neg hxc] at hx
        obtain ⟨h1, h2, h3⟩ := hM.member x R' hx
        rw [hrooms]
        refine ⟨h1, ?_, fun kv hkv hne hmem => h3 kv hkv hne (hsub _ _ hmem)⟩
        rw [hcl]
        split
        · next hRR =>
          rw [removeFirst_eq_erase, List.count_erase_of_ne hxc]
          exact h2
        · exact h2

/-- Adding a roomless client to a registered room keeps the two conditions. -/
theorem join_ok {l l' : Lobby} {c : ClientId} {R : RoomId}
    (hR : l.RegistryOk) (hM : l.MembersOk) (hc : (l.clientHeap c).chatRoom = none)
    (hreg : ∃ name, (name, R) ∈ l.chatRooms)
    (hrooms : l'.chatRooms = l.chatRooms) (htim : l'.timers = l.timers)
    (hnext : l'.nextRoom = l.nextRoom)
    (hname : ∀ r, (l'.roomHeap r).name = (l.roomHeap r).name)
    (hcl : ∀ r, (l'.roomHeap r).clients =
      if r = R then (l.roomHeap r).clients ++ [c] else (l.roomHeap r).clients)
    (href : ∀ x, (l'.clientHeap x).chatRoom =
      if x = c then some R else (l.clientHeap x).chatRoom) :
    l'.RegistryOk ∧ l'.MembersOk := by
  constructor
  · exact
      { keys := by rw [hrooms]; exact hR.keys
        names := by
          intro kv hkv; rw [hrooms] at hkv; rw [hname]; exact hR.names kv hkv
        fresh := by
          intro kv hkv; rw [hrooms] at hkv; rw [hnext]; exact hR.fresh kv hkv
        timersNodup := by rw [htim]; exact hR.timersNodup
        timersReg := by
          intro r hr; rw [htim] at hr; rw [hrooms]; exact hR.timersReg r hr }
  · obtain ⟨nR, hnR⟩ := hreg
    have hcR : c ∉ (l.roomHeap R).clients := hM.roomless c hc (nR, R) hnR
    constructor
    · intro x hx kv hkv hmem
      rw [hrooms] at hkv
      rw [href] at hx
      by_cases hxc : x = c
      · rw [if_pos hxc] at hx; cases hx
      · rw [if_neg hxc] at hx
        rw [hcl] at hmem
        split at hmem
        · rcases List.mem_append.mp hmem with h | h
          · exact hM.roomless x hx kv hkv h
          · exact hxc (List.mem_singleton.mp h)
        · exact hM.roomless x hx kv hkv hmem
    · intro x R' hx
      rw [href] at hx
      rw [hrooms]
      by_cases hxc : x = c
      · subst hxc
        rw [if_pos rfl] at hx
        injection hx with hx
        subst hx
        refine ⟨⟨nR, hnR⟩, ?_, ?_⟩
        · rw [hcl, if_pos rfl, List.count_append, List.count_eq_zero_of_not_mem hcR]
          simp
        · intro kv hkv hne hmem
          rw [hcl, if_neg hne] at hmem
          exact hM.roomless x hc kv hkv hmem
      · rw [if_neg hxc] at hx
        obtain ⟨h1, h2, h3⟩ := hM.member x R' hx
        refine ⟨h1, ?_, ?_⟩
        · rw [hcl]
          split
          · next hRR =>
            subst hRR
            rw [List.count_append, h2]
            simp [List.count_singleton, hxc]
          · exact h2
        · intro kv hkv hne hmem
          rw [hcl] at hmem
          split at hmem
          · rcases List.mem_append.mp hmem with h | h
            · exact h3 kv hkv hne h
            · exact hxc (List.mem_singleton.mp h)
          · exact h3 kv hkv hne hmem

/-- Registering a fresh, empty room under an unused name keeps the two conditions. -/
theorem create_ok {l l' : Lobby} {name : String}
    (hR : l.RegistryOk) (hM : l.MembersOk) (hnone : mapGet l.chatRooms name = none)
    (hrooms : l'.chatRooms = mapSet l.chatRooms name l.nextRoom)
    (htim : l'.timers = l.timers ++ [l.nextRoom])
    (hnext : l'.nextRoom = l.nextRoom + 1)
    (hname : ∀ r, (l'.roomHeap r).name = if r = l.nextRoom then name else (l.roomHeap r).name)
    (hcl : ∀ r, (l'.roomHeap r).clients =
      if r = l.nextRoom then [] else (l.roomHeap r).clients)
    (href : ∀ x, (l'.clientHeap x).chatRoom = (l.clientHeap x).chatRoom) :
    l'.RegistryOk ∧ l'.MembersOk := by
  have hset : l'.chatRooms = l.chatRooms ++ [(name, l.nextRoom)] := by
    rw [hrooms, mapSet, mapDelete_of_get_none hnone]
  have hmem : ∀ kv, kv ∈ l'.chatRooms ↔ kv ∈ l.chatRooms ∨ kv = (name, l.nextRoom) := by
    intro kv; rw [hset]; simp
  have hold : ∀ kv ∈ l.chatRooms, kv.2 ≠ l.nextRoom := fun kv hkv =>
    Nat.ne_of_lt (hR.fresh kv hkv)
  constructor
  · exact
      { keys := by
          rw [hset, List.map_append, List.nodup_append]
          refine ⟨hR.keys, by simp, ?_⟩
          intro k hk hk'
          simp only [List.map_cons, List.map_nil, List.mem_singleton] at hk'
          subst hk'
          obtain ⟨kv, hkv, hfst⟩ := List.mem_map.mp hk
          obtain ⟨k', v'⟩ := kv
          simp only at hfst
          subst hfst
          exact (mapGet_eq_none.mp hnone) v' hkv
        names := by
          intro kv hkv
          rw [hname]
          rcases (hmem kv).mp hkv with h | h
          · rw [if_neg (hold kv h)]; exact hR.names kv h
          · subst h; simp
        fresh := by
          intro kv hkv
          rw [hnext]
          rcases (hmem kv).mp hkv with h | h
          · exact Nat.lt_succ_of_lt (hR.fresh kv h)
          · subst h; exact Nat.lt_succ_self _
        timersNodup := by
          rw [htim, List.nodup_append]
          refine ⟨hR.timersNodup, by simp, ?_⟩
          intro r hr hr'
          simp only [List.mem_singleton] at hr'
          subst hr'
          obtain ⟨n, hn⟩ := hR.timersReg _ hr
          exact hold _ hn rfl
        timersReg := by
          intro r hr
          rw [htim] at hr
          rcases List.mem_append.mp hr with h | h
          · obtain ⟨n, hn⟩ := hR.timersReg r h
            exact ⟨n, (hmem _).mpr (Or.inl hn)⟩
          · simp only [List.mem_singleton] at h
            subst h
            exact ⟨name, (hmem _).mpr (Or.inr rfl)⟩ }
  · constructor
    · intro x hx kv hkv hin
      rw [href] at hx
      rw [hcl] at hin
      rcases (hmem kv).mp hkv with h | h
      · rw [if_neg (hold kv h)] at hin
        exact hM.roomless x hx kv h hin
      · subst h; simp at hin
    · intro x R' hx
      rw [href] at hx
      obtain ⟨⟨n, hn⟩, h2, h3⟩ := hM.member x R' hx
      have hR' : R' ≠ l.nextRoom := hold _ hn
      refine ⟨⟨n, (hmem _).mpr (Or.inl hn)⟩, ?_, ?_⟩
      · rw [hcl, if_neg hR']; exact h2
      · intro kv hkv hne hin
        rw [hcl] at hin
        rcases (hmem kv).mp hkv with h | h
        · rw [if_neg (hold kv h)] at hin
          exact h3 kv h hne hin
        · subst h; simp at hin

/-- Clearing the room reference of every member of a registered room and taking the room
out of the map keeps the two conditions, when no expiry goroutine still holds the room. -/
theorem delete_ok {l l' : Lobby} {r : RoomId}
    (hR : l.RegistryOk) (hM : l.MembersOk) (hreg : ∃ name, (name, r) ∈ l.chatRooms)
    (hnt : r ∉ l.timers)
    (hrooms : l'.chatRooms = mapDelete l.chatRooms (l.roomHeap r).name)
    (htim : l'.timers = l.timers) (hnext : l'.nextRoom = l.nextRoom)
    (hname : ∀ j, (l'.roomHeap j).name = (l.roomHeap j).name)
    (hcl : ∀ j, (l'.roomHeap j).clients = (l.roomHeap j).clients)
    (href : ∀ x, (l'.clientHeap x).chatRoom =
      if x ∈ (l.roomHeap r).clients then none else (l.clientHeap x).chatRoom) :
    l'.RegistryOk ∧ l'.MembersOk := by
  obtain ⟨nr, hnr⟩ := hreg
  have hnr' : (l.roomHeap r).name = nr := hR.names _ hnr
  have hmem : ∀ kv, kv ∈ l'.chatRooms ↔ kv ∈ l.chatRooms ∧ kv.2 ≠ r := by
    intro kv
    rw [hrooms, mem_mapDelete]
    apply and_congr_right
    intro hkv
    constructor
    · intro h e
      apply h
      rw [← hR.names kv hkv, e]
    · intro h e
      apply h
      obtain ⟨k, v⟩ := kv
      simp only at e
      have h1 := mapGet_of_mem hR.keys hkv
      have h2 := mapGet_of_mem hR.keys hnr
      rw [e, hnr', h2] at h1
      injection h1 with h1
      exact h1.symm
  constructor
  · exact
      { keys := by rw [hrooms]; exact mapDelete_keys_nodup _ hR.keys
        names := by
          intro kv hkv; rw [hname]; exact hR.names kv ((hmem kv).mp hkv).1
        fresh := by
          intro kv hkv; rw [hnext]; exact hR.fresh kv ((hmem kv).mp hkv).1
        timersNodup := by rw [htim]; exact hR.timersNodup
        timersReg := by
          intro j hj
          rw [htim] at hj
          obtain ⟨n, hn⟩ := hR.timersReg j hj
          refine ⟨n, (hmem _).mpr ⟨hn, ?_⟩⟩
          intro e
          simp only at e
          subst e
          exact hnt hj }
  · constructor
    · intro x hx kv hkv hin
      obtain ⟨hkv, hne⟩ := (hmem kv).mp hkv
      rw [hcl] at hin
      rw [href] at hx
      by_cases hxr : x ∈ (l.roomHeap r).clients
      · cases hcx : (l.clientHeap x).chatRoom with
        | none => exact hM.roomless x hcx (nr, r) hnr hxr
        | some R' =>
          obtain ⟨-, h2, h3⟩ := hM.member x R' hcx
          by_cases hrR : r = R'
          · subst hrR
            exact h3 kv hkv hne hin
          · exact h3 (nr, r) hnr hrR hxr
      · rw [if_neg hxr] at hx
        exact hM.roomless x hx kv hkv hin
    · intro x R' hx
      rw [href] at hx
      by_cases hxr : x ∈ (l.roomHeap r).clients
      · rw [if_pos hxr] at hx; cases hx
      · rw [if_neg hxr] at hx
        obtain ⟨⟨n, hn⟩, h2, h3⟩ := hM.member x R' hx
        have hR'r : R' ≠ r := by
          intro e
          subst e
          exact hxr (List.count_pos_iff.mp (by omega))
        refine ⟨⟨n, (hmem _).mpr ⟨hn, hR'r⟩⟩, ?_, ?_⟩
        · rw [hcl]; exact h2
        · intro kv hkv hne hin
          rw [hcl] at hin
          exact h3 kv ((hmem kv).mp hkv).1 hne hin


/-! ## Helper lemmas: every handler keeps the registry and membership conditions -/

theorem ok_of_sameShape {l l' : Lobby} (h : l.SameShape l')
    (hok : l.RegistryOk ∧ l.MembersOk) : l'.RegistryOk ∧ l'.MembersOk :=
  ⟨registryOk_of_sameShape h hok.1, membersOk_of_sameShape h hok.2⟩

theorem ok_NewLobby : NewLobby.RegistryOk ∧ NewLobby.MembersOk := by
  refine ⟨⟨?_, ?_, ?_, ?_, ?_⟩, ⟨?_, ?_⟩⟩ <;> simp [NewLobby, NewClient]

theorem ChatRoomLeave_eq_some {l l' : Lobby} {R : RoomId} {c : ClientId} {now : Time} :
    ChatRoom.Leave l R c now = some l' ↔
      (∀ x ∈ (l.roomHeap R).clients, (l.clientHeap x).outgoingClosed = false) ∧
      l' = ((l.afterBroadcast R now (Sprintf NOTICE_ROOM_DEIXAR [(l.clientHeap c).name])).setRoom R
          { (l.afterBroadcast R now (Sprintf NOTICE_ROOM_DEIXAR [(l.clientHeap c).name])).roomHeap R
            with clients := removeFirst c (l.roomHeap R).clients }).setClient c
          { l.clientHeap c with chatRoom := none } := by
  unfold ChatRoom.Leave
  simp only [Option.bind_eq_some, Broadcast_eq_some]
  constructor
  · rintro ⟨l1, ⟨ho, rfl⟩, h⟩
    injection h with h
    refine ⟨ho, ?_⟩
    rw [← h]
    simp [Lobby.afterBroadcast]
  · rintro ⟨ho, rfl⟩
    refine ⟨_, ⟨ho, rfl⟩, ?_⟩
    simp [Lobby.afterBroadcast]

theorem ok_ChatRoomLeave {l l' : Lobby} {R : RoomId} {c : ClientId} {now : Time}
    (hok : l.RegistryOk ∧ l.MembersOk) (hc : (l.clientHeap c).chatRoom = some R)
    (h : ChatRoom.Leave l R c now = some l') : l'.RegistryOk ∧ l'.MembersOk := by
  obtain ⟨-, rfl⟩ := ChatRoomLeave_eq_some.mp h
  refine leave_ok hok.1 hok.2 hc rfl rfl rfl (fun r => ?_) (fun r => ?_) (fun x => ?_)
  · by_cases hr : r = R <;> simp [Lobby.afterBroadcast, hr]
  · by_cases hr : r = R <;> simp [Lobby.afterBroadcast, hr]
  · by_cases hx : x = c <;> simp [Lobby.afterBroadcast, hx]

theorem ChatRoomLeave_frame {l l' : Lobby} {R : RoomId} {c : ClientId} {now : Time}
    (h : ChatRoom.Leave l R c now = some l') :
    (l'.clientHeap c).chatRoom = none ∧ l'.chatRooms = l.chatRooms ∧ l'.clients = l.clients ∧
      l'.timers = l.timers := by
  obtain ⟨-, rfl⟩ := ChatRoomLeave_eq_some.mp h
  simp [Lobby.afterBroadcast]

theorem ok_ChatRoomJoin {l l' : Lobby} {R : RoomId} {c : ClientId} {now : Time}
    (hok : l.RegistryOk ∧ l.MembersOk) (hc : (l.clientHeap c).chatRoom = none)
    (hreg : ∃ name, (name, R) ∈ l.chatRooms)
    (h : ChatRoom.Join l R c now = some l') : l'.RegistryOk ∧ l'.MembersOk := by
  unfold ChatRoom.Join at h
  simp only [Option.bind_eq_some, sends_eq_some, Broadcast_eq_some] at h
  obtain ⟨l2, ⟨-, rfl⟩, -, rfl⟩ := h
  refine join_ok hok.1 hok.2 hc hreg rfl rfl rfl (fun r => ?_) (fun r => ?_) (fun x => ?_)
  · by_cases hr : r = R <;> simp [Lobby.afterBroadcast, hr]
  · by_cases hr : r = R <;> simp [Lobby.afterBroadcast, hr]
  · by_cases hx : x = c <;> simp [Lobby.afterBroadcast, hx]

theorem ok_LeaveChatRoom {l l' : Lobby} {c : ClientId} {now : Time}
    (hok : l.RegistryOk ∧ l.MembersOk) (h : Lobby.LeaveChatRoom l c now = some l') :
    l'.RegistryOk ∧ l'.MembersOk := by
  unfold Lobby.LeaveChatRoom at h
  split at h
  · exact ok_of_sameShape (sameShape_send h) hok
  · next R hc => exact ok_ChatRoomLeave hok hc h

theorem ok_JoinChatRoom {l l' : Lobby} {c : ClientId} {name : String} {now now' : Time}
    (hok : l.RegistryOk ∧ l.MembersOk) (h : Lobby.JoinChatRoom l c name now now' = some l') :
    l'.RegistryOk ∧ l'.MembersOk := by
  unfold Lobby.JoinChatRoom at h
  split at h
  · exact ok_of_sameShape (sameShape_send h) hok
  · simp only [Option.bind_eq_some] at h
    obtain ⟨l1, h1, h2⟩ := h
    have key : (l1.RegistryOk ∧ l1.MembersOk) ∧ (l1.clientHeap c).chatRoom = none := by
      split at h1
      · next hne =>
        refine ⟨ok_LeaveChatRoom hok h1, ?_⟩
        unfold Lobby.LeaveChatRoom at h1
        split at h1
        · next hnone => exact absurd hnone hne
        · exact (ChatRoomLeave_frame h1).1
      · next hn =>
        injection h1 with h1
        subst h1
        exact ⟨hok, not_not.mp hn⟩
    split at h2
    · cases h2
    · next R hR => exact ok_ChatRoomJoin key.1 key.2 ⟨name, mapGet_mem hR⟩ h2

theorem ok_CreateChatRoom {l l' : Lobby} {c : ClientId} {name : String} {now : Time}
    (hok : l.RegistryOk ∧ l.MembersOk) (h : Lobby.CreateChatRoom l c name now = some l') :
    l'.RegistryOk ∧ l'.MembersOk := by
  unfold Lobby.CreateChatRoom at h
  split at h
  · exact ok_of_sameShape (sameShape_send h) hok
  · next hnone =>
    simp only [send_eq_some] at h
    obtain ⟨-, rfl⟩ := h
    refine create_ok hok.1 hok.2 hnone rfl rfl rfl (fun r => ?_) (fun r => ?_) (fun x => rfl)
    · by_cases hr : r = l.nextRoom <;> simp [hr, NewChatRoom]
    · by_cases hr : r = l.nextRoom <;> simp [hr, NewChatRoom]

theorem ok_timers {l : Lobby} (ts : List RoomId) (hok : l.RegistryOk ∧ l.MembersOk)
    (hn : ts.Nodup) (hreg : ∀ r ∈ ts, ∃ name, (name, r) ∈ l.chatRooms) :
    Lobby.RegistryOk { l with timers := ts } ∧ Lobby.MembersOk { l with timers := ts } :=
  ⟨⟨hok.1.keys, hok.1.names, hok.1.fresh, hn, hreg⟩, ⟨hok.2.roomless, hok.2.member⟩⟩

theorem ok_DeleteChatRoom {l l' : Lobby} {r : RoomId} {now now' : Time}
    (hok : l.RegistryOk ∧ l.MembersOk) (hreg : ∃ name, (name, r) ∈ l.chatRooms)
    (hnt : r ∉ l.timers) (h : Lobby.DeleteChatRoom l r now now' = some l') :
    l'.RegistryOk ∧ l'.MembersOk := by
  unfold Lobby.DeleteChatRoom at h
  split at h
  · injection h with h
    subst h
    refine ok_timers _ hok ?_ ?_
    · rw [List.nodup_append]
      refine ⟨hok.1.timersNodup, by simp, ?_⟩
      intro x hx hx'
      simp only [List.mem_singleton] at hx'
      subst hx'
      exact hnt hx
    · intro x hx
      rcases List.mem_append.mp hx with hx | hx
      · exact hok.1.timersReg x hx
      · simp only [List.mem_singleton] at hx
        subst hx
        exact hreg
  · unfold ChatRoom.Delete at h
    simp only [Option.bind_eq_some, Broadcast_eq_some] at h
    obtain ⟨l1, ⟨l2, ⟨-, rfl⟩, h2⟩, h3⟩ := h
    injection h2 with h2
    injection h3 with h3
    subst h2
    subst h3
    obtain ⟨f1, f2, f3, f4, f5, f6⟩ := clearRooms_frame (l.afterBroadcast r now' NOTICE_ROOM_DELETAR)
      ((l.afterBroadcast r now' NOTICE_ROOM_DELETAR).roomHeap r).clients
    have hroom : ∀ j, ((l.afterBroadcast r now' NOTICE_ROOM_DELETAR).roomHeap j).name
        = (l.roomHeap j).name ∧
        ((l.afterBroadcast r now' NOTICE_ROOM_DELETAR).roomHeap j).clients
        = (l.roomHeap j).clients := by
      intro j
      by_cases hj : j = r <;> simp [Lobby.afterBroadcast, hj]
    refine delete_ok hok.1 hok.2 hreg hnt ?_ ?_ ?_ (fun j => ?_) (fun j => ?_) (fun x => ?_)
    · simp only [f2, f3, (hroom r).1]
      rfl
    · simp only [f5]; rfl
    · simp only [f4]; rfl
    · simp only [f3, (hroom j).1]
    · simp only [f3, (hroom j).2]
    · simp only [clearRooms_clientHeap, (hroom r).2]
      by_cases hx : x ∈ (l.roomHeap r).clients <;> simp [hx, Lobby.afterBroadcast]

theorem ok_LobbyLeave {l l' : Lobby} {c : ClientId} {now : Time}
    (hok : l.RegistryOk ∧ l.MembersOk) (h : Lobby.Leave l c now = some l') :
    l'.RegistryOk ∧ l'.MembersOk := by
  unfold Lobby.Leave at h
  simp only [Option.bind_eq_some] at h
  obtain ⟨l1, h1, h2⟩ := h
  have hok1 : l1.RegistryOk ∧ l1.MembersOk := by
    split at h1
    · next R hc => exact ok_ChatRoomLeave hok hc h1
    · injection h1 with h1
      subst h1
      exact hok
  exact ok_of_sameShape (sameShape_closeOutgoing h2)
    (ok_of_sameShape (sameShape_clients l1 _) hok1)

theorem ok_LobbyJoin {l l' : Lobby} {c : ClientId}
    (hok : l.RegistryOk ∧ l.MembersOk) (h : Lobby.Join l c = some l') :
    l'.RegistryOk ∧ l'.MembersOk := by
  unfold Lobby.Join at h
  split at h
  · injection h with h
    subst h
    exact ok_of_sameShape (sameShape_Quit l c) hok
  · exact ok_of_sameShape (sameShape_send h) (ok_of_sameShape (sameShape_clients l _) hok)

theorem ok_ChangeName {l l' : Lobby} {c : ClientId} {name : String} {now : Time}
    (hok : l.RegistryOk ∧ l.MembersOk) (h : Lobby.ChangeName l c name now = some l') :
    l'.RegistryOk ∧ l'.MembersOk := by
  unfold Lobby.ChangeName at h
  simp only [Option.bind_eq_some] at h
  obtain ⟨l1, h1, h2⟩ := h
  injection h2 with h2
  subst h2
  have hok1 : l1.RegistryOk ∧ l1.MembersOk := by
    split at h1
    · exact ok_of_sameShape (sameShape_send h1) hok
    · exact ok_of_sameShape (sameShape_Broadcast h1) hok
  exact ok_of_sameShape (sameShape_setName l1 c name) hok1

theorem ok_SendMessage {kitchen : Time → String} {l l' : Lobby} {m : Message} {now : Time}
    (hok : l.RegistryOk ∧ l.MembersOk) (h : Lobby.SendMessage kitchen l m now = some l') :
    l'.RegistryOk ∧ l'.MembersOk := by
  unfold Lobby.SendMessage at h
  split at h
  · exact ok_of_sameShape (sameShape_send h) hok
  · exact ok_of_sameShape (sameShape_Broadcast h) hok

theorem ok_Parse {kitchen : Time → String} {l l' : Lobby} {m : Message} {now now' : Time}
    (hok : l.RegistryOk ∧ l.MembersOk) (h : Lobby.Parse kitchen l m now now' = some l') :
    l'.RegistryOk ∧ l'.MembersOk := by
  unfold Lobby.Parse at h
  split at h
  · exact ok_CreateChatRoom hok h
  split at h
  · exact ok_of_sameShape (sameShape_sends h) hok
  split at h
  · exact ok_JoinChatRoom hok h
  split at h
  · exact ok_LeaveChatRoom hok h
  split at h
  · exact ok_ChangeName hok h
  split at h
  · exact ok_of_sameShape (sameShape_sends h) hok
  split at h
  · injection h with h
    subst h
    exact ok_of_sameShape (sameShape_Quit l _) hok
  · exact ok_SendMessage hok h

theorem ok_Listen {kitchen : Time → String} {l l' : Lobby} {e : Event}
    (hok : l.RegistryOk ∧ l.MembersOk) (h : Lobby.Listen kitchen l e = some l') :
    l'.RegistryOk ∧ l'.MembersOk := by
  cases e with
  | incoming m now now' => exact ok_Parse hok h
  | join c => exact ok_LobbyJoin hok h
  | leave c now => exact ok_LobbyLeave hok h
  | delete r now now' =>
    simp only [Lobby.Listen] at h
    split at h
    · next hr =>
      have hreg := hok.1.timersReg r hr
      have hnd : (l.timers.erase r).Nodup := hok.1.timersNodup.erase r
      have hsub : ∀ x ∈ l.timers.erase r, ∃ name, (name, x) ∈ l.chatRooms :=
        fun x hx => hok.1.timersReg x (List.mem_of_mem_erase hx)
      rw [removeFirst_eq_erase] at h
      refine ok_DeleteChatRoom (ok_timers _ hok hnd hsub) hreg ?_ h
      exact fun hmem => (List.Nodup.mem_erase_iff hok.1.timersNodup).mp hmem |>.1 rfl
    · cases h

theorem ok_run {kitchen : Time → String} {l l' : Lobby} {es : List Event}
    (hok : l.RegistryOk ∧ l.MembersOk) (h : run kitchen l es = some l') :
    l'.RegistryOk ∧ l'.MembersOk := by
  induction es generalizing l with
  | nil =>
    injection h with h
    subst h
    exact hok
  | cons e es ih =>
    simp only [run, Option.bind_eq_some] at h
    obtain ⟨l1, h1, h2⟩ := h
    exact ih (ok_Listen hok h1) h2

/-! ## C1: membership consistency -/

/-- C1. In every state the event loop reaches from `NewLobby`, for every client `c`: when
`c` has no room, `c` is in the member list of no registered room; when the room of `c` is
`R`, then `R` is registered, `c` occurs exactly once in the member list of `R`, and `c` is
in the member list of no other registered room. -/
theorem membership_consistency (kitchen : Time → String) (events : List Event) (l : Lobby)
    (h : run kitchen NewLobby events = some l) (c : ClientId) :
    ((l.clientHeap c).chatRoom = none →
        ∀ r, l.Registered r → c ∉ (l.roomHeap r).clients) ∧
    (∀ R, (l.clientHeap c).chatRoom = some R →
        l.Registered R ∧ (l.roomHeap R).clients.count c = 1 ∧
          ∀ r, l.Registered r → r ≠ R → c ∉ (l.roomHeap r).clients) := by
  obtain ⟨hR, hM⟩ := ok_run ok_NewLobby h
  constructor
  · rintro hc r ⟨n, hn⟩
    exact hM.roomless c hc (n, r) (mapGet_mem hn)
  · intro R hc
    obtain ⟨h1, h2, h3⟩ := hM.member c R hc
    refine ⟨(registered_iff hR.keys).mpr h1, h2, ?_⟩
    rintro r ⟨n, hn⟩ hne
    exact h3 (n, r) (mapGet_mem hn) hne

/-- C1 at a run in which client 0 creates rooms `a` and `b`, joins `a`, then `b`, client 1
joins `a`, and room `a` expires. -/
theorem membership_consistency_witness :
    ∃ l, run kitchen0 NewLobby run1 = some l ∧
      (l.clientHeap 0).chatRoom = some 1 ∧ (l.clientHeap 1).chatRoom = none ∧
      (l.roomHeap 1).clients = [0] ∧
      (((l.clientHeap 0).chatRoom = none →
          ∀ r, l.Registered r → 0 ∉ (l.roomHeap r).clients) ∧
       (∀ R, (l.clientHeap 0).chatRoom = some R →
          l.Registered R ∧ (l.roomHeap R).clients.count 0 = 1 ∧
            ∀ r, l.Registered r → r ≠ R → 0 ∉ (l.roomHeap r).clients)) := by
  refine ⟨_, rfl, ?_, ?_, ?_, ?_⟩
  · decide
  · decide
  · decide
  · exact membership_consistency kitchen0 run1 _ rfl 0

/-! ## C2: capacity -/

theorem clients_ChatRoomJoin {l l' : Lobby} {R : RoomId} {c : ClientId} {now : Time}
    (h : ChatRoom.Join l R c now = some l') : l'.clients = l.clients := by
  unfold ChatRoom.Join at h
  simp only [Option.bind_eq_some, sends_eq_some, Broadcast_eq_some] at h
  obtain ⟨l2, ⟨-, rfl⟩, -, rfl⟩ := h
  rfl

theorem clients_LeaveChatRoom {l l' : Lobby} {c : ClientId} {now : Time}
    (h : Lobby.LeaveChatRoom l c now = some l') : l'.clients = l.clients := by
  unfold Lobby.LeaveChatRoom at h
  split at h
  · obtain ⟨-, rfl⟩ := send_eq_some.mp h; rfl
  · exact (ChatRoomLeave_frame h).2.2.1

theorem clients_Parse {kitchen : Time → String} {l l' : Lobby} {m : Message} {now now' : Time}
    (h : Lobby.Parse kitchen l m now now' = some l') : l'.clients = l.clients := by
  unfold Lobby.Parse at h
  split at h
  · unfold Lobby.CreateChatRoom at h
    split at h <;> (obtain ⟨-, rfl⟩ := send_eq_some.mp h; rfl)
  split at h
  · obtain ⟨-, rfl⟩ := sends_eq_some.mp h; rfl
  split at h
  · unfold Lobby.JoinChatRoom at h
    split at h
    · obtain ⟨-, rfl⟩ := send_eq_some.mp h; rfl
    · simp only [Option.bind_eq_some] at h
      obtain ⟨l1, h1, h2⟩ := h
      have e1 : l1.clients = l.clients := by
        split at h1
        · exact clients_LeaveChatRoom h1
        · injection h1 with h1; rw [← h1]
      split at h2
      · cases h2
      · rw [clients_ChatRoomJoin h2, e1]
  split at h
  · exact clients_LeaveChatRoom h
  split at h
  · unfold Lobby.ChangeName at h
    simp only [Option.bind_eq_some] at h
    obtain ⟨l1, h1, h2⟩ := h
    injection h2 with h2
    subst h2
    split at h1
    · obtain ⟨-, rfl⟩ := send_eq_some.mp h1; rfl
    · obtain ⟨-, rfl⟩ := Broadcast_eq_some.mp h1; rfl
  split at h
  · obtain ⟨-, rfl⟩ := sends_eq_some.mp h; rfl
  split at h
  · injection h with h; rw [← h]; rfl
  · unfold Lobby.SendMessage at h
    split at h
    · obtain ⟨-, rfl⟩ := send_eq_some.mp h; rfl
    · obtain ⟨-, rfl⟩ := Broadcast_eq_some.mp h; rfl

theorem clients_DeleteChatRoom {l l' : Lobby} {r : RoomId} {now now' : Time}
    (h : Lobby.DeleteChatRoom l r now now' = some l') : l'.clients = l.clients := by
  unfold Lobby.DeleteChatRoom at h
  split at h
  · injection h with h; rw [← h]
  · unfold ChatRoom.Delete at h
    simp only [Option.bind_eq_some, Broadcast_eq_some] at h
    obtain ⟨l1, ⟨l2, ⟨-, rfl⟩, h2⟩, h3⟩ := h
    injection h2 with h2
    injection h3 with h3
    rw [← h3, ← h2]
    exact (clearRooms_frame _ _).1

theorem length_LobbyJoin {l l' : Lobby} {c : ClientId} (h : Lobby.Join l c = some l')
    (hl : l.clients.length ≤ MAX_CLIENTS) : l'.clients.length ≤ MAX_CLIENTS := by
  unfold Lobby.Join at h
  split at h
  · injection h with h; rw [← h]; exact hl
  · next hlt =>
    obtain ⟨-, rfl⟩ := send_eq_some.mp h
    simp only [List.length_append, List.length_singleton]
    omega

theorem length_LobbyLeave {l l' : Lobby} {c : ClientId} {now : Time}
    (h : Lobby.Leave l c now = some l') : l'.clients.length ≤ l.clients.length := by
  unfold Lobby.Leave at h
  simp only [Option.bind_eq_some] at h
  obtain ⟨l1, h1, h2⟩ := h
  have e1 : l1.clients = l.clients := by
    split at h1
    · exact (ChatRoomLeave_frame h1).2.2.1
    · injection h1 with h1; rw [← h1]
  unfold closeOutgoing at h2
  split at h2
  · cases h2
  · injection h2 with h2
    rw [← h2]
    simp only [setClient_clients, removeFirst_eq_erase, e1]
    exact (List.erase_sublist c l.clients).length_le

theorem length_run {kitchen : Time → String} {l l' : Lobby} {es : List Event}
    (h : run kitchen l es = some l') (hl : l.clients.length ≤ MAX_CLIENTS) :
    l'.clients.length ≤ MAX_CLIENTS := by
  induction es generalizing l with
  | nil => injection h with h; rw [← h]; exact hl
  | cons e es ih =>
    simp only [run, Option.bind_eq_some] at h
    obtain ⟨l1, h1, h2⟩ := h
    apply ih h2
    cases e with
    | incoming m now now' => rw [clients_Parse h1]; exact hl
    | join c => exact length_LobbyJoin h1 hl
    | leave c now => exact le_trans (length_LobbyLeave h1) hl
    | delete r now now' =>
      simp only [Lobby.Listen] at h1
      split at h1
      · rw [clients_DeleteChatRoom h1]; exact hl
      · cases h1


/-- C2. The client registry of a state the event loop reaches from `NewLobby` never holds
more than `MAX_CLIENTS` clients, whatever the events (the sequences of `Lobby.Join` and
`Lobby.Leave` among them); and in any state whose registry holds `MAX_CLIENTS` clients or
more, `Lobby.Join` returns with the registry exactly as it was, same clients in the same
order, so the new client is not registered. -/
theorem capacity_invariant (kitchen : Time → String) :
    (∀ events l, run kitchen NewLobby events = some l → l.clients.length ≤ MAX_CLIENTS) ∧
    (∀ l c, MAX_CLIENTS ≤ l.clients.length →
      ∃ l', Lobby.Join l c = some l' ∧ l'.clients = l.clients ∧
        (c ∉ l.clients → c ∉ l'.clients)) := by
  constructor
  · intro events l h
    exact length_run h (by simp [NewLobby])
  · intro l c hfull
    refine ⟨Client.Quit l c, ?_, rfl, fun h => h⟩
    unfold Lobby.Join
    rw [if_pos hfull]

/-- C2 at eleven joins: the first ten clients are registered, the eleventh is not. -/
theorem capacity_invariant_witness :
    ∃ l, run kitchen0 NewLobby run2 = some l ∧ l.clients = [0, 1, 2, 3, 4, 5, 6, 7, 8, 9] ∧
      l.clients.length ≤ MAX_CLIENTS ∧ (l.clientHeap 10).connClosed = true :=
  ⟨_, rfl, by decide, (capacity_invariant kitchen0).1 run2 _ rfl, by decide⟩

/-! ## C3: `ChatRoom.Broadcast` -/

theorem outgoing_of_sent {l l' : Lobby} {extra : List (ClientId × String)}
    (h : l'.sent = l.sent ++ extra) (c : ClientId) :
    l'.outgoing c = l.outgoing c ++ (extra.filter (fun e => decide (e.1 = c))).map Prod.snd := by
  simp [Lobby.outgoing, h]

theorem afterBroadcast_sent (l : Lobby) (r : RoomId) (now : Time) (m : String) :
    (l.afterBroadcast r now m).sent = l.sent ++ (l.roomHeap r).clients.map (fun c => (c, m)) :=
  rfl


/-- C3. `R.Broadcast(t)` at clock reading `now` returns when no member of room `R` has a
closed channel (a send on a closed channel panics), and after every call that returns: the
expiry of `R` is `now + EXPIRY_TIME`; the history of `R` is the old history followed by
`t`; the member list of `R` is unchanged; the sends made are exactly one `t` per entry of
the member list, in member-list order; so every client received one more `t` per
occurrence in the member list, and a client outside the member list received nothing. -/
theorem Broadcast_postcondition (l : Lobby) (R : RoomId) (t : String) (now : Time) :
    ((∀ c ∈ (l.roomHeap R).clients, (l.clientHeap c).outgoingClosed = false) →
      ∃ l', ChatRoom.Broadcast l R now t = some l') ∧
    ∀ l', ChatRoom.Broadcast l R now t = some l' →
      (l'.roomHeap R).expiry = now + EXPIRY_TIME ∧
      (l'.roomHeap R).messages = (l.roomHeap R).messages ++ [t] ∧
      (l'.roomHeap R).clients = (l.roomHeap R).clients ∧
      l'.sent = l.sent ++ (l.roomHeap R).clients.map (fun c => (c, t)) ∧
      (∀ c, l'.outgoing c =
        l.outgoing c ++ List.replicate ((l.roomHeap R).clients.count c) t) ∧
      (∀ c, c ∉ (l.roomHeap R).clients → l'.outgoing c = l.outgoing c) := by
  refine ⟨fun hopen => ⟨_, Broadcast_eq_some.mpr ⟨hopen, rfl⟩⟩, ?_⟩
  intro l' h
  obtain ⟨-, rfl⟩ := Broadcast_eq_some.mp h
  refine ⟨?_, ?_, ?_, rfl, ?_, ?_⟩
  · simp [Lobby.afterBroadcast]
  · simp [Lobby.afterBroadcast]
  · simp [Lobby.afterBroadcast]
  · intro c
    rw [outgoing_of_sent (afterBroadcast_sent l R now t), filter_map_pair]
  · intro c hc
    rw [outgoing_of_sent (afterBroadcast_sent l R now t), filter_map_pair,
      List.count_eq_zero_of_not_mem hc]
    simp

/-- C3 at a room whose member list is `[1, 2, 1]`: client 1 gets the text twice, client 2
once, client 3 nothing. -/
theorem Broadcast_postcondition_witness :
    ∃ l', ChatRoom.Broadcast lobby3 0 7 "hi" = some l' ∧
      (l'.roomHeap 0).expiry = 7 + EXPIRY_TIME ∧
      (l'.roomHeap 0).messages = ["x", "hi"] ∧
      (l'.roomHeap 0).clients = [1, 2, 1] ∧
      l'.sent = [(1, "hi"), (2, "hi"), (1, "hi")] ∧
      l'.outgoing 1 = ["hi", "hi"] ∧ l'.outgoing 2 = ["hi"] ∧ l'.outgoing 3 = [] := by
  obtain ⟨l', h⟩ := (Broadcast_postcondition lobby3 0 "hi" 7).1 (by decide)
  obtain ⟨h1, h2, h3, h4, h5, h6⟩ := (Broadcast_postcondition lobby3 0 "hi" 7).2 l' h
  exact ⟨l', h, h1, h2, h3, h4, h5 1, h5 2, h5 3⟩

/-! ## C4: chat content -/

theorem Sprintf_chat (a b c : String) :
    Sprintf "%s - %s: %s\n" [a, b, c] = a ++ " - " ++ b ++ ": " ++ c ++ "\n" := by
  apply String.ext
  simp only [String.data_append, List.append_assoc]
  rfl

theorem Parse_content {kitchen : Time → String} {l : Lobby} {m : Message} {now now' : Time}
    (hcmd : ∀ cmd ∈ [CMD_CRIAR, CMD_LISTA, CMD_JUNTAR, CMD_DEIXAR, CMD_NOME, CMD_AJUDA, CMD_SAIR],
      HasPrefix m.text cmd = false) :
    Lobby.Parse kitchen l m now now' = Lobby.SendMessage kitchen l m now := by
  unfold Lobby.Parse
  simp [hcmd]


/-- C4. A line that starts with none of the seven command tokens is handled by `Parse` as
chat content, the formatted line being `<kitchen time> - <sender name>: <text>` and a
newline. When the sender's room is `R`, the call returns if no member of `R` has a closed
channel, and after it the sends made are exactly that one string to each entry of the
member list of `R`, so to every member and to the sender when it is one, and the history of
`R` ends with that string. When the sender has no room, the call returns if the sender's
channel is open and the state is unchanged except for one send, the send-without-room error
to the sender. In a state the event loop reaches from `NewLobby` a sender whose room is `R`
is exactly once in the member list of `R`, so it receives the string once. -/
theorem chat_content_dispatch (kitchen : Time → String) (l : Lobby) (m : Message)
    (now now' : Time)
    (hcmd : ∀ cmd ∈ [CMD_CRIAR, CMD_LISTA, CMD_JUNTAR, CMD_DEIXAR, CMD_NOME, CMD_AJUDA, CMD_SAIR],
      HasPrefix m.text cmd = false) :
    Message.String kitchen l m =
      kitchen m.time ++ " - " ++ (l.clientHeap m.client).name ++ ": " ++ m.text ++ "\n" ∧
    (∀ R, (l.clientHeap m.client).chatRoom = some R →
      ((∀ x ∈ (l.roomHeap R).clients, (l.clientHeap x).outgoingClosed = false) →
        ∃ l', Lobby.Parse kitchen l m now now' = some l') ∧
      ∀ l', Lobby.Parse kitchen l m now now' = some l' →
        l'.sent = l.sent ++
          (l.roomHeap R).clients.map (fun x => (x, Message.String kitchen l m)) ∧
        (∀ x, l'.outgoing x = l.outgoing x ++
          List.replicate ((l.roomHeap R).clients.count x) (Message.String kitchen l m)) ∧
        (∀ x ∈ (l.roomHeap R).clients, Message.String kitchen l m ∈ l'.outgoing x) ∧
        (m.client ∈ (l.roomHeap R).clients →
          (l'.outgoing m.client).getLast? = some (Message.String kitchen l m)) ∧
        (l'.roomHeap R).messages = (l.roomHeap R).messages ++ [Message.String kitchen l m] ∧
        (l'.roomHeap R).messages.getLast? = some (Message.String kitchen l m)) ∧
    ((l.clientHeap m.client).chatRoom = none →
      ((l.clientHeap m.client).outgoingClosed = false →
        ∃ l', Lobby.Parse kitchen l m now now' = some l') ∧
      ∀ l', Lobby.Parse kitchen l m now now' = some l' →
        l' = { l with sent := l.sent ++ [(m.client, ERROR_ENVIAR)] }) ∧
    (∀ R events, (l.clientHeap m.client).chatRoom = some R →
      run kitchen NewLobby events = some l →
        (l.roomHeap R).clients.count m.client = 1) := by
  rw [Parse_content hcmd]
  refine ⟨Sprintf_chat _ _ _, ?_, ?_,
    fun R events hR hreach => ((ok_run ok_NewLobby hreach).2.member _ R hR).2.1⟩
  · intro R hR
    have hS : Lobby.SendMessage kitchen l m now =
        ChatRoom.Broadcast l R now (Message.String kitchen l m) := by
      unfold Lobby.SendMessage
      rw [hR]
    rw [hS]
    refine ⟨fun hopen => ⟨_, Broadcast_eq_some.mpr ⟨hopen, rfl⟩⟩, ?_⟩
    intro l' h
    obtain ⟨-, rfl⟩ := Broadcast_eq_some.mp h
    have hout : ∀ x, (l.afterBroadcast R now (Message.String kitchen l m)).outgoing x =
        l.outgoing x ++
          List.replicate ((l.roomHeap R).clients.count x) (Message.String kitchen l m) := by
      intro x
      rw [outgoing_of_sent (afterBroadcast_sent l R now _), filter_map_pair]
    refine ⟨rfl, hout, ?_, ?_, ?_, ?_⟩
    · intro x hx
      rw [hout x]
      apply List.mem_append_right
      rw [List.mem_replicate]
      exact ⟨Nat.ne_of_gt (List.count_pos_iff.mpr hx), rfl⟩
    · intro hx
      rw [hout m.client]
      obtain ⟨k, hk⟩ := Nat.exists_eq_succ_of_ne_zero
        (Nat.ne_of_gt (List.count_pos_iff.mpr hx))
      rw [hk, List.replicate_succ', ← List.append_assoc, List.getLast?_append]
      simp
    · simp [Lobby.afterBroadcast]
    · simp [Lobby.afterBroadcast]
  · intro hnone
    have hS : Lobby.SendMessage kitchen l m now = send l m.client ERROR_ENVIAR := by
      unfold Lobby.SendMessage
      rw [hnone]
    rw [hS]
    exact ⟨fun hopen => ⟨_, send_eq_some.mpr ⟨hopen, rfl⟩⟩, fun l' h => (send_eq_some.mp h).2⟩

/-- C4 at the line `hi` sent by client 0 in a room shared with client 1, and at the same
line sent by the roomless client 2. -/
theorem chat_content_dispatch_witness :
    (∃ l', Lobby.Parse kitchen0 lobby4 ⟨9, 0, "hi"⟩ 9 9 = some l' ∧
      l'.sent = lobby4.sent ++ [(0, "3:04PM - Cliente: hi\n"), (1, "3:04PM - Cliente: hi\n")] ∧
      (l'.roomHeap 0).messages.getLast? = some "3:04PM - Cliente: hi\n") ∧
    (∃ l', Lobby.Parse kitchen0 lobby4 ⟨9, 2, "hi"⟩ 9 9 = some l' ∧
      l' = { lobby4 with sent := lobby4.sent ++ [(2, ERROR_ENVIAR)] }) := by
  have h0 := chat_content_dispatch kitchen0 lobby4 ⟨9, 0, "hi"⟩ 9 9 (by decide)
  have h2 := chat_content_dispatch kitchen0 lobby4 ⟨9, 2, "hi"⟩ 9 9 (by decide)
  constructor
  · obtain ⟨l', hl'⟩ := (h0.2.1 0 (by decide)).1 (by decide)
    obtain ⟨e1, -, -, -, -, e2⟩ := (h0.2.1 0 (by decide)).2 l' hl'
    exact ⟨l', hl', e1, e2⟩
  · obtain ⟨l', hl'⟩ := (h2.2.2.1 (by decide)).1 (by decide)
    exact ⟨l', hl', (h2.2.2.1 (by decide)).2 l' hl'⟩

/-! ## C5: history replay -/


theorem Sprintf_juntar (n : String) :
    Sprintf NOTICE_ROOM_JUNTAR [n] = "Alerta: \"" ++ n ++ "\" Se juntar ao chat.\n" := rfl

theorem ChatRoomJoin_eq_some {l l' : Lobby} {R : RoomId} {c : ClientId} {now : Time} :
    ChatRoom.Join l R c now = some l' ↔
      (∀ x ∈ (l.roomHeap R).clients ++ [c], (l.clientHeap x).outgoingClosed = false) ∧
      l' = l.afterJoin R c now := by
  unfold ChatRoom.Join Lobby.afterJoin
  simp only [Option.bind_eq_some, sends_eq_some, Broadcast_eq_some]
  constructor
  · rintro ⟨l2, ⟨-, rfl⟩, ho, rfl⟩
    refine ⟨?_, by simp⟩
    intro x hx
    have := ho x (by simpa using hx)
    by_cases hxc : x = c
    · subst hxc; simpa using this
    · simpa [hxc] using this
  · rintro ⟨ho, rfl⟩
    refine ⟨_, ⟨?_, rfl⟩, ?_, by simp⟩
    · intro _
      simpa using ho c (by simp)
    · intro x hx
      have := ho x (by simpa using hx)
      by_cases hxc : x = c
      · subst hxc; simpa using this
      · simpa [hxc] using this

theorem broadcasts_spec {R : RoomId} {C : ClientId} {ts : List (Time × String)} :
    ∀ {l l2 : Lobby}, broadcasts l R ts = some l2 → (l.roomHeap R).clients.count C = 1 →
      (l2.roomHeap R).clients = (l.roomHeap R).clients ∧
      (l2.roomHeap R).messages = (l.roomHeap R).messages ++ ts.map Prod.snd ∧
      l2.outgoing C = l.outgoing C ++ ts.map Prod.snd := by
  induction ts with
  | nil =>
    intro l l2 h _
    injection h with h
    subst h
    simp
  | cons t ts ih =>
    intro l l2 h hcount
    obtain ⟨now, t⟩ := t
    simp only [broadcasts, Option.bind_eq_some, Broadcast_eq_some] at h
    obtain ⟨l1, ⟨-, rfl⟩, h2⟩ := h
    have hcl : ((l.afterBroadcast R now t).roomHeap R).clients = (l.roomHeap R).clients := by
      simp [Lobby.afterBroadcast]
    obtain ⟨e1, e2, e3⟩ := ih h2 (by rw [hcl]; exact hcount)
    refine ⟨e1.trans hcl, ?_, ?_⟩
    · rw [e2]; simp [Lobby.afterBroadcast]
    · rw [e3, outgoing_of_sent (afterBroadcast_sent l R now t), filter_map_pair, hcount]
      simp

theorem broadcasts_isSome {R : RoomId} {ts : List (Time × String)} :
    ∀ l : Lobby, (∀ x ∈ (l.roomHeap R).clients, (l.clientHeap x).outgoingClosed = false) →
      ∃ l2, broadcasts l R ts = some l2 := by
  induction ts with
  | nil => intro l _; exact ⟨l, rfl⟩
  | cons t ts ih =>
    intro l ho
    obtain ⟨now, t⟩ := t
    have h1 : ChatRoom.Broadcast l R now t = some (l.afterBroadcast R now t) :=
      Broadcast_eq_some.mpr ⟨ho, rfl⟩
    obtain ⟨l2, h2⟩ := ih (l.afterBroadcast R now t) (by
      intro x hx
      have hcl : ((l.afterBroadcast R now t).roomHeap R).clients = (l.roomHeap R).clients := by
        simp [Lobby.afterBroadcast]
      rw [hcl] at hx
      exact ho x hx)
    exact ⟨l2, by simp only [broadcasts, h1, Option.some_bind, h2]⟩

/-- C5. Let `C` be a client outside the member list of room `R`, whose history is `h`.
`R.Join(C)` returns when the channels of the members and of `C` are open, and after it: the
channel of `C` received exactly the entries of `h` in order and then the join notice naming
`C`; `C` is the last entry of the member list; the history is `h` followed by the notice.
Broadcasts `t1 ... tn` on `R` after the call return as well, and after them what the channel
of `C` received since before the join is exactly the final history of `R`, that is `h`,
the notice, `t1 ... tn`, so every replayed entry precedes every later broadcast. -/
theorem history_replay (l : Lobby) (R : RoomId) (C : ClientId) (now : Time)
    (hC : C ∉ (l.roomHeap R).clients) :
    Sprintf NOTICE_ROOM_JUNTAR [(l.clientHeap C).name] =
      "Alerta: \"" ++ (l.clientHeap C).name ++ "\" Se juntar ao chat.\n" ∧
    ((∀ x ∈ (l.roomHeap R).clients ++ [C], (l.clientHeap x).outgoingClosed = false) →
      ∃ l1, ChatRoom.Join l R C now = some l1 ∧ ∀ ts, ∃ l2, broadcasts l1 R ts = some l2) ∧
    ∀ l1, ChatRoom.Join l R C now = some l1 →
      l1.outgoing C = l.outgoing C ++ (l.roomHeap R).messages ++
        [Sprintf NOTICE_ROOM_JUNTAR [(l.clientHeap C).name]] ∧
      (l1.roomHeap R).clients = (l.roomHeap R).clients ++ [C] ∧
      (l1.roomHeap R).messages = (l.roomHeap R).messages ++
        [Sprintf NOTICE_ROOM_JUNTAR [(l.clientHeap C).name]] ∧
      ∀ ts l2, broadcasts l1 R ts = some l2 →
        (l2.roomHeap R).messages = (l.roomHeap R).messages ++
          [Sprintf NOTICE_ROOM_JUNTAR [(l.clientHeap C).name]] ++ ts.map Prod.snd ∧
        l2.outgoing C = l.outgoing C ++ (l2.roomHeap R).messages := by
  have hpost : ∀ l1, ChatRoom.Join l R C now = some l1 →
      l1.outgoing C = l.outgoing C ++ (l.roomHeap R).messages ++
        [Sprintf NOTICE_ROOM_JUNTAR [(l.clientHeap C).name]] ∧
      (l1.roomHeap R).clients = (l.roomHeap R).clients ++ [C] ∧
      (l1.roomHeap R).messages = (l.roomHeap R).messages ++
        [Sprintf NOTICE_ROOM_JUNTAR [(l.clientHeap C).name]] ∧
      ∀ x, (l1.clientHeap x).outgoingClosed = (l.clientHeap x).outgoingClosed := by
    intro l1 h
    obtain ⟨-, rfl⟩ := ChatRoomJoin_eq_some.mp h
    refine ⟨?_, by simp [Lobby.afterBroadcast, Lobby.afterJoin],
      by simp [Lobby.afterBroadcast, Lobby.afterJoin], ?_⟩
    · have hs : (l.afterJoin R C now).sent =
          l.sent ++ ((l.roomHeap R).messages.map (fun s => (C, s)) ++
            ((l.roomHeap R).clients ++ [C]).map
              (fun x => (x, Sprintf NOTICE_ROOM_JUNTAR [(l.clientHeap C).name]))) := by
        simp [Lobby.afterBroadcast, Lobby.afterJoin]
      rw [outgoing_of_sent hs, List.filter_append, List.map_append, filter_map_single,
        filter_map_pair, if_pos rfl, List.count_append, List.count_eq_zero_of_not_mem hC]
      simp
    · intro x
      by_cases hx : x = C <;> simp [Lobby.afterBroadcast, Lobby.afterJoin, hx]
  refine ⟨Sprintf_juntar _, ?_, ?_⟩
  · intro ho
    have hj : ChatRoom.Join l R C now = some (l.afterJoin R C now) :=
      ChatRoomJoin_eq_some.mpr ⟨ho, rfl⟩
    refine ⟨_, hj, fun ts => broadcasts_isSome _ ?_⟩
    obtain ⟨-, e2, -, e4⟩ := hpost _ hj
    intro x hx
    rw [e2] at hx
    rw [e4]
    exact ho x hx
  · intro l1 h
    obtain ⟨e1, e2, e3, -⟩ := hpost l1 h
    refine ⟨e1, e2, e3, ?_⟩
    intro ts l2 hb
    have hcount : (l1.roomHeap R).clients.count C = 1 := by
      rw [e2, List.count_append, List.count_eq_zero_of_not_mem hC]
      simp
    obtain ⟨-, b2, b3⟩ := broadcasts_spec hb hcount
    rw [b2, b3, e1, e3]
    simp

/-- C5 at a room with history `m1`, `m2` joined by client 2 and followed by two
broadcasts. -/
theorem history_replay_witness :
    ∃ l1 l2, ChatRoom.Join lobby5 0 2 7 = some l1 ∧
      broadcasts l1 0 [(8, "t1"), (9, "t2")] = some l2 ∧
      l1.outgoing 2 = ["m1", "m2", "Alerta: \"Cliente\" Se juntar ao chat.\n"] ∧
      (l1.roomHeap 0).clients = [1, 2] ∧
      l2.outgoing 2 = ["m1", "m2", "Alerta: \"Cliente\" Se juntar ao chat.\n", "t1", "t2"] ∧
      l2.outgoing 2 = lobby5.outgoing 2 ++ (l2.roomHeap 0).messages := by
  have hw := history_replay lobby5 0 2 7 (by decide)
  obtain ⟨l1, h1, hb⟩ := hw.2.1 (by decide)
  obtain ⟨l2, h2⟩ := hb [(8, "t1"), (9, "t2")]
  obtain ⟨e1, e2, -, e4⟩ := hw.2.2 l1 h1
  obtain ⟨e5, e6⟩ := e4 _ l2 h2
  refine ⟨l1, l2, h1, h2, e1, e2, ?_, e6⟩
  rw [e6, e5]
  rfl

/-! ## C6: switching rooms -/

theorem erase_eq_filter_of_count_le_one (c : ClientId) (xs : List ClientId)
    (h : xs.count c ≤ 1) : xs.erase c = xs.filter (fun x => decide (x ≠ c)) := by
  induction xs with
  | nil => rfl
  | cons x xs ih =>
    by_cases hx : x = c
    · subst hx
      have hnot : x ∉ xs := by
        intro hmem
        have := List.count_pos_iff.mpr hmem
        simp only [List.count_cons_self] at h
        omega
      simp only [List.erase_cons_head, ne_eq, decide_not, List.filter_cons, decide_True,
        Bool.not_true, Bool.false_eq_true, if_false]
      symm
      rw [List.filter_eq_self]
      intro y hy
      have : y ≠ x := fun e => hnot (e ▸ hy)
      simp [this]
    · have hc : xs.count c ≤ 1 := by
        rw [List.count_cons_of_ne (Ne.symm hx)] at h
        exact h
      rw [List.erase_cons_tail (by simpa using hx), ih hc]
      simp [hx]

/-- `ChatRoom.Leave` spelled out on the fields. -/
theorem ChatRoomLeave_fields {l l' : Lobby} {R : RoomId} {c : ClientId} {now : Time}
    (h : ChatRoom.Leave l R c now = some l') :
    l'.chatRooms = l.chatRooms ∧ l'.clients = l.clients ∧ l'.timers = l.timers ∧
    l'.nextRoom = l.nextRoom ∧
    (∀ r, (l'.roomHeap r).clients =
      if r = R then removeFirst c (l.roomHeap r).clients else (l.roomHeap r).clients) ∧
    (∀ r, (l'.roomHeap r).name = (l.roomHeap r).name) ∧
    (∀ x, (l'.clientHeap x).chatRoom = if x = c then none else (l.clientHeap x).chatRoom) ∧
    (∀ x, (l'.clientHeap x).outgoingClosed = (l.clientHeap x).outgoingClosed) ∧
    (∀ x, (l'.clientHeap x).name = (l.clientHeap x).name) := by
  obtain ⟨-, rfl⟩ := ChatRoomLeave_eq_some.mp h
  refine ⟨rfl, rfl, rfl, rfl, fun r => ?_, fun r => ?_, fun x => ?_, fun x => ?_, fun x => ?_⟩
  · by_cases hr : r = R <;> simp [Lobby.afterBroadcast, hr]
  · by_cases hr : r = R <;> simp [Lobby.afterBroadcast, hr]
  · by_cases hx : x = c <;> simp [Lobby.afterBroadcast, hx]
  · by_cases hx : x = c <;> simp [Lobby.afterBroadcast, hx]
  · by_cases hx : x = c <;> simp [Lobby.afterBroadcast, hx]

/-- `ChatRoom.Join` spelled out on the fields. -/
theorem ChatRoomJoin_fields {l l' : Lobby} {R : RoomId} {c : ClientId} {now : Time}
    (h : ChatRoom.Join l R c now = some l') :
    l'.chatRooms = l.chatRooms ∧ l'.clients = l.clients ∧ l'.timers = l.timers ∧
    l'.nextRoom = l.nextRoom ∧
    (∀ r, (l'.roomHeap r).clients =
      if r = R then (l.roomHeap r).clients ++ [c] else (l.roomHeap r).clients) ∧
    (∀ r, (l'.roomHeap r).name = (l.roomHeap r).name) ∧
    (∀ x, (l'.clientHeap x).chatRoom = if x = c then some R else (l.clientHeap x).chatRoom) ∧
    (∀ x, (l'.clientHeap x).outgoingClosed = (l.clientHeap x).outgoingClosed) ∧
    (∀ x, (l'.clientHeap x).name = (l.clientHeap x).name) := by
  obtain ⟨-, rfl⟩ := ChatRoomJoin_eq_some.mp h
  refine ⟨rfl, rfl, rfl, rfl, fun r => ?_, fun r => ?_, fun x => ?_, fun x => ?_, fun x => ?_⟩
  · by_cases hr : r = R <;> simp [Lobby.afterBroadcast, Lobby.afterJoin, hr]
  · by_cases hr : r = R <;> simp [Lobby.afterBroadcast, Lobby.afterJoin, hr]
  · by_cases hx : x = c <;> simp [Lobby.afterBroadcast, Lobby.afterJoin, hx]
  · by_cases hx : x = c <;> simp [Lobby.afterBroadcast, Lobby.afterJoin, hx]
  · by_cases hx : x = c <;> simp [Lobby.afterBroadcast, Lobby.afterJoin, hx]

theorem send_outgoing {l l' : Lobby} {c : ClientId} {s : String} (h : send l c s = some l') :
    l'.outgoing c = l.outgoing c ++ [s] ∧ ∀ x, x ≠ c → l'.outgoing x = l.outgoing x := by
  obtain ⟨-, rfl⟩ := send_eq_some.mp h
  constructor
  · simp [Lobby.outgoing]
  · intro x hx
    have : ¬ c = x := fun e => hx e.symm
    simp [Lobby.outgoing, this]

/-- C7. Each of the four user errors is one send of a fixed line to the caller and nothing
else: `CreateChatRoom` with a registered name, `JoinChatRoom` with an unregistered name
(whatever the caller's current room), `LeaveChatRoom` by a roomless client, and chat
content from a roomless client. The call returns when the caller's channel is open, and the
state after it is the state before with that one send added, so the client registry, the
room map, every room object and every client object are unchanged; the caller's channel
received the line and no other channel received anything. -/
theorem user_errors_atomic (kitchen : Time → String) (l : Lobby) (c : ClientId) :
    (∀ name now, mapGet l.chatRooms name ≠ none →
      ((l.clientHeap c).outgoingClosed = false →
        ∃ l', Lobby.CreateChatRoom l c name now = some l') ∧
      ∀ l', Lobby.CreateChatRoom l c name now = some l' →
        l' = { l with sent := l.sent ++ [(c, ERROR_CRIAR)] } ∧
        l'.outgoing c = l.outgoing c ++ [ERROR_CRIAR] ∧
        ∀ x, x ≠ c → l'.outgoing x = l.outgoing x) ∧
    (∀ name now now', mapGet l.chatRooms name = none →
      ((l.clientHeap c).outgoingClosed = false →
        ∃ l', Lobby.JoinChatRoom l c name now now' = some l') ∧
      ∀ l', Lobby.JoinChatRoom l c name now now' = some l' →
        l' = { l with sent := l.sent ++ [(c, ERROR_JUNTAR)] } ∧
        l'.outgoing c = l.outgoing c ++ [ERROR_JUNTAR] ∧
        ∀ x, x ≠ c → l'.outgoing x = l.outgoing x) ∧
    (∀ now, (l.clientHeap c).chatRoom = none →
      ((l.clientHeap c).outgoingClosed = false →
        ∃ l', Lobby.LeaveChatRoom l c now = some l') ∧
      ∀ l', Lobby.LeaveChatRoom l c now = some l' →
        l' = { l with sent := l.sent ++ [(c, ERROR_DEIXAR)] } ∧
        l'.outgoing c = l.outgoing c ++ [ERROR_DEIXAR] ∧
        ∀ x, x ≠ c → l'.outgoing x = l.outgoing x) ∧
    (∀ time text now, (l.clientHeap c).chatRoom = none →
      ((l.clientHeap c).outgoingClosed = false →
        ∃ l', Lobby.SendMessage kitchen l ⟨time, c, text⟩ now = some l') ∧
      ∀ l', Lobby.SendMessage kitchen l ⟨time, c, text⟩ now = some l' →
        l' = { l with sent := l.sent ++ [(c, ERROR_ENVIAR)] } ∧
        l'.outgoing c = l.outgoing c ++ [ERROR_ENVIAR] ∧
        ∀ x, x ≠ c → l'.outgoing x = l.outgoing x) := by
  have hsend : ∀ err,
      ((l.clientHeap c).outgoingClosed = false → ∃ l', send l c err = some l') ∧
      ∀ l', send l c err = some l' →
        l' = { l with sent := l.sent ++ [(c, err)] } ∧
        l'.outgoing c = l.outgoing c ++ [err] ∧
        ∀ x, x ≠ c → l'.outgoing x = l.outgoing x := by
    intro err
    refine ⟨fun ho => ⟨_, send_eq_some.mpr ⟨ho, rfl⟩⟩, fun l' h => ?_⟩
    exact ⟨(send_eq_some.mp h).2, (send_outgoing h).1, (send_outgoing h).2⟩
  refine ⟨?_, ?_, ?_, ?_⟩
  · intro name now hreg
    have e : Lobby.CreateChatRoom l c name now = send l c ERROR_CRIAR := by
      unfold Lobby.CreateChatRoom
      cases hm : mapGet l.chatRooms name with
      | none => exact absurd hm hreg
      | some r => rfl
    rw [e]
    exact hsend _
  · intro name now now' hnone
    have e : Lobby.JoinChatRoom l c name now now' = send l c ERROR_JUNTAR := by
      unfold Lobby.JoinChatRoom
      rw [hnone]
    rw [e]
    exact hsend _
  · intro now hnone
    have e : Lobby.LeaveChatRoom l c now = send l c ERROR_DEIXAR := by
      unfold Lobby.LeaveChatRoom
      rw [hnone]
    rw [e]
    exact hsend _
  · intro time text now hnone
    have e : Lobby.SendMessage kitchen l ⟨time, c, text⟩ now = send l c ERROR_ENVIAR := by
      unfold Lobby.SendMessage
      simp only [hnone]
    rw [e]
    exact hsend _

/-- C7 at client 1, a member of room `a`, asking for a room that does not exist, and at the
roomless client 2 creating `a` again, leaving, and sending a line. -/
theorem user_errors_atomic_witness :
    Lobby.JoinChatRoom lobby4 1 "zz" 5 6 =
      some { lobby4 with sent := lobby4.sent ++ [(1, ERROR_JUNTAR)] } ∧
    Lobby.CreateChatRoom lobby4 2 "a" 5 =
      some { lobby4 with sent := lobby4.sent ++ [(2, ERROR_CRIAR)] } ∧
    Lobby.LeaveChatRoom lobby4 2 5 =
      some { lobby4 with sent := lobby4.sent ++ [(2, ERROR_DEIXAR)] } ∧
    Lobby.SendMessage kitchen0 lobby4 ⟨5, 2, "hi"⟩ 5 =
      some { lobby4 with sent := lobby4.sent ++ [(2, ERROR_ENVIAR)] } := by
  have h1 := user_errors_atomic kitchen0 lobby4 1
  have h2 := user_errors_atomic kitchen0 lobby4 2
  refine ⟨?_, ?_, ?_, ?_⟩
  · obtain ⟨l', hl'⟩ := (h1.2.1 "zz" 5 6 (by decide)).1 (by decide)
    rw [hl', ((h1.2.1 "zz" 5 6 (by decide)).2 l' hl').1]
  · obtain ⟨l', hl'⟩ := (h2.1 "a" 5 (by decide)).1 (by decide)
    rw [hl', ((h2.1 "a" 5 (by decide)).2 l' hl').1]
  · obtain ⟨l', hl'⟩ := (h2.2.2.1 5 (by decide)).1 (by decide)
    rw [hl', ((h2.2.2.1 5 (by decide)).2 l' hl').1]
  · obtain ⟨l', hl'⟩ := (h2.2.2.2 5 "hi" 5 (by decide)).1 (by decide)
    rw [hl', ((h2.2.2.2 5 "hi" 5 (by decide)).2 l' hl').1]

/-! ## C8: `CreateChatRoom` -/

theorem mapGet_append_single (m : List (String × RoomId)) (n k : String) (r : RoomId) :
    mapGet (m ++ [(n, r)]) k =
      match mapGet m k with
      | some v => some v
      | none => if n = k then some r else none := by
  induction m with
  | nil => simp [mapGet]
  | cons kv m ih =>
    obtain ⟨k', v'⟩ := kv
    by_cases hk : k' = k
    · simp [mapGet, hk]
    · simp [mapGet, hk, ih]

theorem Sprintf_criar (n : String) :
    Sprintf NOTICE_PERSONAL_CRIAR [n] = "Alerta: Criar sala de chat \"" ++ n ++ "\".\n" := rfl


theorem CreateChatRoom_eq_some {l l' : Lobby} {c : ClientId} {n : String} {now : Time}
    (hn : mapGet l.chatRooms n = none) :
    Lobby.CreateChatRoom l c n now = some l' ↔
      (l.clientHeap c).outgoingClosed = false ∧ l' = l.afterCreate c n now := by
  unfold Lobby.CreateChatRoom
  rw [hn]
  simp only [send_eq_some, setRoom_clientHeap]
  apply and_congr Iff.rfl
  apply Eq.congr_right
  simp [Lobby.afterCreate, Lobby.setRoom, mapSet, mapDelete_of_get_none hn, NewChatRoom]

/-- C8. In a state the event loop reaches from `NewLobby`, let `n` be a name the room map
does not hold. `CreateChatRoom(c, n)` at clock reading `now` returns when the channel of
`c` is open, and after it: the map is the old map with the one entry `n` added; the room
filed under `n` is a new object, different from every room registered before, with the name
`n`, an empty member list, an empty history and the expiry `now + EXPIRY_TIME`; every other
room object is unchanged and every other name reads as before; one expiry goroutine was
started for the room; the only send is the acknowledgement with `n` to `c`; no client
object changed, so `c` keeps its room reference, and `c` is not in the member list of the
new room. A second `CreateChatRoom` with `n`, by any client, then changes nothing but one
send, the room-exists error to its caller. -/
theorem CreateChatRoom_spec (kitchen : Time → String) (events : List Event) (l : Lobby)
    (hreach : run kitchen NewLobby events = some l) (c : ClientId) (n : String) (now : Time)
    (hn : mapGet l.chatRooms n = none) :
    ((l.clientHeap c).outgoingClosed = false →
      ∃ l', Lobby.CreateChatRoom l c n now = some l') ∧
    ∀ l', Lobby.CreateChatRoom l c n now = some l' →
      ∃ r, l'.chatRooms = l.chatRooms ++ [(n, r)] ∧
        mapGet l'.chatRooms n = some r ∧
        (∀ n', n' ≠ n → mapGet l'.chatRooms n' = mapGet l.chatRooms n') ∧
        (∀ n' r', mapGet l.chatRooms n' = some r' →
          r' ≠ r ∧ l'.roomHeap r' = l.roomHeap r') ∧
        (∀ r', r' ≠ r → l'.roomHeap r' = l.roomHeap r') ∧
        l'.roomHeap r =
          { name := n, clients := [], messages := [], expiry := now + EXPIRY_TIME } ∧
        l'.timers = l.timers ++ [r] ∧
        l'.sent = l.sent ++ [(c, "Alerta: Criar sala de chat \"" ++ n ++ "\".\n")] ∧
        l'.clientHeap = l.clientHeap ∧
        (l'.clientHeap c).chatRoom = (l.clientHeap c).chatRoom ∧
        c ∉ (l'.roomHeap r).clients ∧
        l'.clients = l.clients ∧
        ∀ c2 now2,
          ((l'.clientHeap c2).outgoingClosed = false →
            ∃ l'', Lobby.CreateChatRoom l' c2 n now2 = some l'') ∧
          ∀ l'', Lobby.CreateChatRoom l' c2 n now2 = some l'' →
            l'' = { l' with sent := l'.sent ++ [(c2, ERROR_CRIAR)] } := by
  have hok := ok_run ok_NewLobby hreach
  refine ⟨fun ho => ⟨_, (CreateChatRoom_eq_some hn).mpr ⟨ho, rfl⟩⟩, ?_⟩
  intro l' h
  obtain ⟨-, rfl⟩ := (CreateChatRoom_eq_some hn).mp h
  have hget : mapGet (l.afterCreate c n now).chatRooms n = some l.nextRoom := by
    show mapGet (l.chatRooms ++ [(n, l.nextRoom)]) n = _
    rw [mapGet_append_single, hn]
    simp
  have hfresh : ∀ n' r', mapGet l.chatRooms n' = some r' → r' ≠ l.nextRoom :=
    fun n' r' h' => Nat.ne_of_lt (hok.1.fresh _ (mapGet_mem h'))
  have hroom : ∀ r', r' ≠ l.nextRoom → (l.afterCreate c n now).roomHeap r' = l.roomHeap r' := by
    intro r' hr'
    simp [Lobby.afterCreate, hr']
  refine ⟨l.nextRoom, rfl, hget, ?_, ?_, hroom, ?_, rfl, ?_, rfl, rfl, ?_, rfl, ?_⟩
  · intro n' hn'
    show mapGet (l.chatRooms ++ [(n, l.nextRoom)]) n' = _
    rw [mapGet_append_single]
    have : ¬ n = n' := fun e => hn' e.symm
    cases mapGet l.chatRooms n' <;> simp [this]
  · intro n' r' h'
    exact ⟨hfresh n' r' h', hroom r' (hfresh n' r' h')⟩
  · simp [Lobby.afterCreate, NewChatRoom]
  · rw [← Sprintf_criar]; rfl
  · simp [Lobby.afterCreate, NewChatRoom]
  · intro c2 now2
    have e : Lobby.CreateChatRoom (l.afterCreate c n now) c2 n now2 =
        send (l.afterCreate c n now) c2 ERROR_CRIAR := by
      unfold Lobby.CreateChatRoom
      rw [hget]
    rw [e]
    exact ⟨fun ho => ⟨_, send_eq_some.mpr ⟨ho, rfl⟩⟩, fun l'' h'' => (send_eq_some.mp h'').2⟩

/-- C8 at client 2 creating room `b` next to room `a`, and client 1 creating `b` again. -/
theorem CreateChatRoom_spec_witness :
    (∃ l' l'', Lobby.CreateChatRoom lobby4 2 "b" 9 = some l' ∧
      Lobby.CreateChatRoom l' 1 "b" 10 = some l'' ∧
      l'.chatRooms = [("a", 0), ("b", 1)] ∧
      l'.roomHeap 1 = { name := "b", clients := [], messages := [], expiry := 9 + EXPIRY_TIME } ∧
      l'.sent = lobby4.sent ++ [(2, "Alerta: Criar sala de chat \"b\".\n")] ∧
      l''.chatRooms = l'.chatRooms ∧
      l''.sent = l'.sent ++ [(1, ERROR_CRIAR)]) ∧
    ((lobby4.clientHeap 2).outgoingClosed = false →
      ∃ l', Lobby.CreateChatRoom lobby4 2 "b" 9 = some l') :=
  ⟨⟨_, _, rfl, rfl, rfl, rfl, rfl, rfl, rfl⟩,
    (CreateChatRoom_spec kitchen0 run4 lobby4 rfl 2 "b" 9 (by decide)).1⟩

/-! ## C9: room expiry -/

theorem mapGet_mapDelete (m : List (String × RoomId)) (k k' : String) :
    mapGet (mapDelete m k) k' = if k' = k then none else mapGet m k' := by
  induction m with
  | nil => simp [mapGet, mapDelete]
  | cons kv m ih =>
    obtain ⟨a, v⟩ := kv
    unfold mapDelete at ih ⊢
    by_cases ha : a = k
    · subst ha
      simp only [ne_eq, not_true_eq_false, decide_False, Bool.false_eq_true, not_false_eq_true,
        List.filter_cons_of_neg, ih]
      by_cases hk : k' = a
      · simp [hk]
      · have : ¬ a = k' := fun e => hk e.symm
        simp [hk, mapGet, this]
    · simp only [ne_eq, ha, not_false_eq_true, decide_True, List.filter_cons_of_pos, mapGet]
      by_cases hk : a = k'
      · subst hk
        simp [ha]
      · simp only [hk, if_false]
        exact ih


theorem afterBroadcast_room (l : Lobby) (R : RoomId) (now : Time) (m : String) :
    ((l.afterBroadcast R now m).roomHeap R).clients = (l.roomHeap R).clients ∧
    ((l.afterBroadcast R now m).roomHeap R).name = (l.roomHeap R).name ∧
    ∀ r, r ≠ R → (l.afterBroadcast R now m).roomHeap r = l.roomHeap r := by
  refine ⟨by simp [Lobby.afterBroadcast], by simp [Lobby.afterBroadcast], ?_⟩
  intro r hr
  simp [Lobby.afterBroadcast, hr]

theorem DeleteChatRoom_eq_some {l l' : Lobby} {R : RoomId} {now now' : Time}
    (hexp : (l.roomHeap R).expiry ≤ now) :
    Lobby.DeleteChatRoom l R now now' = some l' ↔
      (∀ x ∈ (l.roomHeap R).clients, (l.clientHeap x).outgoingClosed = false) ∧
        l' = l.afterDelete R now' := by
  unfold Lobby.DeleteChatRoom ChatRoom.Delete
  rw [if_neg (Nat.not_lt.mpr hexp)]
  simp only [Option.bind_eq_some, Broadcast_eq_some, Option.some.injEq]
  constructor
  · rintro ⟨l1, ⟨l2, ⟨ho, rfl⟩, rfl⟩, rfl⟩
    exact ⟨ho, rfl⟩
  · rintro ⟨ho, rfl⟩
    exact ⟨_, ⟨_, ⟨ho, rfl⟩, rfl⟩, rfl⟩

/-- The fields of the state after an expired room was deleted. -/
theorem afterDelete_fields (l : Lobby) (R : RoomId) (now' : Time) :
    (l.afterDelete R now').sent =
      l.sent ++ (l.roomHeap R).clients.map (fun x => (x, NOTICE_ROOM_DELETAR)) ∧
    (l.afterDelete R now').chatRooms = mapDelete l.chatRooms (l.roomHeap R).name ∧
    (l.afterDelete R now').nextRoom = l.nextRoom ∧
    (l.afterDelete R now').timers = l.timers ∧
    (l.afterDelete R now').clients = l.clients ∧
    (∀ r, r ≠ R → (l.afterDelete R now').roomHeap r = l.roomHeap r) ∧
    ((l.afterDelete R now').roomHeap R).clients = (l.roomHeap R).clients ∧
    (∀ x, (l.afterDelete R now').clientHeap x =
      if x ∈ (l.roomHeap R).clients then { l.clientHeap x with chatRoom := none }
      else l.clientHeap x) := by
  obtain ⟨f1, f2, f3, f4, f5, f6⟩ := clearRooms_frame
    (l.afterBroadcast R now' NOTICE_ROOM_DELETAR)
    ((l.afterBroadcast R now' NOTICE_ROOM_DELETAR).roomHeap R).clients
  obtain ⟨b1, b2, b3⟩ := afterBroadcast_room l R now' NOTICE_ROOM_DELETAR
  refine ⟨?_, ?_, ?_, ?_, ?_, ?_, ?_, ?_⟩
  · show (clearRooms _ _).sent = _
    rw [f6]; rfl
  · show mapDelete (clearRooms _ _).chatRooms ((clearRooms _ _).roomHeap R).name = _
    rw [f2, f3, b2]; rfl
  · show (clearRooms _ _).nextRoom = _
    rw [f4]; rfl
  · show (clearRooms _ _).timers = _
    rw [f5]; rfl
  · show (clearRooms _ _).clients = _
    rw [f1]; rfl
  · intro r hr
    show (clearRooms _ _).roomHeap r = _
    rw [f3]
    exact b3 r hr
  · show ((clearRooms _ _).roomHeap R).clients = _
    rw [f3]
    exact b1
  · intro x
    show (clearRooms _ _).clientHeap x = _
    rw [clearRooms_clientHeap, b1]
    rfl

/-- In a consistent state a member of a registered room refers to that room and occurs once
in its member list. -/
theorem member_of_registered {l : Lobby} (hM : l.MembersOk) {R : RoomId} {k : String}
    (hk : (k, R) ∈ l.chatRooms) {x : ClientId} (hx : x ∈ (l.roomHeap R).clients) :
    (l.clientHeap x).chatRoom = some R ∧ (l.roomHeap R).clients.count x = 1 := by
  cases hc : (l.clientHeap x).chatRoom with
  | none => exact absurd hx (hM.roomless x hc (k, R) hk)
  | some R' =>
    obtain ⟨-, h2, h3⟩ := hM.member x R' hc
    by_cases hRR : R = R'
    · subst hRR; exact ⟨rfl, h2⟩
    · exact absurd hx (h3 (k, R) hk hRR)


/-- C9. In a state the event loop reaches from `NewLobby`, let the expiry check of room `R`
arrive (a goroutine of `R` was sleeping) at a clock reading `now` not before the expiry of
`R`. Then `R` was registered under its name; the handler returns when no member of `R` has
a closed channel; and after it: the sends made are exactly one deletion notice to each
member, so each member received the notice once and nobody else received anything; every
member referred to `R` before and has no room now, and no client refers to `R`; the other
client objects are unchanged; the name of `R` is no longer in the map and every other name
reads as before; every other room object is unchanged; no goroutine of `R` is left; and a
later `CreateChatRoom` with the same name, by any client whose channel is open, returns
and files under the name a room object other than `R` with an empty member list and an
empty history. -/
theorem room_expiry_deletion (kitchen : Time → String) (events : List Event) (l : Lobby)
    (hreach : run kitchen NewLobby events = some l) (R : RoomId) (now now' : Time)
    (htimer : R ∈ l.timers) (hexp : (l.roomHeap R).expiry ≤ now) :
    mapGet l.chatRooms (l.roomHeap R).name = some R ∧
    ((∀ x ∈ (l.roomHeap R).clients, (l.clientHeap x).outgoingClosed = false) →
      ∃ l', Lobby.Listen kitchen l (.delete R now now') = some l') ∧
    ∀ l', Lobby.Listen kitchen l (.delete R now now') = some l' →
      l'.sent = l.sent ++ (l.roomHeap R).clients.map (fun x => (x, NOTICE_ROOM_DELETAR)) ∧
      (∀ x ∈ (l.roomHeap R).clients, l'.outgoing x = l.outgoing x ++ [NOTICE_ROOM_DELETAR]) ∧
      (∀ x, x ∉ (l.roomHeap R).clients → l'.outgoing x = l.outgoing x) ∧
      (∀ x ∈ (l.roomHeap R).clients,
        (l.clientHeap x).chatRoom = some R ∧ (l'.clientHeap x).chatRoom = none) ∧
      (∀ x, (l'.clientHeap x).chatRoom ≠ some R) ∧
      (∀ x, x ∉ (l.roomHeap R).clients → l'.clientHeap x = l.clientHeap x) ∧
      mapGet l'.chatRooms (l.roomHeap R).name = none ∧
      (∀ n', n' ≠ (l.roomHeap R).name → mapGet l'.chatRooms n' = mapGet l.chatRooms n') ∧
      (∀ r, r ≠ R → l'.roomHeap r = l.roomHeap r) ∧
      R ∉ l'.timers ∧
      ∀ c nowc,
        ((l'.clientHeap c).outgoingClosed = false →
          ∃ l'', Lobby.CreateChatRoom l' c (l.roomHeap R).name nowc = some l'') ∧
        ∀ l'', Lobby.CreateChatRoom l' c (l.roomHeap R).name nowc = some l'' →
          ∃ r, r ≠ R ∧ mapGet l''.chatRooms (l.roomHeap R).name = some r ∧
            l''.roomHeap r =
              { name := (l.roomHeap R).name, clients := [], messages := [],
                expiry := nowc + EXPIRY_TIME } := by
  obtain ⟨hR, hM⟩ := ok_run ok_NewLobby hreach
  obtain ⟨k, hk⟩ := hR.timersReg R htimer
  have hname : (l.roomHeap R).name = k := hR.names _ hk
  have hreg : mapGet l.chatRooms (l.roomHeap R).name = some R := by
    rw [hname]; exact mapGet_of_mem hR.keys hk
  have hL : Lobby.Listen kitchen l (.delete R now now') =
      Lobby.DeleteChatRoom { l with timers := removeFirst R l.timers } R now now' := by
    simp only [Lobby.Listen, if_pos htimer]
  have hiff : ∀ l', Lobby.Listen kitchen l (.delete R now now') = some l' ↔
      (∀ x ∈ (l.roomHeap R).clients, (l.clientHeap x).outgoingClosed = false) ∧
        l' = Lobby.afterDelete { l with timers := removeFirst R l.timers } R now' := by
    intro l'
    rw [hL]
    exact @DeleteChatRoom_eq_some { l with timers := removeFirst R l.timers } l' R now now' hexp
  refine ⟨hreg, fun ho => ⟨_, (hiff _).mpr ⟨ho, rfl⟩⟩, ?_⟩
  intro l' h
  obtain ⟨-, rfl⟩ := (hiff l').mp h
  obtain ⟨a1, a2, a3, a4, -, a6, -, a8⟩ :=
    afterDelete_fields { l with timers := removeFirst R l.timers } R now'
  have a1' : (Lobby.afterDelete { l with timers := removeFirst R l.timers } R now').sent =
      l.sent ++ (l.roomHeap R).clients.map (fun x => (x, NOTICE_ROOM_DELETAR)) := a1
  have hnone : mapGet (Lobby.afterDelete { l with timers := removeFirst R l.timers } R
      now').chatRooms (l.roomHeap R).name = none := by
    rw [a2]
    exact mapGet_mapDelete_self _ _
  refine ⟨a1', ?_, ?_, ?_, ?_, ?_, hnone, ?_, a6, ?_, ?_⟩
  · intro x hx
    rw [outgoing_of_sent a1', filter_map_pair, (member_of_registered hM hk hx).2]
    rfl
  · intro x hx
    rw [outgoing_of_sent a1', filter_map_pair, List.count_eq_zero_of_not_mem hx]
    simp
  · intro x hx
    refine ⟨(member_of_registered hM hk hx).1, ?_⟩
    rw [a8]
    simp only [if_pos hx]
  · intro x
    rw [a8]
    split
    · simp
    · next hx =>
      intro hc
      have hcnt : (l.roomHeap R).clients.count x = 1 := (hM.member x R hc).2.1
      exact hx (List.count_pos_iff.mp (by rw [hcnt]; exact Nat.one_pos))
  · intro x hx
    rw [a8]
    simp only [if_neg hx]
  · intro n' hn'
    rw [a2]
    show mapGet (mapDelete l.chatRooms (l.roomHeap R).name) n' = _
    rw [mapGet_mapDelete, if_neg hn']
  · rw [a4]
    show R ∉ removeFirst R l.timers
    rw [removeFirst_eq_erase]
    exact fun hmem => ((List.Nodup.mem_erase_iff hR.timersNodup).mp hmem).1 rfl
  · intro c nowc
    refine ⟨fun ho => ⟨_, (CreateChatRoom_eq_some hnone).mpr ⟨ho, rfl⟩⟩, ?_⟩
    intro l'' h''
    obtain ⟨-, rfl⟩ := (CreateChatRoom_eq_some hnone).mp h''
    refine ⟨l.nextRoom, ?_, ?_, ?_⟩
    · exact fun e => Nat.lt_irrefl _ (e ▸ hR.fresh _ hk)
    · show mapGet ((Lobby.afterDelete { l with timers := removeFirst R l.timers } R
        now').chatRooms ++ [((l.roomHeap R).name, (Lobby.afterDelete
          { l with timers := removeFirst R l.timers } R now').nextRoom)]) _ = _
      rw [mapGet_append_single, hnone, a3]
      simp
    · show (if l.nextRoom = (Lobby.afterDelete { l with timers := removeFirst R l.timers } R
        now').nextRoom then NewChatRoom _ nowc else _) = _
      rw [a3, if_pos rfl]
      rfl

/-- C9 at the expiry of room `a`, whose only member is client 1, followed by client 0
creating `a` again. -/
theorem room_expiry_deletion_witness :
    (∃ l' l'', Lobby.Listen kitchen0 lobby9 (.delete 0 (7 + EXPIRY_TIME) (8 + EXPIRY_TIME))
        = some l' ∧
      Lobby.CreateChatRoom l' 0 "a" (9 + EXPIRY_TIME) = some l'' ∧
      (lobby9.roomHeap 0).clients = [1] ∧
      (lobby9.clientHeap 1).chatRoom = some 0 ∧
      l'.sent = lobby9.sent ++ [(1, NOTICE_ROOM_DELETAR)] ∧
      (l'.clientHeap 1).chatRoom = none ∧
      l'.chatRooms = [("b", 1)] ∧
      l''.chatRooms = [("b", 1), ("a", 2)] ∧
      (l''.roomHeap 2).clients = [] ∧ (l''.roomHeap 2).messages = []) ∧
    mapGet lobby9.chatRooms (lobby9.roomHeap 0).name = some 0 :=
  ⟨⟨_, _, rfl, rfl, rfl, rfl, rfl, rfl, rfl, rfl, rfl, rfl⟩,
    (room_expiry_deletion kitchen0 run9 lobby9 rfl 0 (7 + EXPIRY_TIME) (8 + EXPIRY_TIME)
      (by decide) (by decide)).1⟩

/-! ## C10: expiry and activity -/


theorem lastActivity_append_self (log : List (RoomId × Time)) (r : RoomId) (t : Time) :
    lastActivity (log ++ [(r, t)]) r = some t := by
  simp [lastActivity, List.filter_append]

theorem lastActivity_append_ne (log : List (RoomId × Time)) {r j : RoomId} (t : Time)
    (h : j ≠ r) : lastActivity (log ++ [(r, t)]) j = lastActivity log j := by
  have : ¬ r = j := fun e => h e.symm
  simp [lastActivity, List.filter_append, this]

theorem act_refl (l : Lobby) : l.Act l :=
  ⟨fun _ => Or.inl ⟨rfl, rfl⟩, fun _ h => Or.inl h⟩

theorem act_trans {l l' l'' : Lobby} (h : l.Act l') (h' : l'.Act l'') : l.Act l'' := by
  constructor
  · intro r
    rcases h'.room r with ⟨e1, e2⟩ | ⟨T, e1, e2⟩
    · rcases h.room r with ⟨f1, f2⟩ | ⟨T, f1, f2⟩
      · exact Or.inl ⟨e1.trans f1, e2.trans f2⟩
      · exact Or.inr ⟨T, e2.trans f1, e1.trans f2⟩
    · exact Or.inr ⟨T, e1, e2⟩
  · intro kv hkv
    rcases h'.reg kv hkv with hk | hk
    · rcases h.reg kv hk with hk' | ⟨T, hT⟩
      · exact Or.inl hk'
      · rcases h'.room kv.2 with ⟨-, e2⟩ | ⟨T', e1, -⟩
        · exact Or.inr ⟨T, e2.trans hT⟩
        · exact Or.inr ⟨T', e1⟩
    · exact Or.inr hk

theorem activityOk_of_act {l l' : Lobby} (h : l.Act l') (w : l.ActivityOk) : l'.ActivityOk := by
  constructor
  · intro r T hT
    rcases h.room r with ⟨e1, e2⟩ | ⟨T', e1, e2⟩
    · rw [e1]
      exact w.expiry r T (e2 ▸ hT)
    · rw [e1] at hT
      injection hT with hT
      rw [← hT]
      exact e2
  · intro kv hkv
    rcases h.reg kv hkv with hk | hk
    · obtain ⟨T, hT⟩ := w.active kv hk
      rcases h.room kv.2 with ⟨-, e2⟩ | ⟨T', e1, -⟩
      · exact ⟨T, e2.trans hT⟩
      · exact ⟨T', e1⟩
    · exact hk

/-- A change that touches neither the log nor an expiry and registers nothing. -/
theorem act_quiet {l l' : Lobby} (h1 : l'.activity = l.activity)
    (h2 : ∀ r, (l'.roomHeap r).expiry = (l.roomHeap r).expiry)
    (h3 : ∀ kv ∈ l'.chatRooms, kv ∈ l.chatRooms) : l.Act l' :=
  ⟨fun r => Or.inl ⟨h2 r, by rw [h1]⟩, fun kv hkv => Or.inl (h3 kv hkv)⟩

/-- A change that logs activity of `R` at `now`, sets its expiry accordingly, and registers
at most `R`. -/
theorem act_active {l l' : Lobby} (R : RoomId) (now : Time)
    (h1 : l'.activity = l.activity ++ [(R, now)])
    (h2 : (l'.roomHeap R).expiry = now + EXPIRY_TIME)
    (h3 : ∀ r, r ≠ R → (l'.roomHeap r).expiry = (l.roomHeap r).expiry)
    (h4 : ∀ kv ∈ l'.chatRooms, kv ∈ l.chatRooms ∨ kv.2 = R) : l.Act l' := by
  constructor
  · intro r
    by_cases hr : r = R
    · subst hr
      exact Or.inr ⟨now, by rw [h1, lastActivity_append_self], h2⟩
    · exact Or.inl ⟨h3 r hr, by rw [h1, lastActivity_append_ne _ _ hr]⟩
  · intro kv hkv
    rcases h4 kv hkv with hk | hk
    · exact Or.inl hk
    · exact Or.inr ⟨now, by rw [h1, hk, lastActivity_append_self]⟩

theorem act_send {l l' : Lobby} {c : ClientId} {s : String} (h : send l c s = some l') :
    l.Act l' := by
  obtain ⟨-, rfl⟩ := send_eq_some.mp h
  exact act_quiet rfl (fun _ => rfl) (fun _ h => h)

theorem act_sends {l l' : Lobby} {c : ClientId} {strs : List String}
    (h : sends l c strs = some l') : l.Act l' := by
  obtain ⟨-, rfl⟩ := sends_eq_some.mp h
  exact act_quiet rfl (fun _ => rfl) (fun _ h => h)

theorem act_setClient (l : Lobby) (c : ClientId) (v : Client) : l.Act (l.setClient c v) :=
  act_quiet rfl (fun _ => rfl) (fun _ h => h)

theorem act_Broadcast {l l' : Lobby} {R : RoomId} {now : Time} {m : String}
    (h : ChatRoom.Broadcast l R now m = some l') : l.Act l' := by
  obtain ⟨-, rfl⟩ := Broadcast_eq_some.mp h
  refine act_active R now rfl ?_ ?_ (fun _ h => Or.inl h)
  · simp [Lobby.afterBroadcast]
  · intro r hr
    simp [Lobby.afterBroadcast, hr]

theorem act_ChatRoomLeave {l l' : Lobby} {R : RoomId} {c : ClientId} {now : Time}
    (h : ChatRoom.Leave l R c now = some l') : l.Act l' := by
  obtain ⟨-, rfl⟩ := ChatRoomLeave_eq_some.mp h
  refine act_active R now rfl ?_ ?_ (fun _ h => Or.inl h)
  · simp [Lobby.afterBroadcast]
  · intro r hr
    simp [Lobby.afterBroadcast, hr]

theorem act_ChatRoomJoin {l l' : Lobby} {R : RoomId} {c : ClientId} {now : Time}
    (h : ChatRoom.Join l R c now = some l') : l.Act l' := by
  obtain ⟨-, rfl⟩ := ChatRoomJoin_eq_some.mp h
  refine act_active R now rfl ?_ ?_ (fun _ h => Or.inl h)
  · simp [Lobby.afterBroadcast, Lobby.afterJoin]
  · intro r hr
    simp [Lobby.afterBroadcast, Lobby.afterJoin, hr]

theorem act_LeaveChatRoom {l l' : Lobby} {c : ClientId} {now : Time}
    (h : Lobby.LeaveChatRoom l c now = some l') : l.Act l' := by
  unfold Lobby.LeaveChatRoom at h
  split at h
  · exact act_send h
  · exact act_ChatRoomLeave h

theorem act_JoinChatRoom {l l' : Lobby} {c : ClientId} {name : String} {now now' : Time}
    (h : Lobby.JoinChatRoom l c name now now' = some l') : l.Act l' := by
  unfold Lobby.JoinChatRoom at h
  split at h
  · exact act_send h
  · simp only [Option.bind_eq_some] at h
    obtain ⟨l1, h1, h2⟩ := h
    have a1 : l.Act l1 := by
      split at h1
      · exact act_LeaveChatRoom h1
      · injection h1 with h1
        subst h1
        exact act_refl l
    split at h2
    · cases h2
    · exact act_trans a1 (act_ChatRoomJoin h2)

theorem act_CreateChatRoom {l l' : Lobby} {c : ClientId} {name : String} {now : Time}
    (h : Lobby.CreateChatRoom l c name now = some l') : l.Act l' := by
  cases hn : mapGet l.chatRooms name with
  | some r =>
    unfold Lobby.CreateChatRoom at h
    rw [hn] at h
    exact act_send h
  | none =>
    obtain ⟨-, rfl⟩ := (CreateChatRoom_eq_some hn).mp h
    refine act_active l.nextRoom now rfl ?_ ?_ ?_
    · simp [Lobby.afterCreate, NewChatRoom]
    · intro r hr
      simp [Lobby.afterCreate, hr]
    · intro kv hkv
      have : kv ∈ l.chatRooms ++ [(name, l.nextRoom)] := hkv
      rcases List.mem_append.mp this with hk | hk
      · exact Or.inl hk
      · simp only [List.mem_singleton] at hk
        subst hk
        exact Or.inr rfl

theorem act_ChangeName {l l' : Lobby} {c : ClientId} {name : String} {now : Time}
    (h : Lobby.ChangeName l c name now = some l') : l.Act l' := by
  unfold Lobby.ChangeName at h
  simp only [Option.bind_eq_some] at h
  obtain ⟨l1, h1, h2⟩ := h
  injection h2 with h2
  subst h2
  have a1 : l.Act l1 := by
    split at h1
    · exact act_send h1
    · exact act_Broadcast h1
  exact act_trans a1 (act_setClient l1 c _)

theorem act_SendMessage {kitchen : Time → String} {l l' : Lobby} {m : Message} {now : Time}
    (h : Lobby.SendMessage kitchen l m now = some l') : l.Act l' := by
  unfold Lobby.SendMessage at h
  split at h
  · exact act_send h
  · exact act_Broadcast h

theorem act_Parse {kitchen : Time → String} {l l' : Lobby} {m : Message} {now now' : Time}
    (h : Lobby.Parse kitchen l m now now' = some l') : l.Act l' := by
  unfold Lobby.Parse at h
  split at h
  · exact act_CreateChatRoom h
  split at h
  · exact act_sends h
  split at h
  · exact act_JoinChatRoom h
  split at h
  · exact act_LeaveChatRoom h
  split at h
  · exact act_ChangeName h
  split at h
  · exact act_sends h
  split at h
  · injection h with h
    subst h
    exact act_setClient l _ _
  · exact act_SendMessage h

theorem act_LobbyJoin {l l' : Lobby} {c : ClientId} (h : Lobby.Join l c = some l') :
    l.Act l' := by
  unfold Lobby.Join at h
  split at h
  · injection h with h
    subst h
    exact act_setClient l _ _
  · have q : l.Act { l with clients := l.clients ++ [c] } :=
      act_quiet rfl (fun _ => rfl) (fun _ h => h)
    exact act_trans q (act_send h)

theorem act_LobbyLeave {l l' : Lobby} {c : ClientId} {now : Time}
    (h : Lobby.Leave l c now = some l') : l.Act l' := by
  unfold Lobby.Leave at h
  simp only [Option.bind_eq_some] at h
  obtain ⟨l1, h1, h2⟩ := h
  have a1 : l.Act l1 := by
    split at h1
    · exact act_ChatRoomLeave h1
    · injection h1 with h1
      subst h1
      exact act_refl l
  refine act_trans a1 ?_
  unfold closeOutgoing at h2
  split at h2
  · cases h2
  · injection h2 with h2
    subst h2
    exact act_quiet rfl (fun _ => rfl) (fun _ h => h)

theorem clearRooms_activity (l : Lobby) (cs : List ClientId) :
    (clearRooms l cs).activity = l.activity := by
  induction cs generalizing l with
  | nil => rfl
  | cons c cs ih => simp only [clearRooms, ih, setClient_activity]

theorem act_DeleteChatRoom {l l' : Lobby} {R : RoomId} {now now' : Time}
    (h : Lobby.DeleteChatRoom l R now now' = some l') : l.Act l' := by
  by_cases hexp : (l.roomHeap R).expiry ≤ now
  · obtain ⟨-, rfl⟩ := (DeleteChatRoom_eq_some hexp).mp h
    obtain ⟨-, a2, -, -, -, a6, -, -⟩ := afterDelete_fields l R now'
    obtain ⟨-, -, f3, -, -, -⟩ := clearRooms_frame
      (l.afterBroadcast R now' NOTICE_ROOM_DELETAR)
      ((l.afterBroadcast R now' NOTICE_ROOM_DELETAR).roomHeap R).clients
    refine act_active R now' ?_ ?_ ?_ ?_
    · show (clearRooms _ _).activity = _
      rw [clearRooms_activity]
      rfl
    · show ((clearRooms _ _).roomHeap R).expiry = _
      rw [f3]
      simp [Lobby.afterBroadcast]
    · intro r hr
      rw [a6 r hr]
    · intro kv hkv
      rw [a2] at hkv
      exact Or.inl (mem_mapDelete.mp hkv).1
  · unfold Lobby.DeleteChatRoom at h
    rw [if_pos (Nat.lt_of_not_le hexp)] at h
    injection h with h
    subst h
    exact act_quiet rfl (fun _ => rfl) (fun _ h => h)

theorem act_Listen {kitchen : Time → String} {l l' : Lobby} {e : Event}
    (h : Lobby.Listen kitchen l e = some l') : l.Act l' := by
  cases e with
  | incoming m now now' => exact act_Parse h
  | join c => exact act_LobbyJoin h
  | leave c now => exact act_LobbyLeave h
  | delete r now now' =>
    simp only [Lobby.Listen] at h
    split at h
    · have q : l.Act { l with timers := removeFirst r l.timers } :=
        act_quiet rfl (fun _ => rfl) (fun _ h => h)
      exact act_trans q (act_DeleteChatRoom h)
    · cases h

theorem activityOk_run {kitchen : Time → String} {l l' : Lobby} {es : List Event}
    (w : l.ActivityOk) (h : run kitchen l es = some l') : l'.ActivityOk := by
  induction es generalizing l with
  | nil =>
    injection h with h
    subst h
    exact w
  | cons e es ih =>
    simp only [run, Option.bind_eq_some] at h
    obtain ⟨l1, h1, h2⟩ := h
    exact ih (activityOk_of_act (act_Listen h1) w) h2

theorem activityOk_NewLobby : NewLobby.ActivityOk := by
  constructor
  · intro r T h
    simp [NewLobby, lastActivity] at h
  · intro kv hkv
    simp [NewLobby] at hkv

theorem chatRooms_Parse {kitchen : Time → String} {l l' : Lobby} {m : Message}
    {now now' : Time} (h : Lobby.Parse kitchen l m now now' = some l') :
    ∀ n r, mapGet l.chatRooms n = some r → mapGet l'.chatRooms n = some r := by
  have same : l'.chatRooms = l.chatRooms →
      ∀ n r, mapGet l.chatRooms n = some r → mapGet l'.chatRooms n = some r := by
    intro e n r hn
    rw [e]
    exact hn
  unfold Lobby.Parse at h
  split at h
  · cases hn : mapGet l.chatRooms
        (TrimSuffix (TrimPrefix m.text (CMD_CRIAR ++ " ")) "\n") with
    | some r =>
      unfold Lobby.CreateChatRoom at h
      rw [hn] at h
      exact same (sameShape_send h).chatRooms
    | none =>
      obtain ⟨-, rfl⟩ := (CreateChatRoom_eq_some hn).mp h
      intro n r hr
      show mapGet (l.chatRooms ++ [(_, l.nextRoom)]) n = _
      rw [mapGet_append_single, hr]
  split at h
  · exact same (sameShape_sends h).chatRooms
  split at h
  · unfold Lobby.JoinChatRoom at h
    split at h
    · exact same (sameShape_send h).chatRooms
    · simp only [Option.bind_eq_some] at h
      obtain ⟨l1, h1, h2⟩ := h
      have e1 : l1.chatRooms = l.chatRooms := by
        split at h1
        · unfold Lobby.LeaveChatRoom at h1
          split at h1
          · exact (sameShape_send h1).chatRooms
          · exact (ChatRoomLeave_fields h1).1
        · injection h1 with h1
          rw [← h1]
      split at h2
      · cases h2
      · exact same ((ChatRoomJoin_fields h2).1.trans e1)
  split at h
  · unfold Lobby.LeaveChatRoom at h
    split at h
    · exact same (sameShape_send h).chatRooms
    · exact same (ChatRoomLeave_fields h).1
  split at h
  · unfold Lobby.ChangeName at h
    simp only [Option.bind_eq_some] at h
    obtain ⟨l1, h1, h2⟩ := h
    injection h2 with h2
    subst h2
    split at h1
    · exact same (sameShape_send h1).chatRooms
    · exact same (sameShape_Broadcast h1).chatRooms
  split at h
  · exact same (sameShape_sends h).chatRooms
  split at h
  · injection h with h
    subst h
    exact same rfl
  · unfold Lobby.SendMessage at h
    split at h
    · exact same (sameShape_send h).chatRooms
    · exact same (sameShape_Broadcast h).chatRooms

theorem chatRooms_LobbyJoin {l l' : Lobby} {c : ClientId} (h : Lobby.Join l c = some l') :
    l'.chatRooms = l.chatRooms := by
  unfold Lobby.Join at h
  split at h
  · injection h with h
    rw [← h]
    rfl
  · exact (sameShape_send h).chatRooms

theorem chatRooms_LobbyLeave {l l' : Lobby} {c : ClientId} {now : Time}
    (h : Lobby.Leave l c now = some l') : l'.chatRooms = l.chatRooms := by
  unfold Lobby.Leave at h
  simp only [Option.bind_eq_some] at h
  obtain ⟨l1, h1, h2⟩ := h
  have e1 : l1.chatRooms = l.chatRooms := by
    split at h1
    · exact (ChatRoomLeave_fields h1).1
    · injection h1 with h1
      rw [← h1]
  exact (sameShape_closeOutgoing h2).chatRooms.trans e1


/-- C10. In every state the event loop reaches from `NewLobby`, every registered room has
a latest activity, a call of `NewChatRoom` or of `ChatRoom.Broadcast` on it (notices
included) at some clock reading `T`, and its expiry is `T + EXPIRY_TIME`. And whenever one
more iteration of the loop takes a room out of the map, the event handled is the expiry
check of that very room and its clock reading `now` satisfies `T + EXPIRY_TIME ≤ now`: no
event removes a room earlier than `EXPIRY_TIME` after its latest activity, whenever the
expiry goroutines fire. -/
theorem no_premature_deletion (kitchen : Time → String) (events : List Event) (l : Lobby)
    (hreach : run kitchen NewLobby events = some l) :
    (∀ n r, mapGet l.chatRooms n = some r →
      ∃ T, lastActivity l.activity r = some T ∧ (l.roomHeap r).expiry = T + EXPIRY_TIME) ∧
    (∀ e l', Lobby.Listen kitchen l e = some l' →
      ∀ n r, mapGet l.chatRooms n = some r → mapGet l'.chatRooms n ≠ some r →
        ∃ now now' T, e = .delete r now now' ∧ lastActivity l.activity r = some T ∧
          (l.roomHeap r).expiry = T + EXPIRY_TIME ∧ T + EXPIRY_TIME ≤ now) := by
  obtain ⟨hR, -⟩ := ok_run ok_NewLobby hreach
  have hA := activityOk_run activityOk_NewLobby hreach
  have part1 : ∀ n r, mapGet l.chatRooms n = some r →
      ∃ T, lastActivity l.activity r = some T ∧ (l.roomHeap r).expiry = T + EXPIRY_TIME := by
    intro n r hn
    obtain ⟨T, hT⟩ := hA.active (n, r) (mapGet_mem hn)
    exact ⟨T, hT, hA.expiry r T hT⟩
  refine ⟨part1, ?_⟩
  intro e l' h n r hn hne
  cases e with
  | incoming m now now' => exact absurd (chatRooms_Parse h n r hn) hne
  | join c =>
    rw [chatRooms_LobbyJoin h] at hne
    exact absurd hn hne
  | leave c now =>
    rw [chatRooms_LobbyLeave h] at hne
    exact absurd hn hne
  | delete r0 now now' =>
    simp only [Lobby.Listen] at h
    split at h
    · next htimer =>
      by_cases hexp : (l.roomHeap r0).expiry ≤ now
      · obtain ⟨-, rfl⟩ :=
          (@DeleteChatRoom_eq_some { l with timers := removeFirst r0 l.timers } l' r0 now now'
            hexp).mp h
        obtain ⟨-, a2, -⟩ := afterDelete_fields { l with timers := removeFirst r0 l.timers }
          r0 now'
        rw [a2] at hne
        have hne' : mapGet (mapDelete l.chatRooms (l.roomHeap r0).name) n ≠ some r := hne
        rw [mapGet_mapDelete] at hne'
        have hnn : n = (l.roomHeap r0).name := by
          by_contra hc
          rw [if_neg hc] at hne'
          exact hne' hn
        obtain ⟨k, hk⟩ := hR.timersReg r0 htimer
        have hk' : mapGet l.chatRooms (l.roomHeap r0).name = some r0 := by
          rw [hR.names _ hk]
          exact mapGet_of_mem hR.keys hk
        rw [hnn, hk'] at hn
        injection hn with hn
        subst hn
        obtain ⟨T, hT, hE⟩ := part1 _ _ hk'
        exact ⟨now, now', T, rfl, hT, hE, hE ▸ hexp⟩
      · unfold Lobby.DeleteChatRoom at h
        rw [if_pos (Nat.lt_of_not_le hexp)] at h
        injection h with h
        rw [← h] at hne
        exact absurd hn hne
    · cases h

/-- C10 at the state `lobby9`: the latest activity of room `a` is the departure notice at
reading 5, its expiry is `5 + EXPIRY_TIME`, and the expiry check at that reading removes
it. -/
theorem no_premature_deletion_witness :
    (lastActivity lobby9.activity 0 = some 5 ∧
      (lobby9.roomHeap 0).expiry = 5 + EXPIRY_TIME ∧
      mapGet lobby9.chatRooms "a" = some 0 ∧
      ∃ l', Lobby.Listen kitchen0 lobby9 event10 = some l' ∧
        mapGet l'.chatRooms "a" = none) ∧
    ∀ l', Lobby.Listen kitchen0 lobby9 event10 = some l' →
      ∀ n r, mapGet lobby9.chatRooms n = some r → mapGet l'.chatRooms n ≠ some r →
        ∃ now now' T, event10 = .delete r now now' ∧
          lastActivity lobby9.activity r = some T ∧
          (lobby9.roomHeap r).expiry = T + EXPIRY_TIME ∧ T + EXPIRY_TIME ≤ now :=
  ⟨⟨rfl, rfl, rfl, _, rfl, rfl⟩,
    (no_premature_deletion kitchen0 run9 lobby9 rfl).2 event10⟩

/-! ## C11: `Lobby.Leave` -/

theorem Sprintf_deixar (n : String) :
    Sprintf NOTICE_ROOM_DEIXAR [n] = "Alerta: \"" ++ n ++ "\" Deixar o chat.\n" := rfl

theorem closeOutgoing_eq_some {l l' : Lobby} {c : ClientId} :
    closeOutgoing l c = some l' ↔
      (l.clientHeap c).outgoingClosed = false ∧
        l' = l.setClient c { l.clientHeap c with outgoingClosed := true } := by
  unfold closeOutgoing
  cases h : (l.clientHeap c).outgoingClosed
  · simp only [Bool.false_eq_true, if_false, Option.some.injEq, true_and]
    exact ⟨fun e => e.symm, fun e => e.symm⟩
  · simp

theorem ChatRoomLeave_sent {l l' : Lobby} {R : RoomId} {c : ClientId} {now : Time}
    (h : ChatRoom.Leave l R c now = some l') :
    l'.sent = l.sent ++ (l.roomHeap R).clients.map
        (fun x => (x, Sprintf NOTICE_ROOM_DEIXAR [(l.clientHeap c).name])) ∧
    (l'.roomHeap R).messages = (l.roomHeap R).messages ++
        [Sprintf NOTICE_ROOM_DEIXAR [(l.clientHeap c).name]] ∧
    ∀ r, r ≠ R → l'.roomHeap r = l.roomHeap r := by
  obtain ⟨-, rfl⟩ := ChatRoomLeave_eq_some.mp h
  refine ⟨rfl, by simp [Lobby.afterBroadcast], ?_⟩
  intro r hr
  simp [Lobby.afterBroadcast, hr]

/-- C11. In a state the event loop reaches from `NewLobby`, let `c` be registered, once.
`Lobby.Leave(c)` returns when the channel of `c` and the channels of the members of its
room are open, and after it: `c` is not in the registry, which is the old registry without
`c`, the others in their order; `c` has no room and is in the member list of no registered
room; the channel of `c`, open before, is closed. When `c` had no room nothing was sent and
no room changed. When the room of `c` was `R`, `c` was a member of `R`, the sends made are
exactly one departure notice naming `c` to each member of `R` at the time of the call, `c`
included, so each received it once; the notice is the last entry of the history of `R`;
and the member list of `R` is the old one without `c`, the others in their order. -/
theorem Leave_postcondition (kitchen : Time → String) (events : List Event) (l : Lobby)
    (hreach : run kitchen NewLobby events = some l) (c : ClientId)
    (hc : l.clients.count c = 1) (now : Time) :
    ((l.clientHeap c).outgoingClosed = false →
      (∀ R, (l.clientHeap c).chatRoom = some R →
        ∀ x ∈ (l.roomHeap R).clients, (l.clientHeap x).outgoingClosed = false) →
      ∃ l', Lobby.Leave l c now = some l') ∧
    ∀ l', Lobby.Leave l c now = some l' →
      c ∉ l'.clients ∧
      l'.clients = l.clients.filter (fun x => decide (x ≠ c)) ∧
      (l'.clientHeap c).chatRoom = none ∧
      (∀ r, l'.Registered r → c ∉ (l'.roomHeap r).clients) ∧
      (l.clientHeap c).outgoingClosed = false ∧
      (l'.clientHeap c).outgoingClosed = true ∧
      ((l.clientHeap c).chatRoom = none → l'.sent = l.sent ∧ l'.roomHeap = l.roomHeap) ∧
      ∀ R, (l.clientHeap c).chatRoom = some R →
        c ∈ (l.roomHeap R).clients ∧
        l'.sent = l.sent ++ (l.roomHeap R).clients.map
          (fun x => (x, "Alerta: \"" ++ (l.clientHeap c).name ++ "\" Deixar o chat.\n")) ∧
        (∀ x ∈ (l.roomHeap R).clients, l'.outgoing x = l.outgoing x ++
          ["Alerta: \"" ++ (l.clientHeap c).name ++ "\" Deixar o chat.\n"]) ∧
        (l'.roomHeap R).messages = (l.roomHeap R).messages ++
          ["Alerta: \"" ++ (l.clientHeap c).name ++ "\" Deixar o chat.\n"] ∧
        (l'.roomHeap R).clients = (l.roomHeap R).clients.filter (fun x => decide (x ≠ c)) := by
  have hok := ok_run ok_NewLobby hreach
  constructor
  · intro hopen hmem
    unfold Lobby.Leave
    cases hroom : (l.clientHeap c).chatRoom with
    | none =>
      simp only [Option.some_bind]
      exact ⟨_, closeOutgoing_eq_some.mpr ⟨hopen, rfl⟩⟩
    | some R =>
      have hl : ChatRoom.Leave l R c now = some _ :=
        ChatRoomLeave_eq_some.mpr ⟨hmem R hroom, rfl⟩
      simp only [hl, Option.some_bind]
      refine ⟨_, closeOutgoing_eq_some.mpr ⟨?_, rfl⟩⟩
      simpa using hopen
  · intro l' h
    have hok' := ok_LobbyLeave hok h
    unfold Lobby.Leave at h
    simp only [Option.bind_eq_some] at h
    obtain ⟨l1, h1, h2⟩ := h
    obtain ⟨hopen1, rfl⟩ := closeOutgoing_eq_some.mp h2
    have hcl : ∀ l1 : Lobby, l1.clients = l.clients →
        removeFirst c l1.clients = l.clients.filter (fun x => decide (x ≠ c)) := by
      intro l1 e
      rw [e, removeFirst_eq_erase, erase_eq_filter_of_count_le_one c _ (le_of_eq hc)]
    cases hroom : (l.clientHeap c).chatRoom with
    | none =>
      rw [hroom] at h1
      injection h1 with h1
      subst h1
      have hfil := hcl l rfl
      have hnone : ((Lobby.setClient { l with clients := removeFirst c l.clients } c
          { l.clientHeap c with outgoingClosed := true }).clientHeap c).chatRoom = none := by
        simpa using hroom
      refine ⟨?_, hfil, hnone, ?_, hopen1, by simp, fun _ => ⟨rfl, rfl⟩, ?_⟩
      · show c ∉ removeFirst c l.clients
        rw [hfil]
        simp
      · rintro r ⟨n, hn⟩
        exact hok'.2.roomless c hnone (n, r) (mapGet_mem hn)
      · intro R hR
        cases hR
    | some R =>
      rw [hroom] at h1
      have h1' : ChatRoom.Leave l R c now = some l1 := h1
      obtain ⟨e1, e2, -, -, e5, -, e7, e8, -⟩ := ChatRoomLeave_fields h1'
      obtain ⟨s1, s2, -⟩ := ChatRoomLeave_sent h1'
      have hfil := hcl l1 e2
      have hnone : ((Lobby.setClient { l1 with clients := removeFirst c l1.clients } c
          { l1.clientHeap c with outgoingClosed := true }).clientHeap c).chatRoom = none := by
        have := e7 c
        simpa using this
      obtain ⟨⟨k, hk⟩, hcount, -⟩ := hok.2.member c R hroom
      have hcin : c ∈ (l.roomHeap R).clients :=
        List.count_pos_iff.mp (by rw [hcount]; exact Nat.one_pos)
      refine ⟨?_, hfil, hnone, ?_, ?_, by simp, ?_, ?_⟩
      · show c ∉ removeFirst c l1.clients
        rw [hfil]
        simp
      · rintro r ⟨n, hn⟩
        exact hok'.2.roomless c hnone (n, r) (mapGet_mem hn)
      · have := e8 c
        rw [← this]
        simpa using hopen1
      · intro hn
        cases hn
      · intro R' hR'
        injection hR' with hR'
        subst hR'
        have hs : (Lobby.setClient { l1 with clients := removeFirst c l1.clients } c
            { l1.clientHeap c with outgoingClosed := true }).sent =
            l.sent ++ (l.roomHeap R).clients.map
              (fun x => (x, "Alerta: \"" ++ (l.clientHeap c).name ++ "\" Deixar o chat.\n")) := s1
        refine ⟨hcin, hs, ?_, s2, ?_⟩
        · intro x hx
          rw [outgoing_of_sent hs, filter_map_pair, (member_of_registered hok.2 hk hx).2]
          rfl
        · show (l1.roomHeap R).clients = _
          rw [e5, if_pos rfl, removeFirst_eq_erase,
            erase_eq_filter_of_count_le_one c _ (le_of_eq hcount)]

/-- C11 at client 0 leaving while it shares room `a` with client 1. -/
theorem Leave_postcondition_witness :
    (∃ l', Lobby.Leave lobby4 0 9 = some l' ∧
      lobby4.clients = [0, 1] ∧ l'.clients = [1] ∧
      (lobby4.roomHeap 0).clients = [0, 1] ∧ (l'.roomHeap 0).clients = [1] ∧
      (l'.clientHeap 0).chatRoom = none ∧ (l'.clientHeap 0).outgoingClosed = true ∧
      l'.sent = lobby4.sent ++ [(0, "Alerta: \"Cliente\" Deixar o chat.\n"),
        (1, "Alerta: \"Cliente\" Deixar o chat.\n")]) ∧
    ((lobby4.clientHeap 0).outgoingClosed = false →
      (∀ R, (lobby4.clientHeap 0).chatRoom = some R →
        ∀ x ∈ (lobby4.roomHeap R).clients, (lobby4.clientHeap x).outgoingClosed = false) →
      ∃ l', Lobby.Leave lobby4 0 9 = some l') :=
  ⟨⟨_, rfl, rfl, rfl, rfl, rfl, rfl, rfl, rfl⟩,
    (Leave_postcondition kitchen0 run4 lobby4 rfl 0 (by decide) 9).1⟩

/-! ## C12: `ChangeName` -/

theorem Sprintf_room_nome (a b : String) :
    Sprintf NOTICE_ROOM_NOME [a, b] =
      "Alerta: \"" ++ a ++ "\" Mudar o nome \"" ++ b ++ "\".\n" := by
  apply String.ext
  simp only [String.data_append, List.append_assoc]
  rfl

theorem Sprintf_personal_nome (n : String) :
    Sprintf NOTICE_PERSONAL_NOME [n] =
      "Alerta: Mudar o nome para \"\".\n%!(EXTRA string=" ++ n ++ ")" := by
  apply String.ext
  simp only [String.data_append, List.append_assoc]
  rfl


theorem ChangeName_roomless {l l' : Lobby} {c : ClientId} {n : String} {now : Time}
    (hroom : (l.clientHeap c).chatRoom = none) :
    Lobby.ChangeName l c n now = some l' ↔
      (l.clientHeap c).outgoingClosed = false ∧ l' = l.afterPersonalRename c n := by
  unfold Lobby.ChangeName
  rw [hroom]
  simp only [Option.bind_eq_some, send_eq_some, Option.some.injEq]
  constructor
  · rintro ⟨l1, ⟨ho, rfl⟩, rfl⟩
    exact ⟨ho, rfl⟩
  · rintro ⟨ho, rfl⟩
    exact ⟨_, ⟨ho, rfl⟩, rfl⟩

theorem ChangeName_inRoom {l l' : Lobby} {c : ClientId} {R : RoomId} {n : String}
    {now : Time} (hroom : (l.clientHeap c).chatRoom = some R) :
    Lobby.ChangeName l c n now = some l' ↔
      (∀ x ∈ (l.roomHeap R).clients, (l.clientHeap x).outgoingClosed = false) ∧
        l' = l.afterRoomRename R c n now := by
  unfold Lobby.ChangeName
  rw [hroom]
  simp only [Option.bind_eq_some, Broadcast_eq_some, Option.some.injEq]
  constructor
  · rintro ⟨l1, ⟨ho, rfl⟩, rfl⟩
    exact ⟨ho, rfl⟩
  · rintro ⟨ho, rfl⟩
    exact ⟨_, ⟨ho, rfl⟩, rfl⟩

/-- The part of the state a rename leaves alone: registry, room map, member lists and room
references, and every other client's name. -/
theorem rename_frame (l l1 : Lobby) (c : ClientId) (n : String)
    (h1 : l1.clients = l.clients) (h2 : l1.chatRooms = l.chatRooms)
    (h3 : ∀ r, (l1.roomHeap r).clients = (l.roomHeap r).clients)
    (h4 : l1.clientHeap = l.clientHeap) :
    (Lobby.setClient l1 c { l.clientHeap c with name := n }).clients = l.clients ∧
    (Lobby.setClient l1 c { l.clientHeap c with name := n }).chatRooms = l.chatRooms ∧
    (∀ r, ((Lobby.setClient l1 c { l.clientHeap c with name := n }).roomHeap r).clients =
      (l.roomHeap r).clients) ∧
    (∀ x, ((Lobby.setClient l1 c { l.clientHeap c with name := n }).clientHeap x).chatRoom =
      (l.clientHeap x).chatRoom) ∧
    (∀ x, x ≠ c →
      (Lobby.setClient l1 c { l.clientHeap c with name := n }).clientHeap x = l.clientHeap x) ∧
    ((Lobby.setClient l1 c { l.clientHeap c with name := n }).clientHeap c).name = n := by
  refine ⟨h1, h2, h3, fun x => ?_, fun x hx => ?_, by simp⟩
  · by_cases hx : x = c
    · subst hx; simp
    · simp [hx, h4]
  · simp [hx, h4]

/-- C12. `ChangeName(c, n)` has no error path: it returns whenever the channels it sends to
are open, and after it the name of `c` is `n` while the registry, the room map, every
member list, every room reference and every other client object are as before. When `c` has
no room, the only send is one string to `c`. When the room of `c` is `R`, the sends are one
rename notice to each entry of the member list of `R`, the notice holds the old name of `c`
(it is built before the name is set) and `n`, and it is appended to the history of `R`. In
a state the event loop reaches from `NewLobby`, `c` is once in that member list, so it
receives the notice once. -/
theorem ChangeName_spec (kitchen : Time → String) (l : Lobby) (c : ClientId) (n : String)
    (now : Time) :
    ((l.clientHeap c).chatRoom = none →
      ((l.clientHeap c).outgoingClosed = false →
        ∃ l', Lobby.ChangeName l c n now = some l') ∧
      ∀ l', Lobby.ChangeName l c n now = some l' →
        (∃ s, l'.sent = l.sent ++ [(c, s)]) ∧
        l'.outgoing c = l.outgoing c ++ [Sprintf NOTICE_PERSONAL_NOME [n]] ∧
        (∀ x, x ≠ c → l'.outgoing x = l.outgoing x) ∧
        l'.roomHeap = l.roomHeap) ∧
    (∀ R, (l.clientHeap c).chatRoom = some R →
      ((∀ x ∈ (l.roomHeap R).clients, (l.clientHeap x).outgoingClosed = false) →
        ∃ l', Lobby.ChangeName l c n now = some l') ∧
      ∀ l', Lobby.ChangeName l c n now = some l' →
        l'.sent = l.sent ++ (l.roomHeap R).clients.map (fun x =>
          (x, "Alerta: \"" ++ (l.clientHeap c).name ++ "\" Mudar o nome \"" ++ n ++ "\".\n")) ∧
        (∀ x, l'.outgoing x = l.outgoing x ++
          List.replicate ((l.roomHeap R).clients.count x)
            ("Alerta: \"" ++ (l.clientHeap c).name ++ "\" Mudar o nome \"" ++ n ++ "\".\n")) ∧
        (l'.roomHeap R).messages = (l.roomHeap R).messages ++
          ["Alerta: \"" ++ (l.clientHeap c).name ++ "\" Mudar o nome \"" ++ n ++ "\".\n"] ∧
        (∀ events, run kitchen NewLobby events = some l →
          (l.roomHeap R).clients.count c = 1)) ∧
    (∀ l', Lobby.ChangeName l c n now = some l' →
      (l'.clientHeap c).name = n ∧
      l'.clients = l.clients ∧ l'.chatRooms = l.chatRooms ∧
      (∀ r, (l'.roomHeap r).clients = (l.roomHeap r).clients) ∧
      (∀ x, (l'.clientHeap x).chatRoom = (l.clientHeap x).chatRoom) ∧
      (∀ x, x ≠ c → l'.clientHeap x = l.clientHeap x)) := by
  refine ⟨?_, ?_, ?_⟩
  · intro hroom
    refine ⟨fun ho => ⟨_, (ChangeName_roomless hroom).mpr ⟨ho, rfl⟩⟩, ?_⟩
    intro l' h
    obtain ⟨-, rfl⟩ := (ChangeName_roomless hroom).mp h
    have hs : (l.afterPersonalRename c n).sent =
        l.sent ++ [(c, Sprintf NOTICE_PERSONAL_NOME [n])] := rfl
    refine ⟨⟨_, hs⟩, ?_, ?_, rfl⟩
    · rw [outgoing_of_sent hs]
      simp
    · intro x hx
      rw [outgoing_of_sent hs]
      have : ¬ c = x := fun e => hx e.symm
      simp [this]
  · intro R hroom
    refine ⟨fun ho => ⟨_, (ChangeName_inRoom hroom).mpr ⟨ho, rfl⟩⟩, ?_⟩
    intro l' h
    obtain ⟨-, rfl⟩ := (ChangeName_inRoom hroom).mp h
    have hs : (l.afterRoomRename R c n now).sent = l.sent ++ (l.roomHeap R).clients.map
        (fun x => (x, "Alerta: \"" ++ (l.clientHeap c).name ++ "\" Mudar o nome \"" ++ n ++
          "\".\n")) := by
      rw [← Sprintf_room_nome]
      rfl
    refine ⟨hs, ?_, ?_, ?_⟩
    · intro x
      rw [outgoing_of_sent hs, filter_map_pair]
    · rw [← Sprintf_room_nome]
      simp [Lobby.afterRoomRename, Lobby.afterBroadcast]
    · intro events hreach
      exact ((ok_run ok_NewLobby hreach).2.member c R hroom).2.1
  · intro l' h
    cases hroom : (l.clientHeap c).chatRoom with
    | none =>
      obtain ⟨-, rfl⟩ := (ChangeName_roomless hroom).mp h
      obtain ⟨f1, f2, f3, f4, f5, f6⟩ := rename_frame l
        { l with sent := l.sent ++ [(c, Sprintf NOTICE_PERSONAL_NOME [n])] } c n
        rfl rfl (fun _ => rfl) rfl
      exact ⟨f6, f1, f2, f3, f4, f5⟩
    | some R =>
      obtain ⟨-, rfl⟩ := (ChangeName_inRoom hroom).mp h
      obtain ⟨f1, f2, f3, f4, f5, f6⟩ := rename_frame l
        (l.afterBroadcast R now (Sprintf NOTICE_ROOM_NOME [(l.clientHeap c).name, n])) c n
        rfl rfl (fun r => (sameShape_afterBroadcast l R now _).roomClients r) rfl
      exact ⟨f6, f1, f2, f3, f4, f5⟩

/-- C12 at client 0 renaming itself in room `a`, shared with client 1, and at the roomless
client 2. -/
theorem ChangeName_spec_witness :
    (∃ l', Lobby.ChangeName lobby4 0 "Bob" 9 = some l' ∧
      (lobby4.clientHeap 0).name = "Cliente" ∧ (l'.clientHeap 0).name = "Bob" ∧
      l'.sent = lobby4.sent ++ [(0, "Alerta: \"Cliente\" Mudar o nome \"Bob\".\n"),
        (1, "Alerta: \"Cliente\" Mudar o nome \"Bob\".\n")]) ∧
    (∃ l', Lobby.ChangeName lobby4 2 "Bob" 9 = some l' ∧
      (l'.clientHeap 2).name = "Bob" ∧
      l'.sent = lobby4.sent ++
        [(2, "Alerta: Mudar o nome para \"\".\n%!(EXTRA string=Bob)")]) ∧
    (∀ l', Lobby.ChangeName lobby4 0 "Bob" 9 = some l' →
      (l'.clientHeap 0).name = "Bob" ∧
      l'.clients = lobby4.clients ∧ l'.chatRooms = lobby4.chatRooms ∧
      (∀ r, (l'.roomHeap r).clients = (lobby4.roomHeap r).clients) ∧
      (∀ x, (l'.clientHeap x).chatRoom = (lobby4.clientHeap x).chatRoom) ∧
      (∀ x, x ≠ 0 → l'.clientHeap x = lobby4.clientHeap x)) :=
  ⟨⟨_, rfl, rfl, rfl, rfl⟩, ⟨_, rfl, rfl, rfl⟩,
    (ChangeName_spec kitchen0 lobby4 0 "Bob" 9).2.2⟩

/-! ## C13: well-formed command lines -/

theorem TrimSuffix_newline (a : String) (ha : '\n' ∉ a.data) : TrimSuffix a "\n" = a := by
  unfold TrimSuffix HasSuffix
  have h : List.isSuffixOf "\n".data a.data = false := by
    unfold List.isSuffixOf
    cases hr : a.data.reverse with
    | nil => rfl
    | cons x xs =>
      have hx : x ∈ a.data := by
        rw [← List.mem_reverse, hr]
        exact List.mem_cons_self x xs
      have hne : ¬ '\n' = x := fun e => ha (e ▸ hx)
      show (('\n' == x) && List.isPrefixOf [] xs) = false
      simp [hne]
  rw [h]
  rfl

theorem TrimPrefix_criar (a : String) : TrimPrefix ("/criar " ++ a) (CMD_CRIAR ++ " ") = a := by
  have h : HasPrefix ("/criar " ++ a) (CMD_CRIAR ++ " ") = true := by
    simp [HasPrefix, CMD_CRIAR, CMD_PREFIX]
  unfold TrimPrefix
  rw [if_pos h]
  apply String.ext
  rfl

theorem TrimPrefix_juntar (a : String) :
    TrimPrefix ("/juntar " ++ a) (CMD_JUNTAR ++ " ") = a := by
  have h : HasPrefix ("/juntar " ++ a) (CMD_JUNTAR ++ " ") = true := by
    simp [HasPrefix, CMD_JUNTAR, CMD_PREFIX]
  unfold TrimPrefix
  rw [if_pos h]
  apply String.ext
  rfl

theorem TrimPrefix_nome (a : String) : TrimPrefix ("/nome " ++ a) (CMD_NOME ++ " ") = a := by
  have h : HasPrefix ("/nome " ++ a) (CMD_NOME ++ " ") = true := by
    simp [HasPrefix, CMD_NOME, CMD_PREFIX]
  unfold TrimPrefix
  rw [if_pos h]
  apply String.ext
  rfl

/-- C13. Let `a` be a string without a newline, `c` the sending client. `Parse` handles
the line `/criar a` as `CreateChatRoom(c, a)`, `/juntar a` as `JoinChatRoom(c, a)` and
`/nome a` as `ChangeName(c, a)`, the argument being `a` as it stands, and the lines
`/lista`, `/deixar`, `/ajuda` and `/sair` as `ListChatRooms(c)`, `LeaveChatRoom(c)`,
`Help(c)` and `c.Quit()`; in each case `Parse` is that one call and nothing else. -/
theorem Parse_wellformed (kitchen : Time → String) (l : Lobby) (t : Time) (c : ClientId)
    (a : String) (now now' : Time) (ha : '\n' ∉ a.data) :
    Lobby.Parse kitchen l ⟨t, c, "/criar " ++ a⟩ now now' = Lobby.CreateChatRoom l c a now ∧
    Lobby.Parse kitchen l ⟨t, c, "/juntar " ++ a⟩ now now' =
      Lobby.JoinChatRoom l c a now now' ∧
    Lobby.Parse kitchen l ⟨t, c, "/nome " ++ a⟩ now now' = Lobby.ChangeName l c a now ∧
    Lobby.Parse kitchen l ⟨t, c, "/lista"⟩ now now' = Lobby.ListChatRooms l c ∧
    Lobby.Parse kitchen l ⟨t, c, "/deixar"⟩ now now' = Lobby.LeaveChatRoom l c now ∧
    Lobby.Parse kitchen l ⟨t, c, "/ajuda"⟩ now now' = Lobby.Help l c ∧
    Lobby.Parse kitchen l ⟨t, c, "/sair"⟩ now now' = some (Client.Quit l c) := by
  refine ⟨?_, ?_, ?_, rfl, rfl, rfl, rfl⟩
  · have h : HasPrefix ("/criar " ++ a) CMD_CRIAR = true := rfl
    unfold Lobby.Parse
    simp only [h, if_true, TrimPrefix_criar, TrimSuffix_newline a ha]
  · have h1 : HasPrefix ("/juntar " ++ a) CMD_CRIAR = false := rfl
    have h2 : HasPrefix ("/juntar " ++ a) CMD_LISTA = false := rfl
    have h3 : HasPrefix ("/juntar " ++ a) CMD_JUNTAR = true := rfl
    unfold Lobby.Parse
    simp only [h1, h2, h3, if_true, Bool.false_eq_true, if_false, TrimPrefix_juntar,
      TrimSuffix_newline a ha]
  · have h1 : HasPrefix ("/nome " ++ a) CMD_CRIAR = false := rfl
    have h2 : HasPrefix ("/nome " ++ a) CMD_LISTA = false := rfl
    have h3 : HasPrefix ("/nome " ++ a) CMD_JUNTAR = false := rfl
    have h4 : HasPrefix ("/nome " ++ a) CMD_DEIXAR = false := rfl
    have h5 : HasPrefix ("/nome " ++ a) CMD_NOME = true := rfl
    unfold Lobby.Parse
    simp only [h1, h2, h3, h4, h5, if_true, Bool.false_eq_true, if_false, TrimPrefix_nome,
      TrimSuffix_newline a ha]

/-- C13 at the argument `Sala Um`, with a space and capitals, and at the empty argument. -/
theorem Parse_wellformed_witness :
    (Lobby.Parse kitchen0 lobby4 ⟨9, 2, "/criar Sala Um"⟩ 9 9 =
      Lobby.CreateChatRoom lobby4 2 "Sala Um" 9 ∧
     Lobby.Parse kitchen0 lobby4 ⟨9, 2, "/nome "⟩ 9 9 = Lobby.ChangeName lobby4 2 "" 9) ∧
    (Lobby.Parse kitchen0 lobby4 ⟨9, 2, "/criar " ++ "Sala Um"⟩ 9 9 =
        Lobby.CreateChatRoom lobby4 2 "Sala Um" 9 ∧
      Lobby.Parse kitchen0 lobby4 ⟨9, 2, "/juntar " ++ "Sala Um"⟩ 9 9 =
        Lobby.JoinChatRoom lobby4 2 "Sala Um" 9 9 ∧
      Lobby.Parse kitchen0 lobby4 ⟨9, 2, "/nome " ++ "Sala Um"⟩ 9 9 =
        Lobby.ChangeName lobby4 2 "Sala Um" 9 ∧
      Lobby.Parse kitchen0 lobby4 ⟨9, 2, "/lista"⟩ 9 9 = Lobby.ListChatRooms lobby4 2 ∧
      Lobby.Parse kitchen0 lobby4 ⟨9, 2, "/deixar"⟩ 9 9 = Lobby.LeaveChatRoom lobby4 2 9 ∧
      Lobby.Parse kitchen0 lobby4 ⟨9, 2, "/ajuda"⟩ 9 9 = Lobby.Help lobby4 2 ∧
      Lobby.Parse kitchen0 lobby4 ⟨9, 2, "/sair"⟩ 9 9 = some (Client.Quit lobby4 2)) :=
  ⟨⟨rfl, rfl⟩, Parse_wellformed kitchen0 lobby4 9 2 "Sala Um" 9 9 (by decide)⟩

/-! ## C14: the server-full notice -/


/-- C14, the code at a full registry: `Lobby.Join` of an eleventh client closes its
connection and sends nothing, so `MSG_CHEIO` never reaches the client. -/
theorem Join_full_sends_nothing :
    run kitchen0 NewLobby run14 = some lobby14 ∧
    lobby14.clients.length = MAX_CLIENTS ∧
    ∃ l', Lobby.Join lobby14 10 = some l' ∧
      l'.sent = lobby14.sent ∧ l'.outgoing 10 = [] ∧ MSG_CHEIO ∉ l'.outgoing 10 ∧
      (l'.clientHeap 10).connClosed = true :=
  ⟨rfl, rfl, _, rfl, rfl, rfl, by decide, rfl⟩

/-! ## C15: who calls `Lobby.Join` -/


/-- C15, the code at an accepted connection: the accept loop of `main` runs `Lobby.Join`
in its own goroutine, and that call changes the client list. -/
theorem accept_loop_mutates_registry :
    (Step.accept 0).goroutine = Goroutine.acceptLoop ∧
    (Step.accept 0).goroutine ≠ Goroutine.eventLoop ∧
    NewLobby.clients = [] ∧
    ∃ l', Step.exec kitchen0 NewLobby (Step.accept 0) = some l' ∧ l'.clients = [0] :=
  ⟨rfl, by decide, rfl, _, rfl, rfl⟩

/-! ## C17: lines end with a newline -/

/-- C17, the code at a roomless client renaming itself to `Bob`: the string sent is the
format constant followed by `%!(EXTRA string=Bob)`, as `fmt.Sprintf` writes an operand the
format has no verb for, and it does not end with a newline. For every new name the string
sent ends with `)`. -/
theorem rename_confirmation_no_newline :
    (lobby4.clientHeap 2).chatRoom = none ∧
    (∃ l', Lobby.ChangeName lobby4 2 "Bob" 9 = some l' ∧
      l'.sent = lobby4.sent ++ [(2, "Alerta: Mudar o nome para \"\".\n%!(EXTRA string=Bob)")]) ∧
    HasSuffix "Alerta: Mudar o nome para \"\".\n%!(EXTRA string=Bob)" "\n" = false ∧
    ∀ n : String, (Sprintf NOTICE_PERSONAL_NOME [n]).data.getLast? = some ')' := by
  refine ⟨rfl, ⟨_, rfl, rfl⟩, by decide, ?_⟩
  intro n
  rw [Sprintf_personal_nome]
  simp only [String.data_append]
  exact List.getLast?_concat _

/-! ## C18: command lines without an argument -/

/-- C18, the code at the lines `/criar` and `/criarX`: no `/criar ` with a space is there
to trim, so the name passed to `CreateChatRoom` is the whole line, command token included,
and a room of that name is registered. -/
theorem Parse_token_in_name :
    Lobby.Parse kitchen0 lobby4 ⟨9, 2, "/criar"⟩ 9 9 = Lobby.CreateChatRoom lobby4 2 "/criar" 9 ∧
    Lobby.Parse kitchen0 lobby4 ⟨9, 2, "/criarX"⟩ 9 9 =
      Lobby.CreateChatRoom lobby4 2 "/criarX" 9 ∧
    Lobby.Parse kitchen0 lobby4 ⟨9, 2, "/nome"⟩ 9 9 = Lobby.ChangeName lobby4 2 "/nome" 9 ∧
    Lobby.Parse kitchen0 lobby4 ⟨9, 2, "/juntar"⟩ 9 9 =
      Lobby.JoinChatRoom lobby4 2 "/juntar" 9 9 ∧
    ∃ l', Lobby.Parse kitchen0 lobby4 ⟨9, 2, "/criar"⟩ 9 9 = some l' ∧
      l'.chatRooms = [("a", 0), ("/criar", 1)] ∧
      (l'.roomHeap 1).name = "/criar" ∧
      l'.sent = lobby4.sent ++ [(2, "Alerta: Criar sala de chat \"/criar\".\n")] :=
  ⟨rfl, rfl, rfl, rfl, _, rfl, rfl, rfl, rfl⟩

/-! ## C16: expiry check before the expiry -/

theorem act_run {kitchen : Time → String} {es : List Event} :
    ∀ {l l' : Lobby}, run kitchen l es = some l' → l.Act l' := by
  induction es with
  | nil =>
    intro l l' h
    injection h with h
    subst h
    exact act_refl l
  | cons e es ih =>
    intro l l' h
    simp only [run, Option.bind_eq_some] at h
    obtain ⟨l1, h1, h2⟩ := h
    exact act_trans (act_Listen h1) (ih h2)

theorem Sleep_Sub (e t : Nat) : Sleep t (Time.Sub e t) = max t e := by
  show t + ((e : Int) - (t : Int)).toNat = max t e
  omega

theorem run_chat {kitchen : Time → String} {l : Lobby} {m : Message} {T T' : Time}
    {R : RoomId} (hm : (l.clientHeap m.client).chatRoom = some R)
    (hcmd : ∀ cmd ∈ [CMD_CRIAR, CMD_LISTA, CMD_JUNTAR, CMD_DEIXAR, CMD_NOME, CMD_AJUDA, CMD_SAIR],
      HasPrefix m.text cmd = false)
    (hopen : ∀ x ∈ (l.roomHeap R).clients, (l.clientHeap x).outgoingClosed = false) :
    run kitchen l [.incoming m T T'] =
      some (l.afterBroadcast R T (Message.String kitchen l m)) := by
  simp only [run, Lobby.Listen, Parse_content hcmd, Lobby.SendMessage, hm,
    Broadcast_eq_some.mpr ⟨hopen, rfl⟩, Option.some_bind]

/-- C16 as stated fails. Room 0 of `lobby9` has the expiry `5 + EXPIRY_TIME` and the member
1. Its check at the reading `3 + EXPIRY_TIME` finds the remaining duration 2 and starts the
goroutine. Before the goroutine is scheduled the loop handles the chat line `oi` of client
1 at the reading `4 + EXPIRY_TIME`, and the broadcast sets the expiry to
`4 + EXPIRY_TIME + EXPIRY_TIME`. The goroutine, reading the clock at `5 + EXPIRY_TIME`,
sleeps `EXPIRY_TIME - 1` nanoseconds, not 2, and the further check fires at the new expiry,
not at `3 + EXPIRY_TIME + 2`. -/
theorem reschedule_after_broadcast :
    (lobby9.roomHeap 0).expiry = 5 + EXPIRY_TIME ∧
    3 + EXPIRY_TIME < (lobby9.roomHeap 0).expiry ∧
    (lobby9.roomHeap 0).expiry - (3 + EXPIRY_TIME) = 2 ∧
    Time.Sub (lobby9.roomHeap 0).expiry (3 + EXPIRY_TIME) = 2 ∧
    (lobby9.clientHeap 1).chatRoom = some 0 ∧
    ∃ l2, Lobby.DeleteChatRoomThenSleep kitchen0 lobby9 0 (3 + EXPIRY_TIME) (3 + EXPIRY_TIME)
        [.incoming ⟨4 + EXPIRY_TIME, 1, "oi"⟩ (4 + EXPIRY_TIME) (4 + EXPIRY_TIME)]
        (5 + EXPIRY_TIME) = some (l2, 604799999999999, 4 + EXPIRY_TIME + EXPIRY_TIME) ∧
      (l2.roomHeap 0).expiry = 4 + EXPIRY_TIME + EXPIRY_TIME ∧
      (604799999999999 : Int) ≠ 2 ∧
      4 + EXPIRY_TIME + EXPIRY_TIME ≠ 3 + EXPIRY_TIME + 2 :=
  ⟨rfl, by decide, rfl, by decide, rfl, _, rfl, rfl, by decide, by decide⟩

/-- C16 as amended. When `DeleteChatRoom(R)` runs with the clock of its test reading `now`,
before the expiry `e` of `R`, it returns and the state after it is the state before with
one more goroutine of `R` pending: the room map, every room object (member list, history,
expiry), every client object and the sends are unchanged, and a check that arrived through
the loop leaves one goroutine of `R` pending again. The goroutine computes its sleep when it
runs: whatever events the loop handles before that, the argument of `Sleep` is the expiry
of `R` as it is then minus the reading `now''` of the goroutine, so the further check fires
at that expiry, or at once when it is past. That expiry is `e` when nothing was broadcast
to `R` in between, and then the check fires at `e`, which is `now + (e - now)`, the
remaining duration after the first check; otherwise it is the reading of the latest broadcast to `R` plus `EXPIRY_TIME`, as
after a chat line of a member of `R` handled in between. -/
theorem DeleteChatRoom_before_expiry (kitchen : Time → String) (l : Lobby) (R : RoomId)
    (now now' : Time) (hexp : now < (l.roomHeap R).expiry) :
    Lobby.DeleteChatRoom l R now now' = some { l with timers := l.timers ++ [R] } ∧
    (∀ l', Lobby.DeleteChatRoom l R now now' = some l' →
      l'.timers = l.timers ++ [R] ∧ l'.chatRooms = l.chatRooms ∧ l'.roomHeap = l.roomHeap ∧
      l'.clientHeap = l.clientHeap ∧ l'.clients = l.clients ∧ l'.sent = l.sent ∧
      (∀ x, l'.outgoing x = l.outgoing x)) ∧
    (R ∈ l.timers → Lobby.Listen kitchen l (.delete R now now') =
      some { l with timers := removeFirst R l.timers ++ [R] }) ∧
    (∀ between l2 now'', run kitchen { l with timers := l.timers ++ [R] } between = some l2 →
      Lobby.DeleteChatRoomThenSleep kitchen l R now now' between now'' =
        some (l2, ((l2.roomHeap R).expiry : Int) - (now'' : Int),
          max now'' (l2.roomHeap R).expiry) ∧
      (((l2.roomHeap R).expiry = (l.roomHeap R).expiry ∧
          lastActivity l2.activity R = lastActivity l.activity R) ∨
        ∃ T, lastActivity l2.activity R = some T ∧
          (l2.roomHeap R).expiry = T + EXPIRY_TIME) ∧
      ((l2.roomHeap R).expiry = (l.roomHeap R).expiry → now'' ≤ (l.roomHeap R).expiry →
        Lobby.DeleteChatRoomThenSleep kitchen l R now now' between now'' =
          some (l2, ((l.roomHeap R).expiry : Int) - (now'' : Int), (l.roomHeap R).expiry))) ∧
    (∀ now'', now'' ≤ (l.roomHeap R).expiry →
      Lobby.DeleteChatRoomThenSleep kitchen l R now now' [] now'' =
        some ({ l with timers := l.timers ++ [R] },
          ((l.roomHeap R).expiry : Int) - (now'' : Int), (l.roomHeap R).expiry)) ∧
    (l.roomHeap R).expiry = now + ((l.roomHeap R).expiry - now) ∧
    (∀ (m : Message) (T T' : Time), (l.clientHeap m.client).chatRoom = some R →
      (∀ cmd ∈ [CMD_CRIAR, CMD_LISTA, CMD_JUNTAR, CMD_DEIXAR, CMD_NOME, CMD_AJUDA, CMD_SAIR],
        HasPrefix m.text cmd = false) →
      (∀ x ∈ (l.roomHeap R).clients, (l.clientHeap x).outgoingClosed = false) →
      ∀ now'', ∃ l2,
        Lobby.DeleteChatRoomThenSleep kitchen l R now now' [.incoming m T T'] now'' =
          some (l2, ((T + EXPIRY_TIME : Nat) : Int) - (now'' : Int),
            max now'' (T + EXPIRY_TIME)) ∧
        (l2.roomHeap R).expiry = T + EXPIRY_TIME) := by
  have h : Lobby.DeleteChatRoom l R now now' = some { l with timers := l.timers ++ [R] } := by
    unfold Lobby.DeleteChatRoom
    rw [if_pos hexp]
  have hgo : ∀ between l2 now'',
      run kitchen { l with timers := l.timers ++ [R] } between = some l2 →
      Lobby.DeleteChatRoomThenSleep kitchen l R now now' between now'' =
        some (l2, ((l2.roomHeap R).expiry : Int) - (now'' : Int),
          max now'' (l2.roomHeap R).expiry) := by
    intro between l2 now'' hrun
    unfold Lobby.DeleteChatRoomThenSleep
    rw [if_pos hexp, h]
    simp only [Option.some_bind, hrun, Sleep_Sub]
    rfl
  have hfire : ∀ now'', now'' ≤ (l.roomHeap R).expiry →
      max now'' (l.roomHeap R).expiry = (l.roomHeap R).expiry := by
    intro now'' hle
    exact max_eq_right hle
  have hrem : (l.roomHeap R).expiry = now + ((l.roomHeap R).expiry - now) := by
    have q : ∀ a c : Nat, a < c → c = a + (c - a) := by
      intro a c h2
      omega
    exact q _ _ hexp
  refine ⟨h, ?_, ?_, ?_, ?_, hrem, ?_⟩
  · intro l' h'
    rw [h] at h'
    injection h' with h'
    subst h'
    exact ⟨rfl, rfl, rfl, rfl, rfl, rfl, fun _ => rfl⟩
  · intro hR
    simp only [Lobby.Listen, if_pos hR]
    unfold Lobby.DeleteChatRoom
    rw [if_pos hexp]
  · intro between l2 now'' hrun
    refine ⟨hgo between l2 now'' hrun, (act_run hrun).room R, ?_⟩
    intro he hle
    rw [hgo between l2 now'' hrun, he, hfire now'' hle]
  · intro now'' hle
    rw [hgo [] _ now'' rfl]
    show some (_, _, max now'' (l.roomHeap R).expiry) = _
    rw [hfire now'' hle]
  · intro m T T' hm hcmd hopen now''
    have hb : run kitchen { l with timers := l.timers ++ [R] } [.incoming m T T'] =
        some (Lobby.afterBroadcast { l with timers := l.timers ++ [R] } R T
          (Message.String kitchen { l with timers := l.timers ++ [R] } m)) :=
      @run_chat kitchen { l with timers := l.timers ++ [R] } m T T' R hm hcmd hopen
    have he : ((Lobby.afterBroadcast { l with timers := l.timers ++ [R] } R T
        (Message.String kitchen { l with timers := l.timers ++ [R] } m)).roomHeap R).expiry =
        T + EXPIRY_TIME := by
      simp [Lobby.afterBroadcast]
    refine ⟨_, ?_, he⟩
    rw [hgo _ _ now'' hb, he]

/-- C16 as amended, at room 0 of `lobby9` checked two nanoseconds before its expiry, the
goroutine reading the clock one nanosecond later. -/
theorem DeleteChatRoom_before_expiry_witness :
    (3 + EXPIRY_TIME < (lobby9.roomHeap 0).expiry ∧ 0 ∈ lobby9.timers ∧
      lobby9.timers = [0, 1] ∧ (lobby9.roomHeap 0).expiry = 5 + EXPIRY_TIME ∧
      ∃ l2, Lobby.DeleteChatRoomThenSleep kitchen0 lobby9 0 (3 + EXPIRY_TIME) (3 + EXPIRY_TIME)
        [] (4 + EXPIRY_TIME) = some (l2, 1, 5 + EXPIRY_TIME)) ∧
    Lobby.DeleteChatRoom lobby9 0 (3 + EXPIRY_TIME) (3 + EXPIRY_TIME) =
      some { lobby9 with timers := lobby9.timers ++ [0] } ∧
    Lobby.Listen kitchen0 lobby9 (.delete 0 (3 + EXPIRY_TIME) (3 + EXPIRY_TIME)) =
      some { lobby9 with timers := removeFirst 0 lobby9.timers ++ [0] } ∧
    Lobby.DeleteChatRoomThenSleep kitchen0 lobby9 0 (3 + EXPIRY_TIME) (3 + EXPIRY_TIME) []
        (4 + EXPIRY_TIME) =
      some ({ lobby9 with timers := lobby9.timers ++ [0] },
        ((lobby9.roomHeap 0).expiry : Int) - ((4 + EXPIRY_TIME : Nat) : Int),
        (lobby9.roomHeap 0).expiry) ∧
    (lobby9.roomHeap 0).expiry =
      3 + EXPIRY_TIME + ((lobby9.roomHeap 0).expiry - (3 + EXPIRY_TIME)) :=
  ⟨⟨by decide, by decide, rfl, rfl, _, rfl⟩,
    (DeleteChatRoom_before_expiry kitchen0 lobby9 0 (3 + EXPIRY_TIME) (3 + EXPIRY_TIME)
      (by decide)).1,
    (DeleteChatRoom_before_expiry kitchen0 lobby9 0 (3 + EXPIRY_TIME) (3 + EXPIRY_TIME)
      (by decide)).2.2.1 (by decide),
    (DeleteChatRoom_before_expiry kitchen0 lobby9 0 (3 + EXPIRY_TIME) (3 + EXPIRY_TIME)
      (by decide)).2.2.2.2.1 (4 + EXPIRY_TIME) (by decide),
    (DeleteChatRoom_before_expiry kitchen0 lobby9 0 (3 + EXPIRY_TIME) (3 + EXPIRY_TIME)
      (by decide)).2.2.2.2.2.1⟩

/-! ## C19: the member list of a deleted room -/

/-- C19 as stated fails: room 0 of `lobby9` has the member list `[1]`, its expiry check
at its expiry deletes it, and the member list of the room object is still `[1]`. -/
theorem deleted_room_keeps_members :
    (lobby9.roomHeap 0).clients = [1] ∧
    ∃ l', Lobby.Listen kitchen0 lobby9 event10 = some l' ∧
      mapGet l'.chatRooms "a" = none ∧
      (l'.roomHeap 0).clients = [1] ∧ (l'.roomHeap 0).clients ≠ [] :=
  ⟨rfl, _, rfl, rfl, rfl, by decide⟩

/-- C19 as amended. In a state the event loop reaches from `NewLobby`, after the expiry
check of room `R` deleted it (a goroutine of `R` was sleeping and the clock of the test was
not before the expiry), the member list of the room object `R` is what it was before, not
cleared; what is cleared is the room reference of each of its members, and `R` is in the
room map no more, so no client and no name refers to `R`. -/
theorem deleted_room_unreferenced (kitchen : Time → String) (events : List Event)
    (l : Lobby) (hreach : run kitchen NewLobby events = some l) (R : RoomId)
    (now now' : Time) (htimer : R ∈ l.timers) (hexp : (l.roomHeap R).expiry ≤ now)
    (l' : Lobby) (h : Lobby.Listen kitchen l (.delete R now now') = some l') :
    (l'.roomHeap R).clients = (l.roomHeap R).clients ∧
    (∀ x ∈ (l.roomHeap R).clients, (l'.clientHeap x).chatRoom = none) ∧
    (∀ x, (l'.clientHeap x).chatRoom ≠ some R) ∧
    ¬ l'.Registered R := by
  obtain ⟨hR, hM⟩ := ok_run ok_NewLobby hreach
  simp only [Lobby.Listen, if_pos htimer] at h
  obtain ⟨-, rfl⟩ :=
    (@DeleteChatRoom_eq_some { l with timers := removeFirst R l.timers } l' R now now' hexp).mp h
  obtain ⟨-, a2, -, -, -, -, a7, a8⟩ :=
    afterDelete_fields { l with timers := removeFirst R l.timers } R now'
  refine ⟨a7, ?_, ?_, ?_⟩
  · intro x hx
    rw [a8]
    simp only [if_pos hx]
  · intro x
    rw [a8]
    split
    · simp
    · next hx =>
      intro hc
      have hcnt : (l.roomHeap R).clients.count x = 1 := (hM.member x R hc).2.1
      exact hx (List.count_pos_iff.mp (by rw [hcnt]; exact Nat.one_pos))
  · rintro ⟨n, hn⟩
    rw [a2] at hn
    have hn' : mapGet (mapDelete l.chatRooms (l.roomHeap R).name) n = some R := hn
    rw [mapGet_mapDelete] at hn'
    split at hn'
    · cases hn'
    · next hne =>
      exact hne (hR.names _ (mapGet_mem hn')).symm

/-- C19 as amended, at the expiry check that deletes room 0 of `lobby9`. -/
theorem deleted_room_unreferenced_witness :
    (0 ∈ lobby9.timers ∧ (lobby9.roomHeap 0).expiry ≤ 5 + EXPIRY_TIME) ∧
    ∃ l', Lobby.Listen kitchen0 lobby9 event10 = some l' ∧
      ((l'.roomHeap 0).clients = (lobby9.roomHeap 0).clients ∧
        (∀ x ∈ (lobby9.roomHeap 0).clients, (l'.clientHeap x).chatRoom = none) ∧
        (∀ x, (l'.clientHeap x).chatRoom ≠ some 0) ∧
        ¬ l'.Registered 0) :=
  ⟨⟨by decide, by decide⟩, _, rfl,
    deleted_room_unreferenced kitchen0 run9 lobby9 rfl 0 (5 + EXPIRY_TIME) (6 + EXPIRY_TIME)
      (by decide) (by decide) _ rfl⟩

/-! ## C20: closed channels -/


theorem joined_append (h : List Event) (e : Event) (c : ClientId) :
    joined (h ++ [e]) c = (joined h c || e.isJoin c) := by
  simp [joined]

theorem left_append (h : List Event) (e : Event) (c : ClientId) :
    left (h ++ [e]) c = (left h c || e.isLeave c) := by
  simp [left]

theorem clientFrame_refl (l : Lobby) (c : ClientId) : l.ClientFrame l c :=
  ⟨fun _ => rfl, fun _ _ => rfl⟩

theorem clientFrame_trans {l l' l'' : Lobby} {c : ClientId} (h : l.ClientFrame l' c)
    (h' : l'.ClientFrame l'' c) : l.ClientFrame l'' c :=
  ⟨fun x => (h'.closed x).trans (h.closed x),
    fun x hx => (h'.chatRoom x hx).trans (h.chatRoom x hx)⟩

theorem clientFrame_of_heap {l l' : Lobby} (c : ClientId) (h : l'.clientHeap = l.clientHeap) :
    l.ClientFrame l' c :=
  ⟨fun x => by rw [h], fun x _ => by rw [h]⟩

theorem clientFrame_send {l l' : Lobby} {c x : ClientId} {s : String}
    (h : send l x s = some l') : l.ClientFrame l' c := by
  obtain ⟨-, rfl⟩ := send_eq_some.mp h
  exact clientFrame_of_heap c rfl

theorem clientFrame_sends {l l' : Lobby} {c x : ClientId} {strs : List String}
    (h : sends l x strs = some l') : l.ClientFrame l' c := by
  obtain ⟨-, rfl⟩ := sends_eq_some.mp h
  exact clientFrame_of_heap c rfl

theorem clientFrame_Broadcast {l l' : Lobby} {c : ClientId} {R : RoomId} {now : Time}
    {m : String} (h : ChatRoom.Broadcast l R now m = some l') : l.ClientFrame l' c := by
  obtain ⟨-, rfl⟩ := Broadcast_eq_some.mp h
  exact clientFrame_of_heap c rfl

theorem clientFrame_ChatRoomLeave {l l' : Lobby} {c : ClientId} {R : RoomId} {now : Time}
    (h : ChatRoom.Leave l R c now = some l') : l.ClientFrame l' c := by
  obtain ⟨-, -, -, -, -, -, e7, e8, -⟩ := ChatRoomLeave_fields h
  exact ⟨e8, fun x hx => by rw [e7, if_neg hx]⟩

theorem clientFrame_ChatRoomJoin {l l' : Lobby} {c : ClientId} {R : RoomId} {now : Time}
    (h : ChatRoom.Join l R c now = some l') : l.ClientFrame l' c := by
  obtain ⟨-, -, -, -, -, -, e7, e8, -⟩ := ChatRoomJoin_fields h
  exact ⟨e8, fun x hx => by rw [e7, if_neg hx]⟩

theorem clientFrame_LeaveChatRoom {l l' : Lobby} {c : ClientId} {now : Time}
    (h : Lobby.LeaveChatRoom l c now = some l') : l.ClientFrame l' c := by
  unfold Lobby.LeaveChatRoom at h
  split at h
  · exact clientFrame_send h
  · exact clientFrame_ChatRoomLeave h

theorem clientFrame_JoinChatRoom {l l' : Lobby} {c : ClientId} {name : String}
    {now now' : Time} (h : Lobby.JoinChatRoom l c name now now' = some l') :
    l.ClientFrame l' c := by
  unfold Lobby.JoinChatRoom at h
  split at h
  · exact clientFrame_send h
  · simp only [Option.bind_eq_some] at h
    obtain ⟨l1, h1, h2⟩ := h
    have a1 : l.ClientFrame l1 c := by
      split at h1
      · exact clientFrame_LeaveChatRoom h1
      · injection h1 with h1
        subst h1
        exact clientFrame_refl l c
    split at h2
    · cases h2
    · exact clientFrame_trans a1 (clientFrame_ChatRoomJoin h2)

theorem clientFrame_CreateChatRoom {l l' : Lobby} {c : ClientId} {name : String} {now : Time}
    (h : Lobby.CreateChatRoom l c name now = some l') : l.ClientFrame l' c := by
  cases hn : mapGet l.chatRooms name with
  | some r =>
    unfold Lobby.CreateChatRoom at h
    rw [hn] at h
    exact clientFrame_send h
  | none =>
    obtain ⟨-, rfl⟩ := (CreateChatRoom_eq_some hn).mp h
    exact clientFrame_of_heap c rfl

theorem clientFrame_ChangeName {l l' : Lobby} {c : ClientId} {name : String} {now : Time}
    (h : Lobby.ChangeName l c name now = some l') : l.ClientFrame l' c := by
  cases hroom : (l.clientHeap c).chatRoom with
  | none =>
    obtain ⟨-, rfl⟩ := (ChangeName_roomless hroom).mp h
    refine ⟨fun x => ?_, fun x hx => ?_⟩
    · by_cases hx : x = c
      · subst hx; simp [Lobby.afterPersonalRename]
      · simp [Lobby.afterPersonalRename, hx]
    · simp [Lobby.afterPersonalRename, hx]
  | some R =>
    obtain ⟨-, rfl⟩ := (ChangeName_inRoom hroom).mp h
    refine ⟨fun x => ?_, fun x hx => ?_⟩
    · by_cases hx : x = c
      · subst hx; simp [Lobby.afterRoomRename, Lobby.afterBroadcast]
      · simp [Lobby.afterRoomRename, Lobby.afterBroadcast, hx]
    · simp [Lobby.afterRoomRename, Lobby.afterBroadcast, hx]

theorem clientFrame_Quit (l : Lobby) (c x : ClientId) : l.ClientFrame (Client.Quit l x) c := by
  refine ⟨fun y => ?_, fun y _ => ?_⟩
  · by_cases hy : y = x <;> simp [Client.Quit, hy]
  · by_cases hy : y = x <;> simp [Client.Quit, hy]

theorem clientFrame_Parse {kitchen : Time → String} {l l' : Lobby} {m : Message}
    {now now' : Time} (h : Lobby.Parse kitchen l m now now' = some l') :
    l.ClientFrame l' m.client := by
  unfold Lobby.Parse at h
  split at h
  · exact clientFrame_CreateChatRoom h
  split at h
  · exact clientFrame_sends h
  split at h
  · exact clientFrame_JoinChatRoom h
  split at h
  · exact clientFrame_LeaveChatRoom h
  split at h
  · exact clientFrame_ChangeName h
  split at h
  · exact clientFrame_sends h
  split at h
  · injection h with h
    subst h
    exact clientFrame_Quit l _ _
  · unfold Lobby.SendMessage at h
    split at h
    · exact clientFrame_send h
    · exact clientFrame_Broadcast h

/-- `Lobby.Leave` spelled out on the fields the closed-channel conditions read. -/
theorem LobbyLeave_fields {l l' : Lobby} {c : ClientId} {now : Time}
    (h : Lobby.Leave l c now = some l') :
    l'.clients = removeFirst c l.clients ∧
    (l.clientHeap c).outgoingClosed = false ∧
    (∀ x, (l'.clientHeap x).outgoingClosed =
      if x = c then true else (l.clientHeap x).outgoingClosed) ∧
    (∀ x, (l'.clientHeap x).chatRoom = if x = c then none else (l.clientHeap x).chatRoom) := by
  unfold Lobby.Leave at h
  simp only [Option.bind_eq_some] at h
  obtain ⟨l1, h1, h2⟩ := h
  obtain ⟨hopen1, rfl⟩ := closeOutgoing_eq_some.mp h2
  have key : l1.clients = l.clients ∧
      (∀ x, (l1.clientHeap x).outgoingClosed = (l.clientHeap x).outgoingClosed) ∧
      (∀ x, (l1.clientHeap x).chatRoom = if x = c then none else (l.clientHeap x).chatRoom) := by
    cases hroom : (l.clientHeap c).chatRoom with
    | none =>
      rw [hroom] at h1
      injection h1 with h1
      subst h1
      refine ⟨rfl, fun _ => rfl, fun x => ?_⟩
      by_cases hx : x = c
      · subst hx; simp [hroom]
      · simp [hx]
    | some R =>
      rw [hroom] at h1
      obtain ⟨-, e2, -, -, -, -, e7, e8, -⟩ := ChatRoomLeave_fields h1
      exact ⟨e2, e8, e7⟩
  obtain ⟨k1, k2, k3⟩ := key
  refine ⟨?_, ?_, fun x => ?_, fun x => ?_⟩
  · show removeFirst c l1.clients = _
    rw [k1]
  · rw [← k2 c]
    simpa using hopen1
  · by_cases hx : x = c
    · subst hx; simp
    · simp [hx, k2 x]
  · by_cases hx : x = c
    · subst hx
      have := k3 x
      simpa using this
    · have := k3 x
      simpa [hx] using this

/-- The expiry check closes no channel and gives no client a room. -/
theorem DeleteChatRoom_clients {l l' : Lobby} {R : RoomId} {now now' : Time}
    (h : Lobby.DeleteChatRoom l R now now' = some l') :
    (∀ x, (l'.clientHeap x).outgoingClosed = (l.clientHeap x).outgoingClosed) ∧
    (∀ x, (l'.clientHeap x).chatRoom = (l.clientHeap x).chatRoom ∨
      (l'.clientHeap x).chatRoom = none) := by
  by_cases hexp : (l.roomHeap R).expiry ≤ now
  · obtain ⟨-, rfl⟩ := (DeleteChatRoom_eq_some hexp).mp h
    obtain ⟨-, -, -, -, -, -, -, a8⟩ := afterDelete_fields l R now'
    refine ⟨fun x => ?_, fun x => ?_⟩
    · rw [a8]
      split <;> rfl
    · rw [a8]
      split
      · exact Or.inr rfl
      · exact Or.inl rfl
  · unfold Lobby.DeleteChatRoom at h
    rw [if_pos (Nat.lt_of_not_le hexp)] at h
    injection h with h
    subst h
    exact ⟨fun _ => rfl, fun _ => Or.inl rfl⟩

theorem isLeave_join (c x : ClientId) : (Event.join c).isLeave x = false := rfl
theorem isLeave_incoming (m : Message) (now now' : Time) (x : ClientId) :
    (Event.incoming m now now').isLeave x = false := rfl
theorem isLeave_delete (r : RoomId) (now now' : Time) (x : ClientId) :
    (Event.delete r now now').isLeave x = false := rfl

/-- A step that neither closes a channel nor changes the registry, and that gives no room
to a client that left, keeps the closed-channel conditions. -/
theorem closedOk_quiet {h : List Event} {l l' : Lobby} (e : Event) (w : l.ClosedOk h)
    (he : ∀ x, e.isLeave x = false)
    (h1 : l'.clients = l.clients)
    (h2 : ∀ x, (l'.clientHeap x).outgoingClosed = (l.clientHeap x).outgoingClosed)
    (h3 : ∀ x, left h x = true → (l.clientHeap x).chatRoom = none →
      (l'.clientHeap x).chatRoom = none) :
    l'.ClosedOk (h ++ [e]) := by
  have hleft : ∀ x, left (h ++ [e]) x = left h x := by
    intro x
    rw [left_append, he x, Bool.or_false]
  have hjoin : ∀ x, joined h x = true → joined (h ++ [e]) x = true := by
    intro x hx
    rw [joined_append, hx, Bool.true_or]
  constructor
  · intro c hc
    rw [hleft]
    rw [h2] at hc
    exact w.closedLeft c hc
  · intro c hc
    rw [hleft] at hc
    rw [h1]
    exact ⟨(w.leftGone c hc).1, h3 c hc (w.leftGone c hc).2⟩
  · rw [h1]
    exact w.nodup
  · intro c hc
    rw [h1] at hc
    exact hjoin c (w.regJoined c hc)
  · intro c hc
    rw [hleft] at hc
    exact hjoin c (w.leftJoined c hc)

theorem closedOk_Listen {kitchen : Time → String} {h : List Event} {l l' : Lobby}
    {e : Event} (w : l.ClosedOk h) (ha : admits h e)
    (hl : Lobby.Listen kitchen l e = some l') : l'.ClosedOk (h ++ [e]) := by
  cases e with
  | incoming m now now' =>
    have ha' : left h m.client = false := ha
    have hf := clientFrame_Parse hl
    refine closedOk_quiet _ w (isLeave_incoming m now now') (clients_Parse hl) hf.closed ?_
    intro x hx hnone
    have hne : x ≠ m.client := by
      intro e
      rw [e, ha'] at hx
      cases hx
    rw [hf.chatRoom x hne]
    exact hnone
  | delete r now now' =>
    simp only [Lobby.Listen] at hl
    split at hl
    · obtain ⟨d1, d2⟩ := DeleteChatRoom_clients hl
      have d0 : l'.clients = l.clients :=
        @clients_DeleteChatRoom { l with timers := removeFirst r l.timers } l' r now now' hl
      refine closedOk_quiet _ w (isLeave_delete r now now') d0 d1 ?_
      intro x _ hnone
      rcases d2 x with hx | hx
      · rw [hx]
        exact hnone
      · exact hx
    · cases hl
  | join c =>
    have ha' : joined h c = false := ha
    have hl' : Lobby.Join l c = some l' := hl
    unfold Lobby.Join at hl'
    split at hl'
    · injection hl' with hl'
      subst hl'
      refine closedOk_quiet _ w (isLeave_join c) rfl (clientFrame_Quit l c c).closed ?_
      intro x _ hnone
      by_cases hx : x = c
      · subst hx
        simpa [Client.Quit] using hnone
      · rw [(clientFrame_Quit l c c).chatRoom x hx]
        exact hnone
    · obtain ⟨-, rfl⟩ := send_eq_some.mp hl'
      have hleft : ∀ x, left (h ++ [Event.join c]) x = left h x := by
        intro x
        rw [left_append, isLeave_join, Bool.or_false]
      have hcnot : c ∉ l.clients := by
        intro hc
        rw [w.regJoined c hc] at ha'
        cases ha'
      constructor
      · intro x hx
        rw [hleft]
        exact w.closedLeft x hx
      · intro x hx
        rw [hleft] at hx
        refine ⟨?_, (w.leftGone x hx).2⟩
        show x ∉ l.clients ++ [c]
        rw [List.mem_append, List.mem_singleton]
        rintro (hmem | rfl)
        · exact (w.leftGone x hx).1 hmem
        · rw [w.leftJoined x hx] at ha'
          cases ha'
      · show (l.clients ++ [c]).Nodup
        rw [List.nodup_append]
        refine ⟨w.nodup, by simp, ?_⟩
        intro x hx hx'
        simp only [List.mem_singleton] at hx'
        subst hx'
        exact hcnot hx
      · intro x hx
        have hx' : x ∈ l.clients ++ [c] := hx
        rw [joined_append]
        rcases List.mem_append.mp hx' with hmem | hmem
        · rw [w.regJoined x hmem, Bool.true_or]
        · simp only [List.mem_singleton] at hmem
          subst hmem
          simp [Event.isJoin]
      · intro x hx
        rw [hleft] at hx
        rw [joined_append, w.leftJoined x hx, Bool.true_or]
  | leave c now =>
    have ha' : joined h c = true ∧ left h c = false := ha
    have hl' : Lobby.Leave l c now = some l' := hl
    obtain ⟨f1, -, f3, f4⟩ := LobbyLeave_fields hl'
    have hleft : ∀ x, left (h ++ [Event.leave c now]) x = (left h x || decide (c = x)) := by
      intro x
      rw [left_append]
      rfl
    constructor
    · intro x hx
      rw [hleft]
      rw [f3] at hx
      by_cases hxc : x = c
      · subst hxc; simp
      · rw [if_neg hxc] at hx
        rw [w.closedLeft x hx, Bool.true_or]
    · intro x hx
      rw [hleft] at hx
      rw [f1, f4, removeFirst_eq_erase]
      by_cases hxc : x = c
      · subst hxc
        exact ⟨fun hmem => ((List.Nodup.mem_erase_iff w.nodup).mp hmem).1 rfl, by simp⟩
      · have hx' : left h x = true := by
          have : ¬ c = x := fun e => hxc e.symm
          simpa [this] using hx
        rw [if_neg hxc]
        exact ⟨fun hmem => (w.leftGone x hx').1 (List.mem_of_mem_erase hmem),
          (w.leftGone x hx').2⟩
    · rw [f1, removeFirst_eq_erase]
      exact w.nodup.erase c
    · intro x hx
      rw [f1, removeFirst_eq_erase] at hx
      rw [joined_append, w.regJoined x (List.mem_of_mem_erase hx), Bool.true_or]
    · intro x hx
      rw [hleft] at hx
      rw [joined_append]
      by_cases hxc : x = c
      · subst hxc
        rw [ha'.1, Bool.true_or]
      · have hx' : left h x = true := by
          have : ¬ c = x := fun e => hxc e.symm
          simpa [this] using hx
        rw [w.leftJoined x hx', Bool.true_or]

/-! ### Every handler returns when the channels it sends to are open -/

theorem LeaveChatRoom_returns {l : Lobby} (c : ClientId) (now : Time)
    (hc : (l.clientHeap c).outgoingClosed = false)
    (hroom : ∀ R, (l.clientHeap c).chatRoom = some R →
      ∀ x ∈ (l.roomHeap R).clients, (l.clientHeap x).outgoingClosed = false) :
    ∃ l', Lobby.LeaveChatRoom l c now = some l' := by
  unfold Lobby.LeaveChatRoom
  cases hr : (l.clientHeap c).chatRoom with
  | none => exact ⟨_, send_eq_some.mpr ⟨hc, rfl⟩⟩
  | some R => exact ⟨_, ChatRoomLeave_eq_some.mpr ⟨hroom R hr, rfl⟩⟩

theorem JoinChatRoom_returns_of {l : Lobby} (c : ClientId) (name : String) (now now' : Time)
    (hc : (l.clientHeap c).outgoingClosed = false)
    (hroom : ∀ R, (l.clientHeap c).chatRoom = some R →
      ∀ x ∈ (l.roomHeap R).clients, (l.clientHeap x).outgoingClosed = false)
    (htarget : ∀ R, mapGet l.chatRooms name = some R →
      ∀ x ∈ (l.roomHeap R).clients, (l.clientHeap x).outgoingClosed = false) :
    ∃ l', Lobby.JoinChatRoom l c name now now' = some l' := by
  unfold Lobby.JoinChatRoom
  cases hn : mapGet l.chatRooms name with
  | none => exact ⟨_, send_eq_some.mpr ⟨hc, rfl⟩⟩
  | some R =>
    have h1 : ∃ l1, (if (l.clientHeap c).chatRoom ≠ none then Lobby.LeaveChatRoom l c now
        else some l) = some l1 ∧ l1.chatRooms = l.chatRooms ∧
        (∀ x, (l1.clientHeap x).outgoingClosed = (l.clientHeap x).outgoingClosed) ∧
        ∀ x ∈ (l1.roomHeap R).clients, x ∈ (l.roomHeap R).clients := by
      split
      · next hne =>
        unfold Lobby.LeaveChatRoom
        cases hr : (l.clientHeap c).chatRoom with
        | none => exact absurd hr hne
        | some R0 =>
          have hl : ChatRoom.Leave l R0 c now = some _ :=
            ChatRoomLeave_eq_some.mpr ⟨hroom R0 hr, rfl⟩
          obtain ⟨e1, -, -, -, e5, -, -, e8, -⟩ := ChatRoomLeave_fields hl
          refine ⟨_, hl, e1, e8, ?_⟩
          intro x hx
          rw [e5] at hx
          split at hx
          · rw [removeFirst_eq_erase] at hx
            exact List.mem_of_mem_erase hx
          · exact hx
      · exact ⟨l, rfl, rfl, fun _ => rfl, fun _ hx => hx⟩
    obtain ⟨l1, e1, e2, e3, e4⟩ := h1
    simp only [e1, Option.some_bind, e2, hn]
    refine ⟨_, ChatRoomJoin_eq_some.mpr ⟨?_, rfl⟩⟩
    intro x hx
    rw [e3]
    rcases List.mem_append.mp hx with hx | hx
    · exact htarget R hn x (e4 x hx)
    · simp only [List.mem_singleton] at hx
      subst hx
      exact hc

theorem Parse_returns {kitchen : Time → String} {l : Lobby} (m : Message) (now now' : Time)
    (hc : (l.clientHeap m.client).outgoingClosed = false)
    (hroom : ∀ R, (l.clientHeap m.client).chatRoom = some R →
      ∀ x ∈ (l.roomHeap R).clients, (l.clientHeap x).outgoingClosed = false)
    (hreg : ∀ name R, mapGet l.chatRooms name = some R →
      ∀ x ∈ (l.roomHeap R).clients, (l.clientHeap x).outgoingClosed = false) :
    ∃ l', Lobby.Parse kitchen l m now now' = some l' := by
  unfold Lobby.Parse
  split
  · cases hn : mapGet l.chatRooms (TrimSuffix (TrimPrefix m.text (CMD_CRIAR ++ " ")) "\n") with
    | none => exact ⟨_, (CreateChatRoom_eq_some hn).mpr ⟨hc, rfl⟩⟩
    | some r =>
      unfold Lobby.CreateChatRoom
      rw [hn]
      exact ⟨_, send_eq_some.mpr ⟨hc, rfl⟩⟩
  split
  · exact ⟨_, sends_eq_some.mpr ⟨fun _ => hc, rfl⟩⟩
  split
  · exact JoinChatRoom_returns_of _ _ now now' hc hroom (hreg _)
  split
  · exact LeaveChatRoom_returns _ now hc hroom
  split
  · cases hr : (l.clientHeap m.client).chatRoom with
    | none => exact ⟨_, (ChangeName_roomless hr).mpr ⟨hc, rfl⟩⟩
    | some R => exact ⟨_, (ChangeName_inRoom hr).mpr ⟨hroom R hr, rfl⟩⟩
  split
  · exact ⟨_, sends_eq_some.mpr ⟨fun _ => hc, rfl⟩⟩
  split
  · exact ⟨_, rfl⟩
  · unfold Lobby.SendMessage
    cases hr : (l.clientHeap m.client).chatRoom with
    | none => exact ⟨_, send_eq_some.mpr ⟨hc, rfl⟩⟩
    | some R => exact ⟨_, Broadcast_eq_some.mpr ⟨hroom R hr, rfl⟩⟩

theorem LobbyLeave_returns {l : Lobby} (c : ClientId) (now : Time)
    (hc : (l.clientHeap c).outgoingClosed = false)
    (hroom : ∀ R, (l.clientHeap c).chatRoom = some R →
      ∀ x ∈ (l.roomHeap R).clients, (l.clientHeap x).outgoingClosed = false) :
    ∃ l', Lobby.Leave l c now = some l' := by
  unfold Lobby.Leave
  cases hr : (l.clientHeap c).chatRoom with
  | none =>
    simp only [Option.some_bind]
    exact ⟨_, closeOutgoing_eq_some.mpr ⟨hc, rfl⟩⟩
  | some R =>
    have hl : ChatRoom.Leave l R c now = some _ :=
      ChatRoomLeave_eq_some.mpr ⟨hroom R hr, rfl⟩
    simp only [hl, Option.some_bind]
    refine ⟨_, closeOutgoing_eq_some.mpr ⟨?_, rfl⟩⟩
    simpa using hc

/-- In a consistent state where only clients that left have closed channels, every member
of a registered room has an open channel. -/
theorem members_open {h : List Event} {l : Lobby} (hok : l.RegistryOk ∧ l.MembersOk)
    (w : l.ClosedOk h) {k : String} {R : RoomId} (hk : (k, R) ∈ l.chatRooms) :
    ∀ x ∈ (l.roomHeap R).clients, (l.clientHeap x).outgoingClosed = false := by
  intro x hx
  cases hcl : (l.clientHeap x).outgoingClosed with
  | false => rfl
  | true =>
    have h1 := (w.leftGone x (w.closedLeft x hcl)).2
    rw [(member_of_registered hok.2 hk hx).1] at h1
    cases h1

theorem open_of_not_left {h : List Event} {l : Lobby} (w : l.ClosedOk h) {c : ClientId}
    (hc : left h c = false) : (l.clientHeap c).outgoingClosed = false := by
  cases hcl : (l.clientHeap c).outgoingClosed with
  | false => rfl
  | true =>
    rw [w.closedLeft c hcl] at hc
    cases hc

theorem Listen_returns {kitchen : Time → String} {h : List Event} {l : Lobby} {e : Event}
    (hok : l.RegistryOk ∧ l.MembersOk) (w : l.ClosedOk h) (ha : admits h e)
    (hen : ∀ r now now', e = .delete r now now' → r ∈ l.timers) :
    ∃ l', Lobby.Listen kitchen l e = some l' := by
  have hroom : ∀ c R, (l.clientHeap c).chatRoom = some R →
      ∀ x ∈ (l.roomHeap R).clients, (l.clientHeap x).outgoingClosed = false := by
    intro c R hc
    obtain ⟨⟨k, hk⟩, -, -⟩ := hok.2.member c R hc
    exact members_open hok w hk
  cases e with
  | incoming m now now' =>
    have ha' : left h m.client = false := ha
    exact Parse_returns m now now' (open_of_not_left w ha') (hroom m.client)
      (fun name R hn => members_open hok w (mapGet_mem hn))
  | join c =>
    have ha' : joined h c = false := ha
    have hnl : left h c = false := by
      cases hl : left h c with
      | false => rfl
      | true =>
        rw [w.leftJoined c hl] at ha'
        cases ha'
    show ∃ l', Lobby.Join l c = some l'
    unfold Lobby.Join
    split
    · exact ⟨_, rfl⟩
    · exact ⟨_, send_eq_some.mpr ⟨open_of_not_left w hnl, rfl⟩⟩
  | leave c now =>
    have ha' : joined h c = true ∧ left h c = false := ha
    exact LobbyLeave_returns c now (open_of_not_left w ha'.2) (hroom c)
  | delete r now now' =>
    have hr := hen r now now' rfl
    simp only [Lobby.Listen, if_pos hr]
    obtain ⟨k, hk⟩ := hok.1.timersReg r hr
    by_cases hexp : (l.roomHeap r).expiry ≤ now
    · exact ⟨_, (@DeleteChatRoom_eq_some { l with timers := removeFirst r l.timers } _ r now
        now' hexp).mpr ⟨members_open hok w hk, rfl⟩⟩
    · unfold Lobby.DeleteChatRoom
      rw [if_pos (Nat.lt_of_not_le hexp)]
      exact ⟨_, rfl⟩

theorem closedOk_NewLobby : NewLobby.ClosedOk [] := by
  constructor
  · intro c hc
    simp [NewLobby, NewClient] at hc
  · intro c hc
    simp [left] at hc
  · simp [NewLobby]
  · intro c hc
    simp [NewLobby] at hc
  · intro c hc
    simp [left] at hc

theorem closedOk_run {kitchen : Time → String} {es : List Event} :
    ∀ {h : List Event} {l l' : Lobby}, l.ClosedOk h → Admissible h es →
      run kitchen l es = some l' → l'.ClosedOk (h ++ es) := by
  induction es with
  | nil =>
    intro h l l' w _ hr
    injection hr with hr
    subst hr
    simpa using w
  | cons e es ih =>
    intro h l l' w ha hr
    simp only [run, Option.bind_eq_some] at hr
    obtain ⟨l1, h1, h2⟩ := hr
    have := ih (closedOk_Listen w ha.1 h1) ha.2 h2
    simpa using this

/-! ## C20: no push to a closed queue -/

/-- C20. In every state `l` the loop reaches from the empty Lobby by an event sequence in
which every client is joined at most once, `Lobby.Leave` is delivered at most once per
joined client and no line of a client is dispatched after its `Leave`, a client whose
outbound queue is closed is neither in the client registry nor in the member list of a
registered room; and every further event of such a sequence (an expiry check being sent by
a pending timer) is handled without a panic, that is without a send on a closed queue or a
second close. -/
theorem no_push_to_closed (kitchen : Time → String) (events : List Event) (l : Lobby)
    (hadm : Admissible [] events) (hrun : run kitchen NewLobby events = some l) :
    (∀ c, (l.clientHeap c).outgoingClosed = true →
      c ∉ l.clients ∧ ∀ r, l.Registered r → c ∉ (l.roomHeap r).clients) ∧
    (∀ e, admits events e → (∀ r now now', e = .delete r now now' → r ∈ l.timers) →
      ∃ l', Lobby.Listen kitchen l e = some l') := by
  have hok := ok_run ok_NewLobby hrun
  have w : l.ClosedOk events := by
    simpa using closedOk_run closedOk_NewLobby hadm hrun
  refine ⟨fun c hc => ?_, fun e ha hen => Listen_returns hok w ha hen⟩
  refine ⟨(w.leftGone c (w.closedLeft c hc)).1, fun r hr hmem => ?_⟩
  obtain ⟨k, hk⟩ := hr
  have := members_open hok w (mapGet_mem hk) c hmem
  rw [hc] at this
  cases this

theorem no_push_to_closed_witness :
    (Admissible [] run20 ∧ run kitchen0 NewLobby run20 = some lobby20 ∧
      (lobby20.clientHeap 0).outgoingClosed = true ∧ lobby20.clients = [1] ∧
      lobby20.chatRooms = [("a", 0)] ∧ (lobby20.roomHeap 0).clients = [1] ∧
      admits run20 (.incoming ⟨10, 1, "oi"⟩ 10 10) ∧
      admits run20 (.delete 0 (3 + EXPIRY_TIME) (3 + EXPIRY_TIME)) ∧ 0 ∈ lobby20.timers) ∧
    ((∀ c, (lobby20.clientHeap c).outgoingClosed = true →
      c ∉ lobby20.clients ∧ ∀ r, lobby20.Registered r → c ∉ (lobby20.roomHeap r).clients) ∧
    (∀ e, admits run20 e → (∀ r now now', e = .delete r now now' → r ∈ lobby20.timers) →
      ∃ l', Lobby.Listen kitchen0 lobby20 e = some l')) :=
  ⟨⟨by decide, rfl, rfl, rfl, rfl, rfl, by decide, trivial, by decide⟩,
    no_push_to_closed kitchen0 run20 lobby20 (by decide) rfl⟩

end TCPChat
